import Mathlib

/-!
# The dexsearch command of config/commands.js

A shallow embedding of the `dexsearch` chat command (config/commands.js,
lines 559-760) and theorems about it.

The command splits its argument at commas, classifies every piece into a
search category while accumulating a constraint object (`searches`, plus the
`showAll`, `megaSearch` and `feSearch` variables), then filters the Pokedex in
a fixed sequence of passes and renders the surviving species names.

Modelling conventions
* A JavaScript object used as a map from strings to booleans is an association
  list of its own properties in insertion order (`Dict`).
* The names that every object inherits from `Object.prototype`
  (`objectPrototypeNames`) are modelled where the text typed by the user is
  used as a property name: in the `in` tests of lines 589, 596 and 643 (`jsIn`)
  and in the reads and writes of the tier, color and type objects that follow
  them (`addConstraintIn`). Names held by the catalog (ability and move names,
  type tags, tiers, colors) are taken not to be among these names.
* `Tools` (ability, move and template lookup, the type chart, the Pokedex, the
  LC banlist, `escapeHTML`, `randomize`) lives outside this file of the
  repository and is a parameter of every definition.
* `toLowerCase` and `toUpperCase` are modelled on ASCII letters: the models
  agree with the built-in methods on strings of ASCII characters (`isAscii`),
  and the theorems on the classification of a token (C7, C9, C17, C18) are
  stated for such tokens.
* The prior-form walk of the move pass is a `while` loop; it is modelled with
  a fuel argument and reports `Outcome.outOfFuel` when the fuel is exhausted.
-/

namespace Dexsearch

/-! ## JavaScript string primitives -/

/-- White space and line terminators removed by `String.prototype.trim` and
skipped by `parseInt`. -/
def isJsSpace (c : Char) : Bool :=
  let n := c.toNat
  n == 9 || n == 10 || n == 11 || n == 12 || n == 13 || n == 32 || n == 160 ||
  n == 5760 || (8192 ≤ n && n ≤ 8202) || n == 8232 || n == 8233 || n == 8239 ||
  n == 8287 || n == 12288 || n == 65279

/-- Whether every character of the string is an ASCII character. On such
strings `toLowerCase` and the upper-casing of line 642 change the letters A-Z
and a-z only, as the models below do. -/
def isAscii (s : String) : Bool := s.data.all fun c => decide (c.toNat < 128)

/-- ASCII lower-casing of one character. -/
def lowerChar (c : Char) : Char :=
  if 65 ≤ c.toNat ∧ c.toNat ≤ 90 then Char.ofNat (c.toNat + 32) else c

/-- ASCII upper-casing of one character: the model of `c.toUpperCase()` for an
ASCII character. -/
def upperChar (c : Char) : Char :=
  if 97 ≤ c.toNat ∧ c.toNat ≤ 122 then Char.ofNat (c.toNat - 32) else c

/-- Model of `s.trim()`. -/
def trim (s : String) : String :=
  ⟨((s.data.dropWhile isJsSpace).reverse.dropWhile isJsSpace).reverse⟩

/-- Model of `s.toLowerCase()` for strings of ASCII characters; the letters
outside ASCII that the built-in method maps are left as they are. -/
def toLowerCase (s : String) : String := ⟨s.data.map lowerChar⟩

/-- Model of `s.indexOf(pat)` on character lists, counting from `i`;
`none` stands for `-1`. -/
def indexOfFrom (pat : List Char) : List Char → Nat → Option Nat
  | [], i => if pat = [] then some i else none
  | c :: cs, i => if pat.isPrefixOf (c :: cs) then some i else indexOfFrom pat cs (i + 1)

/-- Model of `s.indexOf(pat)`; `none` stands for `-1`. -/
def indexOf (s pat : String) : Option Nat := indexOfFrom pat.data s.data 0

/-- Value of a character as a digit in the given radix, if it is one. -/
def digitVal (radix : Nat) (c : Char) : Option Nat :=
  let n := c.toNat
  let v : Option Nat :=
    if 48 ≤ n ∧ n ≤ 57 then some (n - 48)
    else if 97 ≤ n ∧ n ≤ 122 then some (n - 87)
    else if 65 ≤ n ∧ n ≤ 90 then some (n - 55)
    else none
  v.filter (fun d => d < radix)

/-- Value of the longest prefix of digits, accumulated from `acc`. -/
def readDigits (radix : Nat) : List Char → Nat → Nat
  | [], acc => acc
  | c :: cs, acc =>
    match digitVal radix c with
    | some d => readDigits radix cs (acc * radix + d)
    | none => acc

/-- Sign of a `parseInt` argument and the text after it. -/
def splitSign : List Char → Bool × List Char
  | c :: r => if c = '-' then (true, r) else if c = '+' then (false, r) else (false, c :: r)
  | [] => (false, [])

/-- Radix of a `parseInt` argument (no radix given) and the text after the
hexadecimal marker. -/
def splitRadix : List Char → Nat × List Char
  | c :: d :: r =>
    if c = '0' ∧ (d = 'x' ∨ d = 'X') then (16, r) else (10, c :: d :: r)
  | r => (10, r)

/-- Model of `parseInt(s)` without a radix; `none` stands for `NaN`. -/
def parseInt (s : String) : Option Int :=
  let signed := splitSign (s.data.dropWhile isJsSpace)
  let based := splitRadix signed.2
  match based.2 with
  | [] => none
  | c :: cs =>
    match digitVal based.1 c with
    | none => none
    | some _ =>
      let n : Int := (readDigits based.1 (c :: cs) 0 : Nat)
      some (if signed.1 then -n else n)

/-! ## Objects used as string-keyed maps -/

/-- A JavaScript object whose own properties hold booleans, in insertion
order. -/
abbrev Dict := List (String × Bool)

/-- Property read `d[k]`; `none` stands for `undefined`. -/
def propGet : Dict → String → Option Bool
  | [], _ => none
  | (k', v) :: rest, k => if k = k' then some v else propGet rest k

/-- Property write `d[k] = v`. -/
def propSet : Dict → String → Bool → Dict
  | [], k, v => [(k, v)]
  | (k', v') :: rest, k, v =>
    if k = k' then (k', v) :: rest else (k', v') :: propSet rest k v

/-- The test `k in d`. -/
def propIn (k : String) (d : Dict) : Bool := (propGet d k).isSome

/-- Truthiness of a property read. -/
def truthy (v : Option Bool) : Bool := v == some true

/-- Model of `Object.count(d, v)`: the number of properties whose value is `v`. -/
def Object.count (d : Dict) (v : Bool) : Nat := (d.filter (fun e => e.2 == v)).length

/-- The names of the properties of `Object.prototype`, which every object
created by an object literal inherits: those of the language and the five
that the V8 engine adds. Libraries are taken not to add further ones. -/
def objectPrototypeNames : List String :=
  ["constructor", "toString", "toLocaleString", "valueOf", "hasOwnProperty", "isPrototypeOf",
   "propertyIsEnumerable", "__proto__", "__defineGetter__", "__defineSetter__",
   "__lookupGetter__", "__lookupSetter__"]

/-- The test `key in obj` for an object literal with the given own keys: true
for an own key and for a name inherited from `Object.prototype`. -/
def jsIn (key : String) (ownKeys : List String) : Bool :=
  ownKeys.contains key || objectPrototypeNames.contains key

/-! ## External collaborators -/

/-- The fields of a move object that dexsearch reads. -/
structure Move where
  id : String
  name : String
deriving DecidableEq, Repr

/-- The fields of a species template that dexsearch reads. `prevo` is the
empty string when there is no prior form; `learnset` lists the move ids that
are keys of the learn set, `none` when the template has no learn set;
`abilities` lists the values of the abilities object. -/
structure Template where
  id : String
  species : String
  baseSpecies : String
  isMega : Bool
  evos : List String
  prevo : String
  tier : String
  types : List String
  abilities : List String
  gen : Nat
  color : String
  learnset : Option (List String)
deriving DecidableEq, Repr

/-- The global `Tools` object and the helpers dexsearch calls.
`getAbility` and `getMove` return `none` when the looked-up object has
`exists` false; `getAbility` returns the `name` of the ability. `pokedex`
lists the keys of `Tools.data.Pokedex`, `typeChart` the own keys of
`Tools.data.TypeChart`, `lcBanlist` is `Tools.data.Formats['lc'].banlist`, and
`randomize` gives the content of the array after `results.randomize()`. The
ability and move names it returns and the type tags, tiers and colors of its
templates are taken not to be names of properties of `Object.prototype`. -/
structure Tools where
  getAbility : String → Option String
  getMove : String → Option Move
  getTemplate : String → Template
  escapeHTML : String → String
  typeChart : List String
  pokedex : List String
  lcBanlist : List String
  randomize : List String → List String

/-! ## The constraint object and the replies -/

/-- The `searches` object: one optional map per search category. -/
structure Searches where
  ability : Option Dict
  tier : Option Dict
  color : Option Dict
  gen : Option Dict
  moves : Option Dict
  types : Option Dict
deriving DecidableEq, Repr

/-- Model of `Object.size(searches)`: the number of categories present. -/
def Object.size (s : Searches) : Nat :=
  [s.ability, s.tier, s.color, s.gen, s.moves, s.types].countP Option.isSome

/-- The variables the token loop updates. -/
structure State where
  searches : Searches
  showAll : Bool
  megaSearch : Option Bool
  feSearch : Option Bool
deriving DecidableEq, Repr

/-- The variables as initialised before the token loop (lines 564-569). -/
def State.init : State :=
  { searches := { ability := none, tier := none, color := none, gen := none,
                  moves := none, types := none },
    showAll := false, megaSearch := none, feSearch := none }

/-- Everything dexsearch passes to `sendReplyBox`. -/
inductive Reply where
  | onlyOneAbility
  | contradiction (what : String)
  | maxMoves
  | maxTypes
  | allBroadcast
  | notFound (term : String)
  | noParameters
  | unknownMove (move : String)
  | noneFound
  | listed (names : List String)
  | truncated (names : List String) (more : Nat)
deriving DecidableEq, Repr

/-- The text of a reply. -/
def Reply.text : Reply → String
  | .onlyOneAbility => "Specify only one ability."
  | .contradiction what => "A search cannot both exclude and include " ++ what ++ "."
  | .maxMoves => "Specify a maximum of 4 moves."
  | .maxTypes => "Specify a maximum of two types."
  | .allBroadcast => "A search with the parameter 'all' cannot be broadcast."
  | .notFound term => "'" ++ term ++ "' could not be found in any of the search categories."
  | .noParameters => "No search parameters other than 'all' were found. Try '/help dexsearch' for more information on this command."
  | .unknownMove move => "'" ++ move ++ "' is not a known move."
  | .noneFound => "No Pokémon found."
  | .listed names => ", ".intercalate names
  | .truncated names more =>
    ", ".intercalate names ++ ", and " ++ toString more ++
      " more. Redo the search with 'all' as a search parameter to show all results."

/-- A reply is an error when it is not one of the three ways of reporting a
finished search. -/
def Reply.isError : Reply → Bool
  | .noneFound => false
  | .listed _ => false
  | .truncated _ _ => false
  | _ => true

/-- How a call of dexsearch ends: with a reply box, with an uncaught
`TypeError` (a property read on `undefined`), or, in this model, with the fuel
of the prior-form walk exhausted. -/
inductive Outcome where
  | replied (r : Reply)
  | typeError
  | outOfFuel
deriving DecidableEq, Repr

/-! ## The token loop (lines 572-652) -/

/-- The common body of the ability, generation and move branches: create the
category if absent, reject an include when the number of included values
already equals the cap (ability 1, moves 4; generations have no such test),
reject a value already recorded with the other polarity, then record the
value. The keys of the ability and move branches are names held by `Tools`,
taken not to be names of `Object.prototype`; those of the generation branch
begin with a digit, a sign or white space. -/
def addConstraint (cap : Option (Nat × Reply)) (contraReply : Reply) (cur : Option Dict)
    (key : String) (isNotSearch : Bool) : Except Outcome Dict :=
  let d := cur.getD []
  let capped : Option Reply :=
    match cap with
    | some (n, capReply) =>
      if Object.count d true = n ∧ isNotSearch = false then some capReply else none
    | none => none
  match capped with
  | some capReply => .error (.replied capReply)
  | none =>
    if (truthy (propGet d key) = true ∧ isNotSearch = true) ∨
        (propGet d key = some false ∧ isNotSearch = false) then
      .error (.replied contraReply)
    else .ok (propSet d key (!isNotSearch))

/-- The body of the tier, color and type branches, with the same statements as
`addConstraint`. The key of these branches is the text typed by the user, which
passes the `in` test of the branch also when it is a name inherited from
`Object.prototype`. For such a name that is not an own property, the read
`searches[category][key]` gives the inherited value, which is truthy and is not
`false`; and the write `searches[category]['__proto__'] = ...` of a boolean
leaves the object as it is. -/
def addConstraintIn (cap : Option (Nat × Reply)) (contraReply : Reply) (cur : Option Dict)
    (key : String) (isNotSearch : Bool) : Except Outcome Dict :=
  let d := cur.getD []
  let capped : Option Reply :=
    match cap with
    | some (n, capReply) =>
      if Object.count d true = n ∧ isNotSearch = false then some capReply else none
    | none => none
  match capped with
  | some capReply => .error (.replied capReply)
  | none =>
    let inherited := (propGet d key).isNone && objectPrototypeNames.contains key
    if ((truthy (propGet d key) || inherited) = true ∧ isNotSearch = true) ∨
        (propGet d key = some false ∧ isNotSearch = false) then
      .error (.replied contraReply)
    else .ok (if key = "__proto__" then d else propSet d key (!isNotSearch))

/-- The common body of the mega and fully-evolved branches. -/
def setFlag (contraReply : Reply) (cur : Option Bool) (isNotSearch : Bool) :
    Except Outcome (Option Bool) :=
  if (cur = some true ∧ isNotSearch = true) ∨ (cur = some false ∧ isNotSearch = false) then
    .error (.replied contraReply)
  else .ok (some (!isNotSearch))

/-- The own keys of `allTiers` (line 565). -/
def allTiers : List String := ["uber", "ou", "uu", "lc", "cap", "bl", "bl2", "ru", "bl3", "nu"]

/-- The own keys of `allColours` (line 566). -/
def allColours : List String :=
  ["green", "red", "blue", "white", "brown", "yellow", "purple", "pink", "gray", "black"]

/-- The test `0 < targetInt && targetInt < 7` (line 604). -/
def isGen (targetInt : Option Int) : Bool :=
  match targetInt with
  | some n => decide (0 < n) && decide (n < 7)
  | none => false

/-- Whether the token starts with the exclusion mark (lines 574-575). -/
def isNotSearchOf (raw : String) : Bool := (toLowerCase (trim raw)).data.head? == some '!'

/-- The token trimmed, lower-cased and without its exclusion mark
(lines 574-578). -/
def targetOf (raw : String) : String :=
  if isNotSearchOf raw then ⟨(toLowerCase (trim raw)).data.drop 1⟩ else toLowerCase (trim raw)

/-- The candidate type name of line 642: the first character upper-cased,
followed by the characters before the first occurrence of " type". -/
def typeNameOf (target : String) (idx : Nat) : String :=
  ⟨(target.data.take 1).map upperChar ++ (target.data.take idx).drop 1⟩

/-- One iteration of the token loop: `.ok` is `continue`, `.error` is the
`return this.sendReplyBox(...)` that ends the command. -/
def step (tools : Tools) (broadcasting : Bool) (st : State) (raw : String) :
    Except Outcome State :=
  let isNotSearch := isNotSearchOf raw
  let target := targetOf raw
  match tools.getAbility raw with
  | some name =>
    (addConstraint (some (1, .onlyOneAbility)) (.contradiction "an ability")
      st.searches.ability name isNotSearch).map
      fun d => { st with searches := { st.searches with ability := some d } }
  | none =>
  if jsIn target allTiers = true then
    (addConstraintIn none (.contradiction "a tier")
      st.searches.tier target isNotSearch).map
      fun d => { st with searches := { st.searches with tier := some d } }
  else if jsIn target allColours = true then
    (addConstraintIn none (.contradiction "a color")
      st.searches.color target isNotSearch).map
      fun d => { st with searches := { st.searches with color := some d } }
  else if isGen (parseInt target) = true then
    (addConstraint none (.contradiction "a generation")
      st.searches.gen target isNotSearch).map
      fun d => { st with searches := { st.searches with gen := some d } }
  else if target = "all" then
    if broadcasting = true then .error (.replied .allBroadcast)
    else .ok { st with showAll := true }
  else if target = "megas" ∨ target = "mega" then
    (setFlag (.contradiction "Mega Evolutions") st.megaSearch isNotSearch).map
      fun f => { st with megaSearch := f }
  else if target = "fe" ∨ target = "fullyevolved" ∨ target = "nfe" ∨
      target = "notfullyevolved" then
    let isNotSearch := if target = "nfe" ∨ target = "notfullyevolved" then !isNotSearch
      else isNotSearch
    (setFlag (.contradiction "fully evolved Pokémon") st.feSearch isNotSearch).map
      fun f => { st with feSearch := f }
  else
  match tools.getMove target with
  | some targetMove =>
    (addConstraint (some (4, .maxMoves)) (.contradiction "a move")
      st.searches.moves targetMove.name isNotSearch).map
      fun d => { st with searches := { st.searches with moves := some d } }
  | none =>
  match indexOf target " type" with
  | some idx =>
    let target := typeNameOf target idx
    if jsIn target tools.typeChart = true then
      (addConstraintIn (some (2, .maxTypes)) (.contradiction "a type")
        st.searches.types target isNotSearch).map
        fun d => { st with searches := { st.searches with types := some d } }
    else .error (.replied (.notFound (tools.escapeHTML target)))
  | none => .error (.replied (.notFound (tools.escapeHTML target)))

/-- The token loop from a given state. -/
def accumulateFrom (tools : Tools) (broadcasting : Bool) :
    State → List String → Except Outcome State
  | st, [] => .ok st
  | st, raw :: rest =>
    match step tools broadcasting st raw with
    | .ok st' => accumulateFrom tools broadcasting st' rest
    | .error e => .error e

/-- The token loop of lines 572-652 on the pieces of the split argument. -/
def accumulate (tools : Tools) (broadcasting : Bool) (targets : List String) :
    Except Outcome State :=
  accumulateFrom tools broadcasting State.init targets

/-! ## Building and filtering the dex (lines 656-740) -/

/-- The condition of lines 659-662 under which a template enters `dex`. -/
def eligible (st : State) (template : Template) : Bool :=
  let megaSearchResult := st.megaSearch == none ||
    (st.megaSearch == some true && template.isMega) ||
    (st.megaSearch == some false && !template.isMega)
  let feSearchResult := st.feSearch == none ||
    (st.feSearch == some true && template.evos.length == 0) ||
    (st.feSearch == some false && template.evos.length != 0)
  template.tier != "Unreleased" && template.tier != "Illegal" &&
    (template.tier != "CAP" ||
      (match st.searches.tier with
       | some tiers => truthy (propGet tiers "cap")
       | none => false)) &&
    megaSearchResult && feSearchResult

/-- The `dex` object of lines 656-665, as the list of its entries. -/
def buildDex (tools : Tools) (st : State) : List (String × Template) :=
  (tools.pokedex.map fun pokemon => (pokemon, tools.getTemplate pokemon)).filter
    fun entry => eligible st entry.2

/-- The property key `dex[mon].types[i]` is converted to; a missing element is
`undefined`, which reads the property named "undefined". -/
def typeKey (template : Template) (i : Nat) : String := (template.types.get? i).getD "undefined"

/-- The condition under which the type pass deletes a record (lines 672-677). -/
def typesDelete (types : Dict) (template : Template) : Bool :=
  let t0 := propGet types (typeKey template 0)
  let t1 := propGet types (typeKey template 1)
  if Object.count types true = 2 then !truthy t0 || !truthy t1
  else t0 == some false || t1 == some false ||
    (decide (Object.count types true > 0) && (!truthy t0 && !truthy t1))

/-- The condition shared by the tier, generation and color passes
(lines 692-694 and 701-703), on the lower-cased field value. -/
def labelDelete (search : Dict) (label : String) : Bool :=
  if propGet search label = some false then true
  else decide (Object.count search true > 0) && !truthy (propGet search label)

/-- The value `isLC` of line 686. -/
def isLC (tools : Tools) (template : Template) : Bool :=
  decide (template.evos.length > 0) && template.prevo == "" &&
    !tools.lcBanlist.contains template.species

/-- The condition under which the tier pass deletes a record (lines 683-694). -/
def tierDelete (tools : Tools) (tiers : Dict) (template : Template) : Bool :=
  if propIn "lc" tiers = true ∧
      ((truthy (propGet tiers "lc") && !isLC tools template) ||
       (!truthy (propGet tiers "lc") && isLC tools template)) = true then true
  else labelDelete tiers (toLowerCase template.tier)

/-- Model of `Object.count(dex[mon].abilities, ability) > 0` (line 710). -/
def hasAbility (template : Template) (ability : String) : Bool :=
  decide ((template.abilities.filter fun a => a == ability).length > 0)

/-- The condition under which the ability pass deletes a record
(lines 708-715). -/
def abilityDelete (abilities : Dict) (template : Template) : Bool :=
  abilities.any fun entry => hasAbility template entry.1 != entry.2

/-- The `while` loop of lines 728-730: follow `prevo` while the current
template has a prior form and a learn set without the move. `none` when the
fuel runs out before the loop condition fails. -/
def prevoWalk (tools : Tools) (moveId : String) : Nat → Template → Option Template
  | fuel, prevoTemp =>
    if prevoTemp.prevo != "" &&
        (match prevoTemp.learnset with
         | some learnset => !learnset.contains moveId
         | none => false) then
      match fuel with
      | 0 => none
      | fuel' + 1 => prevoWalk tools moveId fuel' (tools.getTemplate prevoTemp.prevo)
    else some prevoTemp

/-- The moves that a learn set with `sketch` does not give (line 731). -/
def sketchExcluded : List String := ["chatter", "struggle", "magikarpsrevenge"]

/-- The inner loop of the move pass for one record whose template has a learn
set (lines 724-733): whether the record has been deleted, starting from
`deleted`, or the way the command ends. -/
def movesLoop (tools : Tools) (fuel : Nat) (template : Template) :
    List (String × Bool) → Bool → Except Outcome Bool
  | [], deleted => .ok deleted
  | (i, wanted) :: rest, deleted =>
    match tools.getMove i with
    | none => .error (.replied (.unknownMove i))
    | some move =>
      match prevoWalk tools move.id fuel (tools.getTemplate template.id) with
      | none => .error .outOfFuel
      | some prevoTemp =>
        match prevoTemp.learnset with
        | none => .error .typeError
        | some learnset =>
          let canLearn := (learnset.contains "sketch" && !sketchExcluded.contains move.id) ||
            learnset.contains move.id
          movesLoop tools fuel template rest
            (deleted || (!canLearn && wanted) || (wanted == false && canLearn))

/-- The body of the move pass for one record (lines 721-733). -/
def movesDelete (tools : Tools) (fuel : Nat) (moves : Dict) (mon : Template) :
    Except Outcome Bool :=
  let template := tools.getTemplate mon.id
  let template := if template.learnset.isNone then tools.getTemplate template.baseSpecies
    else template
  if template.learnset.isNone then .ok false
  else movesLoop tools fuel template moves false

/-- The move pass over the whole dex (lines 720-734). -/
def movesPass (tools : Tools) (fuel : Nat) (moves : Dict) :
    List (String × Template) → Except Outcome (List (String × Template))
  | [] => .ok []
  | entry :: rest =>
    match movesDelete tools fuel moves entry.2 with
    | .error e => .error e
    | .ok deleted =>
      match movesPass tools fuel moves rest with
      | .error e => .error e
      | .ok kept => .ok (if deleted then kept else entry :: kept)

/-- A pass that deletes the records satisfying a condition and is skipped when
the category is absent (line 668). -/
def deletePass (search : Option Dict) (delete : Dict → Template → Bool)
    (dex : List (String × Template)) : List (String × Template) :=
  match search with
  | none => dex
  | some d => dex.filter fun entry => !delete d entry.2

/-- The passes after the move pass, in the order of line 667: types, ability,
tier, gen, color. -/
def laterPasses (tools : Tools) (searches : Searches) (dex : List (String × Template)) :
    List (String × Template) :=
  deletePass searches.color (fun d t => labelDelete d (toLowerCase t.color))
    (deletePass searches.gen (fun d t => labelDelete d (toLowerCase (toString t.gen)))
      (deletePass searches.tier (tierDelete tools)
        (deletePass searches.ability abilityDelete
          (deletePass searches.types typesDelete dex))))

/-- The filtered dex after the loop of lines 667-740. -/
def filterDex (tools : Tools) (fuel : Nat) (st : State) :
    Except Outcome (List (String × Template)) :=
  match st.searches.moves with
  | none => .ok (laterPasses tools st.searches (buildDex tools st))
  | some moves =>
    (movesPass tools fuel moves (buildDex tools st)).map (laterPasses tools st.searches)

/-! ## Collapsing and rendering (lines 742-759) -/

/-- The species names of the filtered dex (line 742). -/
def speciesOf (dex : List (String × Template)) : List String := dex.map fun entry => entry.2.species

/-- The filter of lines 743-746. -/
def collapse (tools : Tools) (results : List String) : List String :=
  results.filter fun species =>
    !(species != (tools.getTemplate species).baseSpecies &&
      results.contains (tools.getTemplate species).baseSpecies)

/-- The UTF-16 code units of a character. -/
def codeUnitsOf (c : Char) : List Nat :=
  if c.toNat < 65536 then [c.toNat]
  else [55296 + (c.toNat - 65536) / 1024, 56320 + (c.toNat - 65536) % 1024]

/-- Whether the first sequence of code units does not come after the second
in lexicographic order. -/
def leUnits : List Nat → List Nat → Bool
  | [], _ => true
  | _ :: _, [] => false
  | a :: as, b :: bs => if a < b then true else if b < a then false else leUnits as bs

/-- The order `results.sort()` sorts by: strings compared by their UTF-16 code
units. -/
def jsLe (a b : String) : Bool := leUnits (a.data.flatMap codeUnitsOf) (b.data.flatMap codeUnitsOf)

/-- Model of `results.sort()`. -/
def sortNames (results : List String) : List String :=
  results.insertionSort fun a b => jsLe a b = true

/-- The reply of lines 747-759. -/
def render (tools : Tools) (showAll : Bool) (results : List String) : Reply :=
  if results.length > 0 then
    if showAll = true ∨ results.length ≤ 10 then .listed (sortNames results)
    else .truncated ((tools.randomize results).take 10) (results.length - 10)
  else .noneFound

/-- The test of line 654. -/
def nothingButAll (st : State) : Bool :=
  st.showAll && Object.size st.searches == 0 && st.megaSearch == none && st.feSearch == none

/-- The command on the pieces `targets` of its non-empty argument, for a call
that `canBroadcast` lets through; `broadcasting` is `this.broadcasting`. -/
def dexsearch (tools : Tools) (fuel : Nat) (broadcasting : Bool) (targets : List String) :
    Outcome :=
  match accumulate tools broadcasting targets with
  | .error e => e
  | .ok st =>
    if nothingButAll st then .replied .noParameters
    else
      match filterDex tools fuel st with
      | .error e => e
      | .ok dex => .replied (render tools st.showAll (collapse tools (speciesOf dex)))

/-! ## What a token stands for

The tests of the loop body do not read the accumulated state, so every token
has a meaning of its own. `classify` names it; `step_eq_record` relates it to
the loop body. -/

/-- A place of the accumulated state that holds one tri-state value: a value
of one of the six categories, or one of the two flags. -/
inductive Slot where
  | ability (name : String)
  | tier (label : String)
  | color (label : String)
  | gen (key : String)
  | moves (name : String)
  | types (name : String)
  | mega
  | fullyEvolved
deriving DecidableEq, Repr

/-- The meaning of one token: a constraint on a slot together with the final
value of `isNotSearch`, the parameter `all`, or nothing, with the text that
the error message quotes. -/
inductive Term where
  | constraint (slot : Slot) (isNotSearch : Bool)
  | all
  | unrecognized (target : String)
deriving DecidableEq, Repr

/-- The first test of the loop body that the token passes, in the order of
lines 580-650. -/
def classify (tools : Tools) (raw : String) : Term :=
  let isNotSearch := isNotSearchOf raw
  let target := targetOf raw
  match tools.getAbility raw with
  | some name => .constraint (.ability name) isNotSearch
  | none =>
  if jsIn target allTiers = true then .constraint (.tier target) isNotSearch
  else if jsIn target allColours = true then .constraint (.color target) isNotSearch
  else if isGen (parseInt target) = true then .constraint (.gen target) isNotSearch
  else if target = "all" then .all
  else if target = "megas" ∨ target = "mega" then .constraint .mega isNotSearch
  else if target = "fe" ∨ target = "fullyevolved" then .constraint .fullyEvolved isNotSearch
  else if target = "nfe" ∨ target = "notfullyevolved" then
    .constraint .fullyEvolved (!isNotSearch)
  else
  match tools.getMove target with
  | some targetMove => .constraint (.moves targetMove.name) isNotSearch
  | none =>
  match indexOf target " type" with
  | some idx =>
    if jsIn (typeNameOf target idx) tools.typeChart = true then
      .constraint (.types (typeNameOf target idx)) isNotSearch
    else .unrecognized (typeNameOf target idx)
  | none => .unrecognized target

/-- The value a state holds in a slot; `none` when nothing is recorded. -/
def State.read (st : State) : Slot → Option Bool
  | .ability name => st.searches.ability.bind fun d => propGet d name
  | .tier label => st.searches.tier.bind fun d => propGet d label
  | .color label => st.searches.color.bind fun d => propGet d label
  | .gen key => st.searches.gen.bind fun d => propGet d key
  | .moves name => st.searches.moves.bind fun d => propGet d name
  | .types name => st.searches.types.bind fun d => propGet d name
  | .mega => st.megaSearch
  | .fullyEvolved => st.feSearch

/-- The state with one slot assigned and everything else unchanged. -/
def State.assign (st : State) : Slot → Bool → State
  | .ability name, v =>
    { st with searches := { st.searches with
        ability := some (propSet (st.searches.ability.getD []) name v) } }
  | .tier label, v =>
    { st with searches := { st.searches with
        tier := some (propSet (st.searches.tier.getD []) label v) } }
  | .color label, v =>
    { st with searches := { st.searches with
        color := some (propSet (st.searches.color.getD []) label v) } }
  | .gen key, v =>
    { st with searches := { st.searches with
        gen := some (propSet (st.searches.gen.getD []) key v) } }
  | .moves name, v =>
    { st with searches := { st.searches with
        moves := some (propSet (st.searches.moves.getD []) name v) } }
  | .types name, v =>
    { st with searches := { st.searches with
        types := some (propSet (st.searches.types.getD []) name v) } }
  | .mega, v => { st with megaSearch := some v }
  | .fullyEvolved, v => { st with feSearch := some v }

/-- Whether the read of a slot gives a value inherited from `Object.prototype`:
the slot belongs to the tier, color or type category, nothing is recorded in
it and its key is the name of a property of `Object.prototype`. -/
def State.readsInherited (st : State) : Slot → Bool
  | .tier label => (st.read (.tier label)).isNone && objectPrototypeNames.contains label
  | .color label => (st.read (.color label)).isNone && objectPrototypeNames.contains label
  | .types name => (st.read (.types name)).isNone && objectPrototypeNames.contains name
  | _ => false

/-- The state after the write of a value to a slot: the slot is assigned,
except that in the tier, color and type objects the write of the key
`__proto__` only creates the category. -/
def State.store (st : State) : Slot → Bool → State
  | .tier label, v =>
    { st with searches := { st.searches with
        tier := some (if label = "__proto__" then st.searches.tier.getD []
          else propSet (st.searches.tier.getD []) label v) } }
  | .color label, v =>
    { st with searches := { st.searches with
        color := some (if label = "__proto__" then st.searches.color.getD []
          else propSet (st.searches.color.getD []) label v) } }
  | .types name, v =>
    { st with searches := { st.searches with
        types := some (if name = "__proto__" then st.searches.types.getD []
          else propSet (st.searches.types.getD []) name v) } }
  | .ability name, v => st.assign (.ability name) v
  | .gen key, v => st.assign (.gen key) v
  | .moves name, v => st.assign (.moves name) v
  | .mega, v => st.assign .mega v
  | .fullyEvolved, v => st.assign .fullyEvolved v

/-- The cap on the included values of the category of a slot, with the reply
given when it is reached. -/
def Slot.cap : Slot → Option (Nat × Reply)
  | .ability _ => some (1, .onlyOneAbility)
  | .moves _ => some (4, .maxMoves)
  | .types _ => some (2, .maxTypes)
  | _ => none

/-- The number of included values in the category of a slot. -/
def State.included (st : State) : Slot → Nat
  | .ability _ => Object.count (st.searches.ability.getD []) true
  | .tier _ => Object.count (st.searches.tier.getD []) true
  | .color _ => Object.count (st.searches.color.getD []) true
  | .gen _ => Object.count (st.searches.gen.getD []) true
  | .moves _ => Object.count (st.searches.moves.getD []) true
  | .types _ => Object.count (st.searches.types.getD []) true
  | .mega => 0
  | .fullyEvolved => 0

/-- The contradiction reply of the category of a slot. -/
def Slot.contradiction : Slot → Reply
  | .ability _ => .contradiction "an ability"
  | .tier _ => .contradiction "a tier"
  | .color _ => .contradiction "a color"
  | .gen _ => .contradiction "a generation"
  | .moves _ => .contradiction "a move"
  | .types _ => .contradiction "a type"
  | .mega => .contradiction "Mega Evolutions"
  | .fullyEvolved => .contradiction "fully evolved Pokémon"

/-- The cap reply the loop body gives for a constraint, if any: the category
has a cap, the number of its included values equals it and the token is an
include. -/
def State.capReply (st : State) (slot : Slot) (isNotSearch : Bool) : Option Reply :=
  match slot.cap with
  | some (n, capReply) =>
    if st.included slot = n ∧ isNotSearch = false then some capReply else none
  | none => none

/-- What the loop body does with a token of a given meaning. -/
def record (tools : Tools) (broadcasting : Bool) (st : State) : Term → Except Outcome State
  | .constraint slot isNotSearch =>
    match st.capReply slot isNotSearch with
    | some capReply => .error (.replied capReply)
    | none =>
      if st.read slot = some isNotSearch ∨
          (st.readsInherited slot = true ∧ isNotSearch = true) then
        .error (.replied slot.contradiction)
      else .ok (st.store slot (!isNotSearch))
  | .all => if broadcasting = true then .error (.replied .allBroadcast)
    else .ok { st with showAll := true }
  | .unrecognized target => .error (.replied (.notFound (tools.escapeHTML target)))

/-- The caps on included values: at most 1 ability, 4 moves and 2 types. -/
def State.withinCaps (st : State) : Prop :=
  Object.count (st.searches.ability.getD []) true ≤ 1 ∧
  Object.count (st.searches.moves.getD []) true ≤ 4 ∧
  Object.count (st.searches.types.getD []) true ≤ 2

/-- The keys of every category object are pairwise distinct, as the own
properties of an object are. -/
def State.distinctKeys (st : State) : Prop :=
  ((st.searches.ability.getD []).map Prod.fst).Nodup ∧
  ((st.searches.tier.getD []).map Prod.fst).Nodup ∧
  ((st.searches.color.getD []).map Prod.fst).Nodup ∧
  ((st.searches.gen.getD []).map Prod.fst).Nodup ∧
  ((st.searches.moves.getD []).map Prod.fst).Nodup ∧
  ((st.searches.types.getD []).map Prod.fst).Nodup

/-- Nothing is recorded under the key `__proto__` in the tier, color and type
objects. -/
def State.protoFree (st : State) : Prop :=
  propGet (st.searches.tier.getD []) "__proto__" = none ∧
  propGet (st.searches.color.getD []) "__proto__" = none ∧
  propGet (st.searches.types.getD []) "__proto__" = none

/-! ## Learnability in the words of the specification -/

/-- The template whose learn set the move pass uses for a record (lines
721-722): the record's own template, or that of its base species when the own
one has no learn set. -/
def resolveTemplate (tools : Tools) (mon : Template) : Template :=
  if (tools.getTemplate mon.id).learnset.isNone then
    tools.getTemplate (tools.getTemplate mon.id).baseSpecies
  else tools.getTemplate mon.id

/-- Whether the move id is a key of the learn set of the form; false when the
form has no learn set. -/
def inLearnset (form : Template) (moveId : String) : Bool :=
  match form.learnset with
  | some learnset => learnset.contains moveId
  | none => false

/-- The list `priors` holds the prior forms of `form`, the nearest first, up to
a form that has no prior form. -/
def isPrevoChain (tools : Tools) : Template → List Template → Prop
  | form, [] => form.prevo = ""
  | form, prior :: rest =>
    form.prevo ≠ "" ∧ tools.getTemplate form.prevo = prior ∧ isPrevoChain tools prior rest

/-- The form whose learn set is the one resolved for a move, among a form and
its prior forms: the first form whose learn set has the move, the last form
when none has. -/
def resolvedForm : List Template → String → Option Template
  | [], _ => none
  | [form], _ => some form
  | form :: prior :: rest, moveId =>
    if inLearnset form moveId then some form else resolvedForm (prior :: rest) moveId

/-- Learnability of a move as the specification words it, for a form followed
by its prior forms: the move is in the learn set of one of the forms, or the
resolved learn set holds the sketch marker and the move is not one of the
excluded moves. -/
def canLearnBySpec (forms : List Template) (moveId : String) : Bool :=
  forms.any (fun form => inLearnset form moveId) ||
  ((match resolvedForm forms moveId with
    | some form => inLearnset form "sketch"
    | none => false) && !sketchExcluded.contains moveId)

/-! ## An example catalog

A small instance of `Tools` on which the definitions can be evaluated. Names
are resolved the way the server resolves them: through their id, the
lower-cased name without anything but letters and digits. -/

/-- The id of a name: lower-cased, letters and digits only. -/
def toId (s : String) : String :=
  ⟨(s.data.map lowerChar).filter fun c =>
    (decide (97 ≤ c.toNat) && decide (c.toNat ≤ 122)) ||
    (decide (48 ≤ c.toNat) && decide (c.toNat ≤ 57))⟩

/-- The abilities of the example, by id. -/
def exampleAbilities : List (String × String) :=
  [("blaze", "Blaze"), ("torrent", "Torrent"), ("ironbarbs", "Iron Barbs"),
   ("owntempo", "Own Tempo"), ("levitate", "Levitate")]

/-- The moves of the example. -/
def exampleMoves : List Move :=
  [⟨"tackle", "Tackle"⟩, ⟨"ember", "Ember"⟩, ⟨"surf", "Surf"⟩, ⟨"icebeam", "Ice Beam"⟩,
   ⟨"thunderbolt", "Thunderbolt"⟩, ⟨"flamethrower", "Flamethrower"⟩, ⟨"sketch", "Sketch"⟩]

/-- A first-stage fire species stored in the tier LC. -/
def charmander : Template :=
  { id := "charmander", species := "Charmander", baseSpecies := "Charmander", isMega := false,
    evos := ["charmeleon"], prevo := "", tier := "LC", types := ["Fire"],
    abilities := ["Blaze"], gen := 1, color := "Red", learnset := some ["tackle", "ember"] }

/-- A middle-stage fire species. -/
def charmeleon : Template :=
  { id := "charmeleon", species := "Charmeleon", baseSpecies := "Charmeleon", isMega := false,
    evos := ["charizard"], prevo := "charmander", tier := "NFE", types := ["Fire"],
    abilities := ["Blaze"], gen := 1, color := "Red", learnset := some ["flamethrower"] }

/-- A fully evolved species with the two types Fire and Flying. -/
def charizard : Template :=
  { id := "charizard", species := "Charizard", baseSpecies := "Charizard", isMega := false,
    evos := [], prevo := "charmeleon", tier := "OU", types := ["Fire", "Flying"],
    abilities := ["Blaze"], gen := 1, color := "Red", learnset := some ["flamethrower"] }

/-- A first-stage water species stored in the tier LC. -/
def squirtle : Template :=
  { id := "squirtle", species := "Squirtle", baseSpecies := "Squirtle", isMega := false,
    evos := ["wartortle"], prevo := "", tier := "LC", types := ["Water"],
    abilities := ["Torrent"], gen := 1, color := "Blue",
    learnset := some ["tackle", "surf", "icebeam"] }

/-- A first-stage species that is legal in LC but stored in the tier RU. -/
def ferroseed : Template :=
  { id := "ferroseed", species := "Ferroseed", baseSpecies := "Ferroseed", isMega := false,
    evos := ["ferrothorn"], prevo := "", tier := "RU", types := ["Grass", "Steel"],
    abilities := ["Iron Barbs"], gen := 5, color := "Gray",
    learnset := some ["tackle", "thunderbolt"] }

/-- A species whose learn set holds the `sketch` marker. -/
def smeargle : Template :=
  { id := "smeargle", species := "Smeargle", baseSpecies := "Smeargle", isMega := false,
    evos := [], prevo := "", tier := "NU", types := ["Normal"],
    abilities := ["Own Tempo"], gen := 2, color := "White", learnset := some ["sketch"] }

/-- A species of the tier CAP. -/
def syclant : Template :=
  { id := "syclant", species := "Syclant", baseSpecies := "Syclant", isMega := false,
    evos := [], prevo := "", tier := "CAP", types := ["Ice", "Bug"],
    abilities := ["Levitate"], gen := 4, color := "Blue", learnset := some ["icebeam"] }

/-- A species of the tier Unreleased. -/
def volcanion : Template :=
  { id := "volcanion", species := "Volcanion", baseSpecies := "Volcanion", isMega := false,
    evos := [], prevo := "", tier := "Unreleased", types := ["Fire", "Water"],
    abilities := ["Torrent"], gen := 6, color := "Brown", learnset := some ["surf"] }

/-- The templates of the example. -/
def exampleTemplates : List Template :=
  [charmander, charmeleon, charizard, squirtle, ferroseed, smeargle, syclant, volcanion]

/-- The template returned for a name that is not in the example. -/
def unknownTemplate (name : String) : Template :=
  { id := toId name, species := name, baseSpecies := name, isMega := false, evos := [],
    prevo := "", tier := "Illegal", types := [], abilities := [], gen := 0, color := "",
    learnset := none }

/-- Replacement of the characters that `escapeHTML` escapes. -/
def escapeChar (c : Char) : List Char :=
  if c = '&' then "&amp;".data
  else if c = '<' then "&lt;".data
  else if c = '>' then "&gt;".data
  else if c = '"' then "&quot;".data
  else [c]

/-- The example instance of `Tools`. -/
def exampleTools : Tools :=
  { getAbility := fun name => (exampleAbilities.find? fun a => a.1 == toId name).map Prod.snd,
    getMove := fun name => exampleMoves.find? fun m => m.id == toId name,
    getTemplate := fun name =>
      (exampleTemplates.find? fun t => t.id == toId name).getD (unknownTemplate name),
    escapeHTML := fun s => ⟨s.data.flatMap escapeChar⟩,
    typeChart := ["Bug", "Fire", "Flying", "Grass", "Ice", "Normal", "Steel", "Water"],
    pokedex := exampleTemplates.map fun t => t.id,
    lcBanlist := ["Scyther", "Sneasel"],
    randomize := fun results => results }

/-- A variant of the example catalog in which every name is also the name of
a move, so that tier labels and ability names are move names as well. -/
def overlapTools : Tools :=
  { exampleTools with getMove := fun name => some ⟨toId name, name⟩ }

/-- A species that is its own base form. -/
def rotom : Template :=
  { id := "rotom", species := "Rotom", baseSpecies := "Rotom", isMega := false,
    evos := [], prevo := "", tier := "UU", types := ["Electric", "Ghost"],
    abilities := ["Levitate"], gen := 4, color := "Red", learnset := some ["thunderbolt"] }

/-- An alternate form whose base form is Rotom and which has no learn set of
its own. -/
def rotomwash : Template :=
  { id := "rotomwash", species := "Rotom-Wash", baseSpecies := "Rotom", isMega := false,
    evos := [], prevo := "", tier := "OU", types := ["Electric", "Water"],
    abilities := ["Levitate"], gen := 4, color := "Red", learnset := none }

/-- A catalog with a base form and one of its alternate forms. -/
def formsTools : Tools :=
  { exampleTools with
    getTemplate := fun name =>
      ([rotom, rotomwash, squirtle].find? fun t => t.id == toId name).getD
        (unknownTemplate name),
    typeChart := ["Electric", "Ghost", "Water"],
    pokedex := ["rotom", "rotomwash", "squirtle"] }

/-- A template of the type Normal named after its Pokedex key. -/
def plainTemplate (name : String) : Template :=
  { id := toId name, species := name, baseSpecies := name, isMega := false, evos := [],
    prevo := "", tier := "OU", types := ["Normal"], abilities := ["Own Tempo"], gen := 1,
    color := "Brown", learnset := some ["tackle"] }

/-- A catalog of twelve records of the type Normal. -/
def manyTools : Tools :=
  { exampleTools with
    getTemplate := plainTemplate,
    pokedex := ["m", "k", "l", "a", "b", "c", "d", "e", "f", "g", "h", "i"] }

/-- The catalog of twelve records with a `randomize` that leaves the array in
reverse order. -/
def reversedTools : Tools :=
  { manyTools with randomize := List.reverse }

/-- A species whose prior form is Pichu. -/
def pikachu : Template :=
  { id := "pikachu", species := "Pikachu", baseSpecies := "Pikachu", isMega := false,
    evos := ["raichu"], prevo := "pichu", tier := "NU", types := ["Electric"],
    abilities := ["Static"], gen := 1, color := "Yellow", learnset := some ["thunderbolt"] }

/-- A first-stage species whose template has no learn set. -/
def pichu : Template :=
  { id := "pichu", species := "Pichu", baseSpecies := "Pichu", isMega := false,
    evos := ["pikachu"], prevo := "", tier := "LC", types := ["Electric"],
    abilities := ["Static"], gen := 2, color := "Yellow", learnset := none }

/-- A catalog in which a prior form has no learn set. -/
def gapTools : Tools :=
  { exampleTools with
    getTemplate := fun name =>
      ([pikachu, pichu].find? fun t => t.id == toId name).getD (unknownTemplate name),
    typeChart := ["Electric"],
    pokedex := ["pikachu", "pichu"] }

/-- A template whose prior form is given, with a learn set that holds only
`tackle`. -/
def linkedTemplate (name prevo : String) : Template :=
  { plainTemplate name with prevo := prevo }

/-- A catalog whose prior-form links form a cycle: the prior form of `ouro`
is `boros` and the prior form of `boros` is `ouro`. -/
def cyclicTools : Tools :=
  { exampleTools with
    getTemplate := fun name =>
      if toId name = "ouro" then linkedTemplate "ouro" "boros"
      else if toId name = "boros" then linkedTemplate "boros" "ouro"
      else unknownTemplate name,
    typeChart := ["Normal"],
    pokedex := ["ouro", "boros"] }

/-! ## The passes as one filter

The categories of line 667 and, for each, the condition under which a record is
kept, to compare the sequence of passes with a single filter. -/

/-- The search categories, in the order of line 667. -/
inductive Category where
  | moves
  | types
  | ability
  | tier
  | gen
  | color
deriving DecidableEq, Repr

/-- The categories in the order in which the passes run. -/
def Category.inOrder : List Category := [.moves, .types, .ability, .tier, .gen, .color]

/-- Whether the pass of a category keeps a record: always when the category is
absent from `searches`, otherwise when the pass does not delete the record. The
move pass keeps a record when its body returns without deleting it. -/
def Category.keeps (tools : Tools) (fuel : Nat) (searches : Searches) :
    Category → Template → Bool
  | .moves, t =>
    match searches.moves with
    | none => true
    | some d =>
      match movesDelete tools fuel d t with
      | .ok deleted => !deleted
      | .error _ => false
  | .types, t =>
    match searches.types with
    | none => true
    | some d => !typesDelete d t
  | .ability, t =>
    match searches.ability with
    | none => true
    | some d => !abilityDelete d t
  | .tier, t =>
    match searches.tier with
    | none => true
    | some d => !tierDelete tools d t
  | .gen, t =>
    match searches.gen with
    | none => true
    | some d => !labelDelete d (toLowerCase (toString t.gen))
  | .color, t =>
    match searches.color with
    | none => true
    | some d => !labelDelete d (toLowerCase t.color)

/-- The eligible dex filtered once by the conjunction of the conditions of all
categories. -/
def filterOnce (tools : Tools) (fuel : Nat) (st : State) : List (String × Template) :=
  (buildDex tools st).filter fun entry =>
    Category.inOrder.all fun c => c.keeps tools fuel st.searches entry.2

/-- The passes run one after the other in a given order of the categories. -/
def passesInOrder (tools : Tools) (fuel : Nat) (searches : Searches) (order : List Category)
    (dex : List (String × Template)) : List (String × Template) :=
  order.foldl (fun dex c => dex.filter fun entry => c.keeps tools fuel searches entry.2) dex

/-! ## The command dice (lines 5590-5615)

JavaScript numbers are modelled by rationals and the product
`maxRoll * Math.random()` is computed exactly, where the code rounds it to
double precision; the rounding can change the number reported for an argument
of many digits, and does not occur for the arguments and draws evaluated below
(0 with any draw, -5 with the draw 1/2). The conversion of a string to a number
(`isNaN(target)`, `maxRoll * ...`) is the parameter `toNumber`, with `none` for
`NaN`, and `random i` is the value of the call number `i` of `Math.random()`. -/

/-- What the command dice does with its argument. -/
inductive DiceReply where
  | help
  | facesNotInteger
  | facesOutOfRange
  | diceOutOfRange
  | rolled (num faces : Int) (rolls : List Int) (total : Int)
  | maxRollNotNumber
  | randomNumber (maxRoll : String) (rand : Option Int)
deriving DecidableEq, Repr

/-- The text of a reply of dice; `help` stands for the output of `/help dice`. -/
def DiceReply.text : DiceReply → String
  | .help => "/help dice"
  | .facesNotInteger => "The number of faces must be a valid integer."
  | .facesOutOfRange => "The number of faces must be between 1 and 1000"
  | .diceOutOfRange => "The number of dice must be between 1 and 20"
  | .rolled num faces rolls total =>
    "Random number " ++ toString num ++ "x(1 - " ++ toString faces ++ "): " ++
      ", ".intercalate (rolls.map toString) ++ "<br />Total: " ++ toString total
  | .maxRollNotNumber => "The max roll must be a number under 21 digits."
  | .randomNumber maxRoll rand =>
    "Random number (1 - " ++ maxRoll ++ "): " ++
      (match rand with
       | some r => toString r
       | none => "NaN")

/-- The command dice for a call that `canBroadcast` lets through. -/
def dice (toNumber : String → Option ℚ) (random : Nat → ℚ) (target : String) : DiceReply :=
  if target = "" then .help
  else
    match indexOf target "d" with
    | some d =>
      let num := parseInt ⟨target.data.take d⟩
      let faces := if target.data.length > d then parseInt ⟨target.data.drop (d + 1)⟩ else none
      let num := num.getD 1
      match faces with
      | none => .facesNotInteger
      | some faces =>
        if faces < 1 ∨ faces > 1000 then .facesOutOfRange
        else if num < 1 ∨ num > 20 then .diceOutOfRange
        else
          let rolls := (List.range num.toNat).map fun i => ⌊(faces : ℚ) * random i⌋ + 1
          .rolled num faces rolls rolls.sum
    | none =>
      if (toNumber target).isNone ∨ (target.data.flatMap codeUnitsOf).length > 21 then
        .maxRollNotNumber
      else
        let maxRoll := if target ≠ "" then toNumber target else some 6
        .randomNumber (if target ≠ "" then target else "6")
          (maxRoll.map fun m => ⌊m * random 0⌋ + 1)

/-! ## Lemmas on maps -/

theorem propGet_propSet_same (d : Dict) (k : String) (v : Bool) :
    propGet (propSet d k v) k = some v := by
  induction d with
  | nil => simp [propSet, propGet]
  | cons e rest ih =>
    obtain ⟨k', v'⟩ := e
    by_cases h : k = k'
    · simp [propSet, propGet, h]
    · simp [propSet, propGet, h, ih]

theorem propGet_propSet_other (d : Dict) (k k' : String) (v : Bool) (h : k' ≠ k) :
    propGet (propSet d k v) k' = propGet d k' := by
  induction d with
  | nil => simp [propSet, propGet, h]
  | cons e rest ih =>
    obtain ⟨k0, v0⟩ := e
    by_cases h0 : k = k0
    · subst h0
      simp [propSet, propGet, h]
    · by_cases h1 : k' = k0
      · simp [propSet, propGet, h0, h1]
      · simp [propSet, propGet, h0, h1, ih]

theorem mem_of_propGet (d : Dict) (k : String) (v : Bool) (h : propGet d k = some v) :
    (k, v) ∈ d := by
  induction d with
  | nil => simp [propGet] at h
  | cons e rest ih =>
    obtain ⟨k0, v0⟩ := e
    by_cases h0 : k = k0
    · simp [propGet, h0] at h
      simp [h0, h]
    · simp [propGet, h0] at h
      exact List.mem_cons_of_mem _ (ih h)

theorem count_propSet_fresh (d : Dict) (k : String) (v w : Bool) (h : propGet d k = none) :
    Object.count (propSet d k v) w = Object.count d w + (if v = w then 1 else 0) := by
  induction d with
  | nil => by_cases hv : v = w <;> simp [propSet, Object.count, hv]
  | cons e rest ih =>
    obtain ⟨k0, v0⟩ := e
    by_cases h0 : k = k0
    · simp [propGet, h0] at h
    · simp only [propGet, h0, if_false] at h
      have ih' := ih h
      simp only [Object.count] at ih' ⊢
      by_cases hw : v0 = w
      · simp [propSet, h0, hw, List.filter_cons] at ih' ⊢
        omega
      · simp [propSet, h0, hw, List.filter_cons] at ih' ⊢
        omega

theorem count_propSet_same (d : Dict) (k : String) (v w : Bool) (h : propGet d k = some v) :
    Object.count (propSet d k v) w = Object.count d w := by
  induction d with
  | nil => simp [propGet] at h
  | cons e rest ih =>
    obtain ⟨k0, v0⟩ := e
    by_cases h0 : k = k0
    · simp [propGet, h0] at h
      simp [propSet, h0, h, Object.count]
    · simp only [propGet, h0, if_false] at h
      have ih' := ih h
      simp only [Object.count] at ih' ⊢
      by_cases hw : v0 = w
      · simp [propSet, h0, hw, List.filter_cons] at ih' ⊢
        omega
      · simp [propSet, h0, hw, List.filter_cons] at ih' ⊢
        omega

theorem length_le_count (d : Dict) (v : Bool) (ks : List String) (hks : ks.Nodup)
    (h : ∀ k ∈ ks, propGet d k = some v) : ks.length ≤ Object.count d v := by
  have hnd : (ks.map fun k => (k, v)).Nodup :=
    hks.map (fun a b hab => by simpa using hab)
  have hsub : (ks.map fun k => (k, v)) ⊆ d.filter (fun e => e.2 == v) := by
    intro e he
    obtain ⟨k, hk, rfl⟩ := List.mem_map.mp he
    exact List.mem_filter.mpr ⟨mem_of_propGet d k v (h k hk), by simp⟩
  have := (List.subperm_of_subset hnd hsub).length_le
  simpa [Object.count] using this

theorem count_propSet_le (d : Dict) (k : String) (v w : Bool) :
    Object.count (propSet d k v) w ≤ Object.count d w + (if v = w then 1 else 0) := by
  induction d with
  | nil => by_cases hv : v = w <;> simp [propSet, Object.count, hv]
  | cons e rest ih =>
    obtain ⟨k0, v0⟩ := e
    simp only [Object.count] at ih ⊢
    by_cases h0 : k = k0
    · by_cases hv : v = w <;> by_cases hw : v0 = w <;>
        simp [propSet, h0, hv, hw, List.filter_cons]
    · by_cases hw : v0 = w
      · simp [propSet, h0, hw, List.filter_cons] at ih ⊢
        omega
      · simp [propSet, h0, hw, List.filter_cons] at ih ⊢
        omega

/-! ## Lemmas on the token loop -/

theorem propGet_getD_nil (cur : Option Dict) (key : String) :
    propGet (cur.getD []) key = cur.bind fun d => propGet d key := by
  cases cur <;> simp [propGet]

theorem addConstraint_eq (cap : Option (Nat × Reply)) (contra : Reply) (cur : Option Dict)
    (key : String) (n : Bool) :
    addConstraint cap contra cur key n =
      match (match cap with
        | some (c, r) => if Object.count (cur.getD []) true = c ∧ n = false then some r else none
        | none => none) with
      | some r => .error (.replied r)
      | none =>
        if (cur.bind fun d => propGet d key) = some n ∨ (false = true ∧ n = true) then
          .error (.replied contra)
        else .ok (propSet (cur.getD []) key (!n)) := by
  unfold addConstraint
  have hc : ((truthy (propGet (cur.getD []) key) = true ∧ n = true) ∨
      (propGet (cur.getD []) key = some false ∧ n = false)) ↔
      ((cur.bind fun d => propGet d key) = some n ∨ (false = true ∧ n = true)) := by
    rw [← propGet_getD_nil]
    cases n <;> simp [truthy]
  simp only [hc]

theorem addConstraintIn_eq (cap : Option (Nat × Reply)) (contra : Reply) (cur : Option Dict)
    (key : String) (n : Bool) :
    addConstraintIn cap contra cur key n =
      match (match cap with
        | some (c, r) => if Object.count (cur.getD []) true = c ∧ n = false then some r else none
        | none => none) with
      | some r => .error (.replied r)
      | none =>
        if (cur.bind fun d => propGet d key) = some n ∨
            (((cur.bind fun d => propGet d key).isNone &&
              objectPrototypeNames.contains key) = true ∧ n = true) then
          .error (.replied contra)
        else .ok (if key = "__proto__" then cur.getD [] else propSet (cur.getD []) key (!n)) := by
  unfold addConstraintIn
  have hc : (((truthy (propGet (cur.getD []) key) ||
        ((propGet (cur.getD []) key).isNone && objectPrototypeNames.contains key)) = true ∧
        n = true) ∨
      (propGet (cur.getD []) key = some false ∧ n = false)) ↔
      ((cur.bind fun d => propGet d key) = some n ∨
        (((cur.bind fun d => propGet d key).isNone &&
          objectPrototypeNames.contains key) = true ∧ n = true)) := by
    rw [← propGet_getD_nil]
    cases n <;> cases propGet (cur.getD []) key <;> simp [truthy]
  simp only [hc]

theorem setFlag_eq (contra : Reply) (cur : Option Bool) (n : Bool) :
    setFlag contra cur n =
      if cur = some n ∨ (false = true ∧ n = true) then .error (.replied contra)
      else .ok (some (!n)) := by
  unfold setFlag
  cases n <;> simp

theorem addConstraint_map {α : Type} (f : Dict → α) (cap : Option (Nat × Reply))
    (contra : Reply) (cur : Option Dict) (key : String) (n : Bool) :
    (addConstraint cap contra cur key n).map f =
      match (match cap with
        | some (c, r) => if Object.count (cur.getD []) true = c ∧ n = false then some r else none
        | none => none) with
      | some r => .error (.replied r)
      | none =>
        if (cur.bind fun d => propGet d key) = some n ∨ (false = true ∧ n = true) then
          .error (.replied contra)
        else .ok (f (propSet (cur.getD []) key (!n))) := by
  rw [addConstraint_eq]
  generalize (match cap with
    | some (c, r) => if Object.count (cur.getD []) true = c ∧ n = false then some r else none
    | none => none) = o
  cases o with
  | some r => rfl
  | none =>
    simp only []
    split <;> rfl

theorem addConstraintIn_map {α : Type} (f : Dict → α) (cap : Option (Nat × Reply))
    (contra : Reply) (cur : Option Dict) (key : String) (n : Bool) :
    (addConstraintIn cap contra cur key n).map f =
      match (match cap with
        | some (c, r) => if Object.count (cur.getD []) true = c ∧ n = false then some r else none
        | none => none) with
      | some r => .error (.replied r)
      | none =>
        if (cur.bind fun d => propGet d key) = some n ∨
            (((cur.bind fun d => propGet d key).isNone &&
              objectPrototypeNames.contains key) = true ∧ n = true) then
          .error (.replied contra)
        else .ok (f (if key = "__proto__" then cur.getD []
          else propSet (cur.getD []) key (!n))) := by
  rw [addConstraintIn_eq]
  generalize (match cap with
    | some (c, r) => if Object.count (cur.getD []) true = c ∧ n = false then some r else none
    | none => none) = o
  cases o with
  | some r => rfl
  | none =>
    simp only []
    split <;> rfl

theorem setFlag_map {α : Type} (f : Option Bool → α) (contra : Reply) (cur : Option Bool)
    (n : Bool) :
    (setFlag contra cur n).map f =
      if cur = some n ∨ (false = true ∧ n = true) then .error (.replied contra)
      else .ok (f (some (!n))) := by
  rw [setFlag_eq]
  split <;> rfl

theorem step_eq_record (tools : Tools) (broadcasting : Bool) (st : State) (raw : String) :
    step tools broadcasting st raw = record tools broadcasting st (classify tools raw) := by
  unfold step classify
  simp only [addConstraint_map, addConstraintIn_map, setFlag_map]
  cases hA : tools.getAbility raw with
  | some name => rfl
  | none =>
    show (if jsIn (targetOf raw) allTiers = true then _ else _) =
      record tools broadcasting st (if jsIn (targetOf raw) allTiers = true then _ else _)
    by_cases h1 : jsIn (targetOf raw) allTiers = true
    · rw [if_pos h1, if_pos h1]; rfl
    rw [if_neg h1, if_neg h1]
    by_cases h2 : jsIn (targetOf raw) allColours = true
    · rw [if_pos h2, if_pos h2]; rfl
    rw [if_neg h2, if_neg h2]
    by_cases h3 : isGen (parseInt (targetOf raw)) = true
    · rw [if_pos h3, if_pos h3]; rfl
    rw [if_neg h3, if_neg h3]
    by_cases h4 : targetOf raw = "all"
    · rw [if_pos h4, if_pos h4]; rfl
    rw [if_neg h4, if_neg h4]
    by_cases h5 : targetOf raw = "megas" ∨ targetOf raw = "mega"
    · rw [if_pos h5, if_pos h5]; rfl
    rw [if_neg h5, if_neg h5]
    by_cases h6 : targetOf raw = "fe" ∨ targetOf raw = "fullyevolved"
    · have h6a : targetOf raw = "fe" ∨ targetOf raw = "fullyevolved" ∨ targetOf raw = "nfe" ∨
          targetOf raw = "notfullyevolved" := by tauto
      have h6b : ¬ (targetOf raw = "nfe" ∨ targetOf raw = "notfullyevolved") := by
        rcases h6 with h | h <;> rw [h] <;> decide
      rw [if_pos h6a, if_pos h6, if_neg h6b]; rfl
    rw [if_neg h6]
    by_cases h7 : targetOf raw = "nfe" ∨ targetOf raw = "notfullyevolved"
    · have h7a : targetOf raw = "fe" ∨ targetOf raw = "fullyevolved" ∨ targetOf raw = "nfe" ∨
          targetOf raw = "notfullyevolved" := by tauto
      rw [if_pos h7a, if_pos h7, if_pos h7]; rfl
    have h7a : ¬ (targetOf raw = "fe" ∨ targetOf raw = "fullyevolved" ∨ targetOf raw = "nfe" ∨
        targetOf raw = "notfullyevolved") := by tauto
    rw [if_neg h7a, if_neg h7]
    cases hM : tools.getMove (targetOf raw) with
    | some mv => rfl
    | none =>
      cases hI : indexOf (targetOf raw) " type" with
      | none => rfl
      | some idx =>
        show (if jsIn (typeNameOf (targetOf raw) idx) tools.typeChart = true then _ else _) =
          record tools broadcasting st
            (if jsIn (typeNameOf (targetOf raw) idx) tools.typeChart = true then _ else _)
        by_cases h8 : jsIn (typeNameOf (targetOf raw) idx) tools.typeChart = true
        · rw [if_pos h8, if_pos h8]; rfl
        · rw [if_neg h8, if_neg h8]; rfl

theorem read_assign_same (st : State) (slot : Slot) (v : Bool) :
    (st.assign slot v).read slot = some v := by
  cases slot <;> simp [State.assign, State.read, propGet_propSet_same]

theorem read_assign_other (st : State) (slot slot' : Slot) (v : Bool) (h : slot' ≠ slot) :
    (st.assign slot v).read slot' = st.read slot' := by
  cases slot <;> cases slot' <;>
    simp only [State.assign, State.read, Option.bind, ne_eq, Slot.ability.injEq, Slot.tier.injEq,
      Slot.color.injEq, Slot.gen.injEq, Slot.moves.injEq, Slot.types.injEq] at h ⊢ <;>
    first
    | rfl
    | exact absurd rfl h
    | exact absurd trivial h
    | (rw [propGet_propSet_other _ _ _ _ h, propGet_getD_nil]; rfl)

theorem store_eq_assign (st : State) (slot : Slot) (v : Bool)
    (h : slot ≠ .tier "__proto__" ∧ slot ≠ .color "__proto__" ∧ slot ≠ .types "__proto__") :
    st.store slot v = st.assign slot v := by
  obtain ⟨h1, h2, h3⟩ := h
  cases slot with
  | tier label =>
    have : label ≠ "__proto__" := fun hl => h1 (by rw [hl])
    simp only [State.store, State.assign, this, if_false]
  | color label =>
    have : label ≠ "__proto__" := fun hl => h2 (by rw [hl])
    simp only [State.store, State.assign, this, if_false]
  | types name =>
    have : name ≠ "__proto__" := fun hl => h3 (by rw [hl])
    simp only [State.store, State.assign, this, if_false]
  | ability name => rfl
  | gen key => rfl
  | moves name => rfl
  | mega => rfl
  | fullyEvolved => rfl

theorem read_store_proto (st : State) (slot : Slot) (v : Bool)
    (h : slot = .tier "__proto__" ∨ slot = .color "__proto__" ∨ slot = .types "__proto__") :
    ∀ slot', (st.store slot v).read slot' = st.read slot' := by
  intro slot'
  rcases h with h | h | h <;> subst h <;> cases slot' <;>
    simp only [State.store, State.read, if_true, Option.bind, propGet_getD_nil]

theorem read_store_same (st : State) (slot : Slot) (v : Bool)
    (h : slot ≠ .tier "__proto__" ∧ slot ≠ .color "__proto__" ∧ slot ≠ .types "__proto__") :
    (st.store slot v).read slot = some v := by
  rw [store_eq_assign _ _ _ h, read_assign_same]

theorem read_store_other (st : State) (slot slot' : Slot) (v : Bool) (h : slot' ≠ slot) :
    (st.store slot v).read slot' = st.read slot' := by
  by_cases hp : slot = .tier "__proto__" ∨ slot = .color "__proto__" ∨ slot = .types "__proto__"
  · exact read_store_proto st slot v hp slot'
  · rw [store_eq_assign _ _ _ (by tauto), read_assign_other _ _ _ _ h]

theorem record_constraint_ok (tools : Tools) (broadcasting : Bool) (st st' : State)
    (slot : Slot) (n : Bool)
    (h : record tools broadcasting st (.constraint slot n) = .ok st') :
    st' = st.store slot (!n) ∧ st.read slot ≠ some n ∧ st.capReply slot n = none := by
  unfold record at h
  cases hc : st.capReply slot n with
  | some r => simp [hc] at h
  | none =>
    simp only [hc] at h
    by_cases hr : st.read slot = some n ∨ (st.readsInherited slot = true ∧ n = true)
    · simp [hr] at h
    · simp only [hr, if_false, Except.ok.injEq] at h
      exact ⟨h.symm, fun hn => hr (Or.inl hn), rfl⟩

theorem record_constraint_inherited (tools : Tools) (broadcasting : Bool) (st st' : State)
    (slot : Slot) (n : Bool)
    (h : record tools broadcasting st (.constraint slot n) = .ok st') :
    st.readsInherited slot = true → n = false := by
  unfold record at h
  cases hc : st.capReply slot n with
  | some r => simp [hc] at h
  | none =>
    simp only [hc] at h
    by_cases hr : st.read slot = some n ∨ (st.readsInherited slot = true ∧ n = true)
    · simp [hr] at h
    · intro hi
      cases n with
      | false => rfl
      | true => exact absurd (Or.inr ⟨hi, rfl⟩) hr

theorem record_error_replied (tools : Tools) (broadcasting : Bool) (st : State) (term : Term)
    (e : Outcome) (h : record tools broadcasting st term = .error e) :
    ∃ r, e = .replied r ∧ r.isError = true := by
  cases term with
  | constraint slot n =>
    unfold record at h
    cases hc : st.capReply slot n with
    | some r =>
      simp only [hc, Except.error.injEq] at h
      refine ⟨r, h.symm, ?_⟩
      unfold State.capReply at hc
      cases slot <;> simp [Slot.cap] at hc <;> obtain ⟨_, rfl⟩ := hc <;> rfl
    | none =>
      simp only [hc] at h
      by_cases hr : st.read slot = some n ∨ (st.readsInherited slot = true ∧ n = true)
      · simp only [hr, if_true, Except.error.injEq] at h
        exact ⟨_, h.symm, by cases slot <;> rfl⟩
      · simp [hr] at h
  | all =>
    unfold record at h
    by_cases hb : broadcasting = true
    · simp only [hb, if_true, Except.error.injEq] at h
      exact ⟨_, h.symm, rfl⟩
    · simp [hb] at h
  | unrecognized target =>
    simp only [record, Except.error.injEq] at h
    exact ⟨_, h.symm, rfl⟩

theorem accumulateFrom_append (tools : Tools) (broadcasting : Bool) (st : State)
    (l l' : List String) :
    accumulateFrom tools broadcasting st (l ++ l') =
      match accumulateFrom tools broadcasting st l with
      | .ok st' => accumulateFrom tools broadcasting st' l'
      | .error e => .error e := by
  induction l generalizing st with
  | nil => rfl
  | cons raw rest ih =>
    simp only [List.cons_append, accumulateFrom]
    cases step tools broadcasting st raw with
    | ok st1 => exact ih st1
    | error e => rfl

theorem accumulateFrom_error_replied (tools : Tools) (broadcasting : Bool) (st : State)
    (l : List String) (e : Outcome) (h : accumulateFrom tools broadcasting st l = .error e) :
    ∃ r, e = .replied r ∧ r.isError = true := by
  induction l generalizing st with
  | nil => simp [accumulateFrom] at h
  | cons raw rest ih =>
    simp only [accumulateFrom] at h
    cases hs : step tools broadcasting st raw with
    | ok st1 =>
      rw [hs] at h
      exact ih st1 h
    | error e1 =>
      rw [hs] at h
      simp only [Except.error.injEq] at h
      subst h
      rw [step_eq_record] at hs
      exact record_error_replied _ _ _ _ _ hs

theorem record_all_ok (tools : Tools) (broadcasting : Bool) (st st' : State)
    (h : record tools broadcasting st .all = .ok st') :
    broadcasting = false ∧ st' = { st with showAll := true } := by
  cases broadcasting with
  | true => simp [record] at h
  | false =>
    simp only [record, Bool.false_eq_true, if_false, Except.ok.injEq] at h
    exact ⟨rfl, h.symm⟩

theorem record_withinCaps (tools : Tools) (broadcasting : Bool) (st st' : State) (term : Term)
    (h : record tools broadcasting st term = .ok st') (hst : st.withinCaps) :
    st'.withinCaps := by
  cases term with
  | constraint slot n =>
    obtain ⟨rfl, -, hc⟩ := record_constraint_ok _ _ _ _ _ _ h
    obtain ⟨h1, h2, h3⟩ := hst
    unfold State.capReply at hc
    cases slot with
    | ability name =>
      refine ⟨?_, h2, h3⟩
      have hle := count_propSet_le (st.searches.ability.getD []) name (!n) true
      cases n <;> simp [Slot.cap, State.included] at hc hle <;>
        simp only [State.store, State.assign, Option.getD_some, Bool.not_false,
          Bool.not_true] <;> omega
    | moves name =>
      refine ⟨h1, ?_, h3⟩
      have hle := count_propSet_le (st.searches.moves.getD []) name (!n) true
      cases n <;> simp [Slot.cap, State.included] at hc hle <;>
        simp only [State.store, State.assign, Option.getD_some, Bool.not_false,
          Bool.not_true] <;> omega
    | types name =>
      refine ⟨h1, h2, ?_⟩
      by_cases hp : name = "__proto__"
      · simp only [State.store, hp, if_true, Option.getD_some]
        exact h3
      · have hle := count_propSet_le (st.searches.types.getD []) name (!n) true
        cases n <;> simp [Slot.cap, State.included] at hc hle <;>
          simp only [State.store, hp, if_false, Option.getD_some, Bool.not_false,
            Bool.not_true] <;> omega
    | tier label => exact ⟨h1, h2, h3⟩
    | color label => exact ⟨h1, h2, h3⟩
    | gen key => exact ⟨h1, h2, h3⟩
    | mega => exact ⟨h1, h2, h3⟩
    | fullyEvolved => exact ⟨h1, h2, h3⟩
  | all =>
    obtain ⟨-, rfl⟩ := record_all_ok _ _ _ _ h
    exact hst
  | unrecognized target => simp [record] at h

theorem accumulateFrom_withinCaps (tools : Tools) (broadcasting : Bool) (st st' : State)
    (l : List String) (h : accumulateFrom tools broadcasting st l = .ok st')
    (hst : st.withinCaps) : st'.withinCaps := by
  induction l generalizing st with
  | nil =>
    simp only [accumulateFrom, Except.ok.injEq] at h
    exact h ▸ hst
  | cons raw rest ih =>
    simp only [accumulateFrom] at h
    cases hs : step tools broadcasting st raw with
    | ok st1 =>
      rw [hs] at h
      rw [step_eq_record] at hs
      exact ih st1 h (record_withinCaps _ _ _ _ _ hs hst)
    | error e => simp [hs] at h

theorem init_withinCaps : State.init.withinCaps := by
  simp [State.withinCaps, State.init, Object.count]

theorem upperChar_ne_u (c : Char) : upperChar c ≠ 'u' := by
  unfold upperChar
  split
  · rename_i h
    intro hc
    have h1 : c = Char.ofNat c.toNat := (Char.ofNat_toNat c).symm
    obtain ⟨hlo, hhi⟩ := h
    generalize c.toNat = n at h1 hlo hhi hc
    subst h1
    interval_cases n <;> revert hc <;> decide
  · rename_i h
    intro hc
    rw [hc] at h
    exact h (by decide)

theorem typeNameOf_ne_undefined (target : String) (idx : Nat) :
    typeNameOf target idx ≠ "undefined" := by
  intro h
  have hd : (typeNameOf target idx).data = "undefined".data := by rw [h]
  unfold typeNameOf at hd
  cases hdata : target.data with
  | nil => simp [hdata] at hd
  | cons c cs =>
    simp only [hdata, List.take_succ_cons, List.take_zero, List.map_cons, List.map_nil,
      List.cons_append, List.nil_append] at hd
    have : upperChar c = 'u' := by
      have := congrArg List.head? hd
      simpa using this
    exact upperChar_ne_u c this

theorem classify_ability (tools : Tools) (raw name : String)
    (hA : tools.getAbility raw = some name) :
    classify tools raw = .constraint (.ability name) (isNotSearchOf raw) := by
  simp only [classify, hA]

theorem classify_tier (tools : Tools) (raw : String) (hA : tools.getAbility raw = none)
    (h1 : jsIn (targetOf raw) allTiers = true) :
    classify tools raw = .constraint (.tier (targetOf raw)) (isNotSearchOf raw) := by
  simp only [classify, hA, h1, if_true]

theorem classify_color (tools : Tools) (raw : String) (hA : tools.getAbility raw = none)
    (h1 : ¬ jsIn (targetOf raw) allTiers = true) (h2 : jsIn (targetOf raw) allColours = true) :
    classify tools raw = .constraint (.color (targetOf raw)) (isNotSearchOf raw) := by
  simp only [classify, hA, h1, h2, Bool.false_eq_true, if_true, if_false]

theorem classify_gen (tools : Tools) (raw : String) (hA : tools.getAbility raw = none)
    (h1 : ¬ jsIn (targetOf raw) allTiers = true) (h2 : ¬ jsIn (targetOf raw) allColours = true)
    (h3 : isGen (parseInt (targetOf raw)) = true) :
    classify tools raw = .constraint (.gen (targetOf raw)) (isNotSearchOf raw) := by
  simp only [classify, hA, h1, h2, h3, Bool.false_eq_true, if_true, if_false]

theorem classify_all (tools : Tools) (raw : String) (hA : tools.getAbility raw = none)
    (h1 : ¬ jsIn (targetOf raw) allTiers = true) (h2 : ¬ jsIn (targetOf raw) allColours = true)
    (h3 : ¬ isGen (parseInt (targetOf raw)) = true) (h4 : targetOf raw = "all") :
    classify tools raw = .all := by
  simp only [classify, hA, h1, h2, h3, Bool.false_eq_true, if_false, if_pos h4]

theorem classify_mega (tools : Tools) (raw : String) (hA : tools.getAbility raw = none)
    (h1 : ¬ jsIn (targetOf raw) allTiers = true) (h2 : ¬ jsIn (targetOf raw) allColours = true)
    (h3 : ¬ isGen (parseInt (targetOf raw)) = true) (h4 : targetOf raw ≠ "all")
    (h5 : targetOf raw = "megas" ∨ targetOf raw = "mega") :
    classify tools raw = .constraint .mega (isNotSearchOf raw) := by
  simp only [classify, hA, h1, h2, h3, h4, h5, Bool.false_eq_true, if_true, if_false]

theorem classify_fe (tools : Tools) (raw : String) (hA : tools.getAbility raw = none)
    (h1 : ¬ jsIn (targetOf raw) allTiers = true) (h2 : ¬ jsIn (targetOf raw) allColours = true)
    (h3 : ¬ isGen (parseInt (targetOf raw)) = true) (h4 : targetOf raw ≠ "all")
    (h5 : ¬ (targetOf raw = "megas" ∨ targetOf raw = "mega"))
    (h6 : targetOf raw = "fe" ∨ targetOf raw = "fullyevolved") :
    classify tools raw = .constraint .fullyEvolved (isNotSearchOf raw) := by
  simp only [classify, hA, h1, h2, h3, h4, h5, h6, Bool.false_eq_true, if_true, if_false]

theorem classify_nfe (tools : Tools) (raw : String) (hA : tools.getAbility raw = none)
    (h1 : ¬ jsIn (targetOf raw) allTiers = true) (h2 : ¬ jsIn (targetOf raw) allColours = true)
    (h3 : ¬ isGen (parseInt (targetOf raw)) = true) (h4 : targetOf raw ≠ "all")
    (h5 : ¬ (targetOf raw = "megas" ∨ targetOf raw = "mega"))
    (h6 : ¬ (targetOf raw = "fe" ∨ targetOf raw = "fullyevolved"))
    (h7 : targetOf raw = "nfe" ∨ targetOf raw = "notfullyevolved") :
    classify tools raw = .constraint .fullyEvolved (!isNotSearchOf raw) := by
  simp only [classify, hA, h1, h2, h3, h4, h5, h6, h7, Bool.false_eq_true, if_true, if_false]

theorem classify_move (tools : Tools) (raw : String) (mv : Move)
    (hA : tools.getAbility raw = none)
    (h1 : ¬ jsIn (targetOf raw) allTiers = true) (h2 : ¬ jsIn (targetOf raw) allColours = true)
    (h3 : ¬ isGen (parseInt (targetOf raw)) = true) (h4 : targetOf raw ≠ "all")
    (h5 : ¬ (targetOf raw = "megas" ∨ targetOf raw = "mega"))
    (h6 : ¬ (targetOf raw = "fe" ∨ targetOf raw = "fullyevolved"))
    (h7 : ¬ (targetOf raw = "nfe" ∨ targetOf raw = "notfullyevolved"))
    (h8 : tools.getMove (targetOf raw) = some mv) :
    classify tools raw = .constraint (.moves mv.name) (isNotSearchOf raw) := by
  simp only [classify, hA, h1, h2, h3, h4, h5, h6, h7, h8, Bool.false_eq_true, if_true, if_false]

theorem classify_rest (tools : Tools) (raw : String)
    (hA : tools.getAbility raw = none)
    (h1 : ¬ jsIn (targetOf raw) allTiers = true) (h2 : ¬ jsIn (targetOf raw) allColours = true)
    (h3 : ¬ isGen (parseInt (targetOf raw)) = true) (h4 : targetOf raw ≠ "all")
    (h5 : ¬ (targetOf raw = "megas" ∨ targetOf raw = "mega"))
    (h6 : ¬ (targetOf raw = "fe" ∨ targetOf raw = "fullyevolved"))
    (h7 : ¬ (targetOf raw = "nfe" ∨ targetOf raw = "notfullyevolved"))
    (h8 : tools.getMove (targetOf raw) = none) :
    classify tools raw =
      match indexOf (targetOf raw) " type" with
      | some idx =>
        if jsIn (typeNameOf (targetOf raw) idx) tools.typeChart = true then
          .constraint (.types (typeNameOf (targetOf raw) idx)) (isNotSearchOf raw)
        else .unrecognized (typeNameOf (targetOf raw) idx)
      | none => .unrecognized (targetOf raw) := by
  simp only [classify, hA, h1, h2, h3, h4, h5, h6, h7, h8, Bool.false_eq_true, if_true, if_false]

theorem classify_types (tools : Tools) (raw name : String) (n : Bool)
    (h : classify tools raw = .constraint (.types name) n) :
    ∃ idx, name = typeNameOf (targetOf raw) idx := by
  cases hA : tools.getAbility raw with
  | some a => rw [classify_ability _ _ _ hA] at h; simp at h
  | none =>
  by_cases h1 : jsIn (targetOf raw) allTiers = true
  · rw [classify_tier _ _ hA h1] at h; simp at h
  by_cases h2 : jsIn (targetOf raw) allColours = true
  · rw [classify_color _ _ hA h1 h2] at h; simp at h
  by_cases h3 : isGen (parseInt (targetOf raw)) = true
  · rw [classify_gen _ _ hA h1 h2 h3] at h; simp at h
  by_cases h4 : targetOf raw = "all"
  · rw [classify_all _ _ hA h1 h2 h3 h4] at h; simp at h
  by_cases h5 : targetOf raw = "megas" ∨ targetOf raw = "mega"
  · rw [classify_mega _ _ hA h1 h2 h3 h4 h5] at h; simp at h
  by_cases h6 : targetOf raw = "fe" ∨ targetOf raw = "fullyevolved"
  · rw [classify_fe _ _ hA h1 h2 h3 h4 h5 h6] at h; simp at h
  by_cases h7 : targetOf raw = "nfe" ∨ targetOf raw = "notfullyevolved"
  · rw [classify_nfe _ _ hA h1 h2 h3 h4 h5 h6 h7] at h; simp at h
  cases h8 : tools.getMove (targetOf raw) with
  | some mv => rw [classify_move _ _ mv hA h1 h2 h3 h4 h5 h6 h7 h8] at h; simp at h
  | none =>
    rw [classify_rest _ _ hA h1 h2 h3 h4 h5 h6 h7 h8] at h
    cases hI : indexOf (targetOf raw) " type" with
    | none => simp [hI] at h
    | some idx =>
      simp only [hI] at h
      by_cases h9 : jsIn (typeNameOf (targetOf raw) idx) tools.typeChart = true
      · simp only [h9, if_true, Term.constraint.injEq, Slot.types.injEq] at h
        exact ⟨idx, h.1.symm⟩
      · simp [h9] at h

theorem record_noUndefined (tools : Tools) (broadcasting : Bool) (st st' : State) (term : Term)
    (h : record tools broadcasting st term = .ok st')
    (hterm : ∀ name n, term = .constraint (.types name) n → name ≠ "undefined")
    (hst : propGet (st.searches.types.getD []) "undefined" = none) :
    propGet (st'.searches.types.getD []) "undefined" = none := by
  cases term with
  | constraint slot n =>
    obtain ⟨rfl, -, -⟩ := record_constraint_ok _ _ _ _ _ _ h
    cases slot with
    | types name =>
      have hne := hterm name n rfl
      by_cases hp : name = "__proto__"
      · simp only [State.store, hp, if_true, Option.getD_some]
        exact hst
      · simp only [State.store, hp, if_false, Option.getD_some]
        rw [propGet_propSet_other _ _ _ _ (Ne.symm hne)]
        exact hst
    | _ => exact hst
  | all =>
    obtain ⟨-, rfl⟩ := record_all_ok _ _ _ _ h
    exact hst
  | unrecognized target => simp [record] at h

theorem accumulateFrom_noUndefined (tools : Tools) (broadcasting : Bool) (st st' : State)
    (l : List String) (h : accumulateFrom tools broadcasting st l = .ok st')
    (hst : propGet (st.searches.types.getD []) "undefined" = none) :
    propGet (st'.searches.types.getD []) "undefined" = none := by
  induction l generalizing st with
  | nil =>
    simp only [accumulateFrom, Except.ok.injEq] at h
    exact h ▸ hst
  | cons raw rest ih =>
    simp only [accumulateFrom] at h
    cases hs : step tools broadcasting st raw with
    | ok st1 =>
      rw [hs] at h
      rw [step_eq_record] at hs
      refine ih st1 h (record_noUndefined _ _ _ _ _ hs ?_ hst)
      intro name n hc
      obtain ⟨idx, rfl⟩ := classify_types _ _ _ _ hc
      exact typeNameOf_ne_undefined _ _
    | error e => simp [hs] at h

/-! ## The type pass with two required types -/

theorem only_two_included (types : Dict) (T1 T2 k : String)
    (hcount : Object.count types true ≤ 2)
    (h1 : propGet types T1 = some true) (h2 : propGet types T2 = some true) (hne : T1 ≠ T2)
    (hk : propGet types k = some true) : k = T1 ∨ k = T2 := by
  by_contra hcon
  push_neg at hcon
  have hnd : [T1, T2, k].Nodup := by
    simp only [List.nodup_cons, List.mem_cons, List.mem_singleton, List.not_mem_nil,
      not_false_eq_true, List.nodup_nil, and_true, not_or]
    exact ⟨⟨hne, Ne.symm hcon.1⟩, Ne.symm hcon.2⟩
  have := length_le_count types true [T1, T2, k] hnd (by
    intro x hx
    simp only [List.mem_cons, List.mem_singleton, List.not_mem_nil, or_false] at hx
    rcases hx with rfl | rfl | rfl <;> assumption)
  simp at this
  omega

/-- C1. In the type pass, when the accepted constraint set requires the two
types T1 and T2, the number of included types is exactly two, every record with
a single type tag is deleted, and a record with two distinct type tags survives
if and only if its tags are T1 and T2 in either order. -/
theorem type_pass_two_required (tools : Tools) (broadcasting : Bool) (targets : List String)
    (st : State) (types : Dict) (T1 T2 : String)
    (hacc : accumulate tools broadcasting targets = .ok st)
    (htypes : st.searches.types = some types)
    (h1 : propGet types T1 = some true) (h2 : propGet types T2 = some true) (hne : T1 ≠ T2) :
    Object.count types true = 2 ∧
    ∀ (dex : List (String × Template)) (entry : String × Template), entry ∈ dex →
      (∀ a, entry.2.types = [a] → entry ∉ deletePass (some types) typesDelete dex) ∧
      (∀ a b, entry.2.types = [a, b] → a ≠ b →
        (entry ∈ deletePass (some types) typesDelete dex ↔
          (a = T1 ∧ b = T2) ∨ (a = T2 ∧ b = T1))) := by
  have hcaps := accumulateFrom_withinCaps _ _ _ _ _ hacc init_withinCaps
  have hundef := accumulateFrom_noUndefined _ _ _ _ _ hacc (by simp [State.init, propGet])
  simp only [State.withinCaps, htypes, Option.getD_some] at hcaps
  simp only [htypes, Option.getD_some] at hundef
  have hle : Object.count types true ≤ 2 := hcaps.2.2
  have hge : 2 ≤ Object.count types true := by
    have := length_le_count types true [T1, T2] (by simp [hne]) (by
      intro x hx
      simp only [List.mem_cons, List.mem_singleton, List.not_mem_nil, or_false] at hx
      rcases hx with rfl | rfl <;> assumption)
    simpa using this
  have hcount : Object.count types true = 2 := le_antisymm hle hge
  refine ⟨hcount, ?_⟩
  intro dex entry hmem
  constructor
  · intro a ha hin
    simp only [deletePass, List.mem_filter] at hin
    have hdel : typesDelete types entry.2 = true := by
      simp [typesDelete, hcount, typeKey, ha, hundef, truthy]
    simp [hdel] at hin
  · intro a b hab hneab
    simp only [deletePass, List.mem_filter, hmem, true_and]
    have hdel : typesDelete types entry.2 =
        (!truthy (propGet types a) || !truthy (propGet types b)) := by
      simp [typesDelete, hcount, typeKey, hab]
    rw [hdel]
    constructor
    · intro h
      have ha : propGet types a = some true := by
        cases hg : propGet types a with
        | none => simp [hg, truthy] at h
        | some v => cases v <;> simp_all [truthy]
      have hb : propGet types b = some true := by
        cases hg : propGet types b with
        | none => simp [hg, truthy] at h
        | some v => cases v <;> simp_all [truthy]
      rcases only_two_included types T1 T2 a hle h1 h2 hne ha with ea | ea <;>
        rcases only_two_included types T1 T2 b hle h1 h2 hne hb with eb | eb
      · exact absurd (ea.trans eb.symm) hneab
      · exact Or.inl ⟨ea, eb⟩
      · exact Or.inr ⟨ea, eb⟩
      · exact absurd (ea.trans eb.symm) hneab
    · rintro (⟨ha, hb⟩ | ⟨ha, hb⟩) <;> simp [ha, hb, h1, h2, truthy]

theorem type_pass_two_required_witness :
    (("charizard", charizard) ∈ deletePass (some [("Fire", true), ("Flying", true)]) typesDelete
        [("charmander", charmander), ("charizard", charizard)] ↔
      ("Fire" = "Fire" ∧ "Flying" = "Flying") ∨ ("Fire" = "Flying" ∧ "Flying" = "Fire")) ∧
    (("charizard", charizard) ∈ deletePass (some [("Fire", true), ("Water", true)]) typesDelete
        [("charmander", charmander), ("charizard", charizard)] ↔
      ("Fire" = "Fire" ∧ "Flying" = "Water") ∨ ("Fire" = "Water" ∧ "Flying" = "Fire")) ∧
    ("charmander", charmander) ∉ deletePass (some [("Fire", true), ("Flying", true)]) typesDelete
        [("charmander", charmander), ("charizard", charizard)] :=
  ⟨((type_pass_two_required exampleTools false ["fire type", "flying type"]
      { State.init with searches := { State.init.searches with
          types := some [("Fire", true), ("Flying", true)] } }
      [("Fire", true), ("Flying", true)] "Fire" "Flying" rfl rfl (by decide) (by decide)
      (by decide)).2 [("charmander", charmander), ("charizard", charizard)]
      ("charizard", charizard) (by decide)).2 "Fire" "Flying" rfl (by decide),
   ((type_pass_two_required exampleTools false ["fire type", "water type"]
      { State.init with searches := { State.init.searches with
          types := some [("Fire", true), ("Water", true)] } }
      [("Fire", true), ("Water", true)] "Fire" "Water" rfl rfl (by decide) (by decide)
      (by decide)).2 [("charmander", charmander), ("charizard", charizard)]
      ("charizard", charizard) (by decide)).2 "Fire" "Flying" rfl (by decide),
   ((type_pass_two_required exampleTools false ["fire type", "flying type"]
      { State.init with searches := { State.init.searches with
          types := some [("Fire", true), ("Flying", true)] } }
      [("Fire", true), ("Flying", true)] "Fire" "Flying" rfl rfl (by decide) (by decide)
      (by decide)).2 [("charmander", charmander), ("charizard", charizard)]
      ("charmander", charmander) (by decide)).1 "Fire" rfl⟩

/-! ## The tier pass and the LC criteria -/

/-- C2. On the example catalog the species Ferroseed has no prior form, has a
further evolution and is not on the LC banlist, and its stored tier is RU; the
token list with the single token lc is accepted as the tier constraint
include-lc, the tier pass deletes Ferroseed, and the reply does not list it. -/
theorem lc_include_deletes_record_of_other_tier :
    ferroseed.prevo = "" ∧ ferroseed.evos.length > 0 ∧
    ¬ ferroseed.species ∈ exampleTools.lcBanlist ∧
    isLC exampleTools ferroseed = true ∧ ferroseed.tier = "RU" ∧
    ("ferroseed", ferroseed) ∈ buildDex exampleTools
      { State.init with searches := { State.init.searches with tier := some [("lc", true)] } } ∧
    accumulate exampleTools false ["lc"] =
      .ok { State.init with searches := { State.init.searches with
              tier := some [("lc", true)] } } ∧
    tierDelete exampleTools [("lc", true)] ferroseed = true ∧
    dexsearch exampleTools 5 false ["lc"] = .replied (.listed ["Charmander", "Squirtle"]) :=
  ⟨rfl, by decide, by decide, by decide, rfl, by decide, rfl, by decide, by decide⟩

/-! ## The cap on included moves -/

theorem accumulateFrom_nil (tools : Tools) (broadcasting : Bool) (st : State) :
    accumulateFrom tools broadcasting st [] = .ok st := rfl

theorem accumulateFrom_cons_record (tools : Tools) (broadcasting : Bool) (st : State)
    (raw : String) (rest : List String) (term : Term) (h : classify tools raw = term) :
    accumulateFrom tools broadcasting st (raw :: rest) =
      match record tools broadcasting st term with
      | .ok st' => accumulateFrom tools broadcasting st' rest
      | .error e => .error e := by
  simp only [accumulateFrom, step_eq_record, h]

theorem four_included_moves (tools : Tools) (broadcasting : Bool)
    (t1 t2 t3 t4 m1 m2 m3 m4 : String)
    (h1 : classify tools t1 = .constraint (.moves m1) false)
    (h2 : classify tools t2 = .constraint (.moves m2) false)
    (h3 : classify tools t3 = .constraint (.moves m3) false)
    (h4 : classify tools t4 = .constraint (.moves m4) false)
    (hd : [m1, m2, m3, m4].Nodup) :
    accumulate tools broadcasting [t1, t2, t3, t4] =
      .ok { State.init with searches := { State.init.searches with
              moves := some [(m1, true), (m2, true), (m3, true), (m4, true)] } } := by
  simp only [List.nodup_cons, List.mem_cons, List.mem_singleton, List.not_mem_nil, not_or,
    or_false, not_false_eq_true, List.nodup_nil, and_true] at hd
  obtain ⟨⟨h12, h13, h14⟩, ⟨h23, h24⟩, h34⟩ := hd
  simp [accumulate, accumulateFrom_cons_record _ _ _ _ _ _ h1,
    accumulateFrom_cons_record _ _ _ _ _ _ h2, accumulateFrom_cons_record _ _ _ _ _ _ h3,
    accumulateFrom_cons_record _ _ _ _ _ _ h4, record, State.capReply, Slot.cap,
    State.included, State.init, State.read, State.store, State.readsInherited, State.assign,
    Object.count, propGet, propSet, accumulateFrom_nil, Ne.symm h12, Ne.symm h13, Ne.symm h14, Ne.symm h23, Ne.symm h24, Ne.symm h34]

/-- C3. Five tokens that the loop takes as included moves with five distinct
move names make dexsearch reply "Specify a maximum of 4 moves."; four such
tokens with four distinct names are accepted by the token loop, which records
the four moves as included. -/
theorem included_moves_cap (tools : Tools) (fuel : Nat) (broadcasting : Bool) :
    (∀ t1 t2 t3 t4 t5 m1 m2 m3 m4 m5 : String,
      classify tools t1 = .constraint (.moves m1) false →
      classify tools t2 = .constraint (.moves m2) false →
      classify tools t3 = .constraint (.moves m3) false →
      classify tools t4 = .constraint (.moves m4) false →
      classify tools t5 = .constraint (.moves m5) false →
      [m1, m2, m3, m4, m5].Nodup →
      dexsearch tools fuel broadcasting [t1, t2, t3, t4, t5] = .replied .maxMoves) ∧
    (∀ t1 t2 t3 t4 m1 m2 m3 m4 : String,
      classify tools t1 = .constraint (.moves m1) false →
      classify tools t2 = .constraint (.moves m2) false →
      classify tools t3 = .constraint (.moves m3) false →
      classify tools t4 = .constraint (.moves m4) false →
      [m1, m2, m3, m4].Nodup →
      accumulate tools broadcasting [t1, t2, t3, t4] =
        .ok { State.init with searches := { State.init.searches with
                moves := some [(m1, true), (m2, true), (m3, true), (m4, true)] } }) := by
  constructor
  · intro t1 t2 t3 t4 t5 m1 m2 m3 m4 m5 h1 h2 h3 h4 h5 hd
    have hd4 : [m1, m2, m3, m4].Nodup := by
      have : [m1, m2, m3, m4].Sublist [m1, m2, m3, m4, m5] := by simp
      exact hd.sublist this
    have h := four_included_moves tools broadcasting t1 t2 t3 t4 m1 m2 m3 m4 h1 h2 h3 h4 hd4
    have happ := accumulateFrom_append tools broadcasting State.init [t1, t2, t3, t4] [t5]
    simp only [accumulate] at h
    rw [h] at happ
    simp only [List.cons_append, List.nil_append] at happ
    have hacc : accumulate tools broadcasting [t1, t2, t3, t4, t5] =
        .error (.replied .maxMoves) := by
      simp only [accumulate]
      rw [happ, accumulateFrom_cons_record _ _ _ _ _ _ h5]
      simp [record, State.capReply, Slot.cap, State.included, State.init, Object.count]
    simp only [dexsearch, hacc]
  · intro t1 t2 t3 t4 m1 m2 m3 m4 h1 h2 h3 h4 hd
    exact four_included_moves tools broadcasting t1 t2 t3 t4 m1 m2 m3 m4 h1 h2 h3 h4 hd

theorem included_moves_cap_witness :
    dexsearch exampleTools 5 false ["tackle", "ember", "surf", "ice beam", "thunderbolt"] =
      .replied .maxMoves ∧
    accumulate exampleTools false ["tackle", "ember", "surf", "ice beam"] =
      .ok { State.init with searches := { State.init.searches with
              moves := some [("Tackle", true), ("Ember", true), ("Surf", true),
                ("Ice Beam", true)] } } :=
  ⟨(included_moves_cap exampleTools 5 false).1 "tackle" "ember" "surf" "ice beam" "thunderbolt"
      "Tackle" "Ember" "Surf" "Ice Beam" "Thunderbolt" (by decide) (by decide) (by decide)
      (by decide) (by decide) (by decide),
   (included_moves_cap exampleTools 5 false).2 "tackle" "ember" "surf" "ice beam"
      "Tackle" "Ember" "Surf" "Ice Beam" (by decide) (by decide) (by decide) (by decide)
      (by decide)⟩

/-! ## Contradictory tokens -/

theorem record_read_persist (tools : Tools) (broadcasting : Bool) (st st' : State) (term : Term)
    (slot : Slot) (v : Bool) (h : record tools broadcasting st term = .ok st')
    (hv : st.read slot = some v) : st'.read slot = some v := by
  cases term with
  | constraint slot' n' =>
    obtain ⟨rfl, hne, -⟩ := record_constraint_ok _ _ _ _ _ _ h
    by_cases hs : slot = slot'
    · subst hs
      by_cases hp : slot = .tier "__proto__" ∨ slot = .color "__proto__" ∨
          slot = .types "__proto__"
      · rw [read_store_proto _ _ _ hp]
        exact hv
      · rw [read_store_same _ _ _ (by tauto)]
        rw [hv] at hne
        cases v <;> cases n' <;> simp_all
    · rw [read_store_other _ _ _ _ hs]
      exact hv
  | all =>
    obtain ⟨-, rfl⟩ := record_all_ok _ _ _ _ h
    cases slot <;> exact hv
  | unrecognized target => simp [record] at h

theorem accumulateFrom_read_persist (tools : Tools) (broadcasting : Bool) (st st' : State)
    (l : List String) (slot : Slot) (v : Bool)
    (h : accumulateFrom tools broadcasting st l = .ok st')
    (hv : st.read slot = some v) : st'.read slot = some v := by
  induction l generalizing st with
  | nil =>
    simp only [accumulateFrom, Except.ok.injEq] at h
    exact h ▸ hv
  | cons raw rest ih =>
    simp only [accumulateFrom] at h
    cases hs : step tools broadcasting st raw with
    | ok st1 =>
      rw [hs] at h
      rw [step_eq_record] at hs
      exact ih st1 h (record_read_persist _ _ _ _ _ _ _ hs hv)
    | error e => simp [hs] at h

theorem record_conflict (tools : Tools) (broadcasting : Bool) (st : State) (slot : Slot)
    (v : Bool) (hv : st.read slot = some v) :
    ∃ e, record tools broadcasting st (.constraint slot v) = .error e ∧
      (st.capReply slot v = none → e = .replied slot.contradiction) := by
  cases hc : st.capReply slot v with
  | some r => exact ⟨.replied r, by simp only [record, hc], by simp⟩
  | none =>
    exact ⟨.replied slot.contradiction, by simp only [record, hc, hv, true_or, if_true],
      fun _ => rfl⟩

theorem accumulateFrom_conflict (tools : Tools) (broadcasting : Bool) (st : State)
    (l l' : List String) (c : String) (slot : Slot) (v : Bool)
    (hv : st.read slot = some v) (hc : classify tools c = .constraint slot v) :
    ∃ e, accumulateFrom tools broadcasting st (l ++ c :: l') = .error e ∧
      ∀ st', accumulateFrom tools broadcasting st l = .ok st' → st'.capReply slot v = none →
        e = .replied slot.contradiction := by
  rw [accumulateFrom_append]
  cases hl : accumulateFrom tools broadcasting st l with
  | error e => exact ⟨e, rfl, by intro st' h; cases h⟩
  | ok st1 =>
    have hv1 := accumulateFrom_read_persist _ _ _ _ _ _ _ hl hv
    obtain ⟨e, he, hcap⟩ := record_conflict tools broadcasting st1 slot v hv1
    refine ⟨e, ?_, ?_⟩
    · simp only [accumulateFrom_cons_record _ _ _ _ _ _ hc, he]
    · intro st' h hcap'
      simp only [Except.ok.injEq] at h
      subst h
      exact hcap hcap'

theorem init_protoFree : State.init.protoFree := by
  simp [State.protoFree, State.init, propGet]

theorem record_protoFree (tools : Tools) (broadcasting : Bool) (st st' : State) (term : Term)
    (h : record tools broadcasting st term = .ok st') (hst : st.protoFree) :
    st'.protoFree := by
  cases term with
  | constraint slot n =>
    obtain ⟨rfl, -, -⟩ := record_constraint_ok _ _ _ _ _ _ h
    obtain ⟨h1, h2, h3⟩ := hst
    cases slot with
    | tier label =>
      refine ⟨?_, h2, h3⟩
      by_cases hp : label = "__proto__"
      · simp only [State.store, hp, if_true, Option.getD_some]
        exact h1
      · simp only [State.store, hp, if_false, Option.getD_some]
        rw [propGet_propSet_other _ _ _ _ (Ne.symm hp)]
        exact h1
    | color label =>
      refine ⟨h1, ?_, h3⟩
      by_cases hp : label = "__proto__"
      · simp only [State.store, hp, if_true, Option.getD_some]
        exact h2
      · simp only [State.store, hp, if_false, Option.getD_some]
        rw [propGet_propSet_other _ _ _ _ (Ne.symm hp)]
        exact h2
    | types name =>
      refine ⟨h1, h2, ?_⟩
      by_cases hp : name = "__proto__"
      · simp only [State.store, hp, if_true, Option.getD_some]
        exact h3
      · simp only [State.store, hp, if_false, Option.getD_some]
        rw [propGet_propSet_other _ _ _ _ (Ne.symm hp)]
        exact h3
    | ability name => exact ⟨h1, h2, h3⟩
    | gen key => exact ⟨h1, h2, h3⟩
    | moves name => exact ⟨h1, h2, h3⟩
    | mega => exact ⟨h1, h2, h3⟩
    | fullyEvolved => exact ⟨h1, h2, h3⟩
  | all =>
    obtain ⟨-, rfl⟩ := record_all_ok _ _ _ _ h
    exact hst
  | unrecognized target => simp [record] at h

theorem accumulateFrom_protoFree (tools : Tools) (broadcasting : Bool) (st st' : State)
    (l : List String) (h : accumulateFrom tools broadcasting st l = .ok st')
    (hst : st.protoFree) : st'.protoFree := by
  induction l generalizing st with
  | nil =>
    simp only [accumulateFrom, Except.ok.injEq] at h
    exact h ▸ hst
  | cons raw rest ih =>
    simp only [accumulateFrom] at h
    cases hs : step tools broadcasting st raw with
    | ok st1 =>
      rw [hs] at h
      rw [step_eq_record] at hs
      exact ih st1 h (record_protoFree _ _ _ _ _ hs hst)
    | error e => simp [hs] at h

theorem readsInherited_proto (st : State) (slot : Slot) (hst : st.protoFree)
    (hp : slot = .tier "__proto__" ∨ slot = .color "__proto__" ∨ slot = .types "__proto__") :
    st.readsInherited slot = true := by
  obtain ⟨h1, h2, h3⟩ := hst
  have hin : objectPrototypeNames.contains "__proto__" = true := by decide
  rcases hp with hp | hp | hp <;> subst hp <;>
    simp only [State.readsInherited, State.read, ← propGet_getD_nil, h1, h2, h3, hin,
      Option.isNone_none, Bool.and_self]

theorem capReply_exclude (st : State) (slot : Slot) : st.capReply slot true = none := by
  unfold State.capReply
  cases slot <;> simp [Slot.cap]

theorem accumulateFrom_conflict_proto (tools : Tools) (broadcasting : Bool) (st : State)
    (l l' : List String) (c : String) (slot : Slot) (hst : st.protoFree)
    (hp : slot = .tier "__proto__" ∨ slot = .color "__proto__" ∨ slot = .types "__proto__")
    (hc : classify tools c = .constraint slot true) :
    ∃ e, accumulateFrom tools broadcasting st (l ++ c :: l') = .error e ∧
      ∀ st', accumulateFrom tools broadcasting st l = .ok st' →
        e = .replied slot.contradiction := by
  rw [accumulateFrom_append]
  cases hl : accumulateFrom tools broadcasting st l with
  | error e => exact ⟨e, rfl, by intro st' h; cases h⟩
  | ok st1 =>
    have h1 := readsInherited_proto st1 slot (accumulateFrom_protoFree _ _ _ _ _ hl hst) hp
    refine ⟨.replied slot.contradiction, ?_, fun _ _ => rfl⟩
    simp only [accumulateFrom_cons_record _ _ _ _ _ _ hc, record, capReply_exclude, h1,
      and_self, or_true, if_true]

theorem accumulate_opposed (tools : Tools) (broadcasting : Bool)
    (l1 l2 l3 : List String) (a c : String) (slot : Slot) (n : Bool)
    (ha : classify tools a = .constraint slot n)
    (hc : classify tools c = .constraint slot (!n)) :
    ∃ e, accumulate tools broadcasting (l1 ++ a :: (l2 ++ c :: l3)) = .error e ∧
      ∀ st, accumulate tools broadcasting (l1 ++ a :: l2) = .ok st →
        st.capReply slot (!n) = none → e = .replied slot.contradiction := by
  unfold accumulate
  rw [accumulateFrom_append, accumulateFrom_append]
  cases h1 : accumulateFrom tools broadcasting State.init l1 with
  | error e => exact ⟨e, rfl, by intro st h; cases h⟩
  | ok s1 =>
    simp only [accumulateFrom_cons_record _ _ _ _ _ _ ha]
    cases h2 : record tools broadcasting s1 (.constraint slot n) with
    | error e => exact ⟨e, rfl, by intro st h; cases h⟩
    | ok s2 =>
      have hfree1 := accumulateFrom_protoFree _ _ _ _ _ h1 init_protoFree
      have hfree2 := record_protoFree _ _ _ _ _ h2 hfree1
      by_cases hp : slot = .tier "__proto__" ∨ slot = .color "__proto__" ∨
          slot = .types "__proto__"
      · have hn : n = false :=
          record_constraint_inherited _ _ _ _ _ _ h2 (readsInherited_proto s1 slot hfree1 hp)
        subst hn
        obtain ⟨e, he, hcon⟩ := accumulateFrom_conflict_proto tools broadcasting s2 l2 l3 c slot
          hfree2 hp hc
        exact ⟨e, he, fun st hst _ => hcon st hst⟩
      · obtain ⟨rfl, -, -⟩ := record_constraint_ok _ _ _ _ _ _ h2
        exact accumulateFrom_conflict tools broadcasting _ l2 l3 c slot (!n)
          (read_store_same _ _ _ (by tauto)) hc

/-- C4, as the code has it. A token list that contains two tokens standing for
the same value of a category (or for the same flag) with opposite polarity, in
either order, is always rejected in the token loop with an error reply. The
reply is the contradiction error of that category whenever the tokens before the
second of the two are accepted and the second one does not hit the cap of its
category (an include while 1 ability, 4 moves or 2 types are already
included). -/
theorem opposed_tokens_rejected (tools : Tools) (fuel : Nat) (broadcasting : Bool)
    (l1 l2 l3 : List String) (a c : String) (slot : Slot) (n : Bool)
    (ha : classify tools a = .constraint slot n)
    (hc : classify tools c = .constraint slot (!n)) :
    (∃ r, r.isError = true ∧
      accumulate tools broadcasting (l1 ++ a :: (l2 ++ c :: l3)) = .error (.replied r) ∧
      dexsearch tools fuel broadcasting (l1 ++ a :: (l2 ++ c :: l3)) = .replied r) ∧
    (∀ st, accumulate tools broadcasting (l1 ++ a :: l2) = .ok st →
      st.capReply slot (!n) = none →
      dexsearch tools fuel broadcasting (l1 ++ a :: (l2 ++ c :: l3)) =
        .replied slot.contradiction) := by
  obtain ⟨e, he, hcon⟩ := accumulate_opposed tools broadcasting l1 l2 l3 a c slot n ha hc
  obtain ⟨r, rfl, hr⟩ := accumulateFrom_error_replied _ _ _ _ _ he
  constructor
  · exact ⟨r, hr, he, by simp only [dexsearch, he]⟩
  · intro st hst hcap
    have := hcon st hst hcap
    simp only [dexsearch, he, this]

theorem opposed_tokens_rejected_witness :
    (∃ r, r.isError = true ∧
      accumulate exampleTools false ([] ++ "ou" :: (["fire type"] ++ "!ou" :: [])) =
        .error (.replied r) ∧
      dexsearch exampleTools 5 false ([] ++ "ou" :: (["fire type"] ++ "!ou" :: [])) =
        .replied r) ∧
    dexsearch exampleTools 5 false ([] ++ "ou" :: (["fire type"] ++ "!ou" :: [])) =
      .replied (.contradiction "a tier") :=
  ⟨(opposed_tokens_rejected exampleTools 5 false [] ["fire type"] [] "ou" "!ou"
      (.tier "ou") false (by decide) (by decide)).1,
   (opposed_tokens_rejected exampleTools 5 false [] ["fire type"] [] "ou" "!ou"
      (.tier "ou") false (by decide) (by decide)).2
      { State.init with searches := { State.init.searches with
          tier := some [("ou", true)], types := some [("Fire", true)] } } rfl rfl⟩

/-- C4, counterexample. The tokens "!ice type" and "ice type" stand for the
type Ice with opposite polarity, yet the list below is rejected with "Specify
a maximum of two types.", not with the contradiction error. -/
theorem opposed_tokens_cap_reply :
    classify exampleTools "!ice type" = .constraint (.types "Ice") true ∧
    classify exampleTools "ice type" = .constraint (.types "Ice") false ∧
    dexsearch exampleTools 5 false ["fire type", "water type", "!ice type", "ice type"] =
      .replied .maxTypes ∧
    dexsearch exampleTools 5 false ["fire type", "water type", "!ice type", "ice type"] ≠
      .replied (.contradiction "a type") := by
  refine ⟨by decide, by decide, by decide, by decide⟩

/-! ## The filtered dex is part of the eligible dex -/

theorem mem_buildDex (tools : Tools) (st : State) (entry : String × Template)
    (h : entry ∈ buildDex tools st) :
    entry.1 ∈ tools.pokedex ∧ entry.2 = tools.getTemplate entry.1 ∧
      eligible st entry.2 = true := by
  simp only [buildDex, List.mem_filter, List.mem_map] at h
  obtain ⟨⟨p, hp, rfl⟩, he⟩ := h
  exact ⟨hp, rfl, he⟩

theorem movesPass_subset (tools : Tools) (fuel : Nat) (moves : Dict)
    (dex kept : List (String × Template))
    (h : movesPass tools fuel moves dex = .ok kept) : ∀ e ∈ kept, e ∈ dex := by
  induction dex generalizing kept with
  | nil =>
    simp only [movesPass, Except.ok.injEq] at h
    subst h
    simp
  | cons entry rest ih =>
    simp only [movesPass] at h
    cases hd : movesDelete tools fuel moves entry.2 with
    | error e => simp [hd] at h
    | ok deleted =>
      simp only [hd] at h
      cases hr : movesPass tools fuel moves rest with
      | error e => simp [hr] at h
      | ok kept' =>
        simp only [hr, Except.ok.injEq] at h
        subst h
        intro e he
        cases deleted with
        | true => exact List.mem_cons_of_mem _ (ih kept' hr e (by simpa using he))
        | false =>
          simp only [Bool.false_eq_true, if_false, List.mem_cons] at he
          rcases he with rfl | he
          · exact List.mem_cons_self _ _
          · exact List.mem_cons_of_mem _ (ih kept' hr e he)

theorem deletePass_subset (search : Option Dict) (delete : Dict → Template → Bool)
    (dex : List (String × Template)) : ∀ e ∈ deletePass search delete dex, e ∈ dex := by
  intro e he
  cases search with
  | none => exact he
  | some d => exact (List.mem_filter.mp he).1

theorem laterPasses_subset (tools : Tools) (searches : Searches)
    (dex : List (String × Template)) : ∀ e ∈ laterPasses tools searches dex, e ∈ dex := by
  intro e he
  unfold laterPasses at he
  exact deletePass_subset _ _ _ _ (deletePass_subset _ _ _ _ (deletePass_subset _ _ _ _
    (deletePass_subset _ _ _ _ (deletePass_subset _ _ _ _ he))))

theorem filterDex_subset (tools : Tools) (fuel : Nat) (st : State)
    (dex : List (String × Template)) (h : filterDex tools fuel st = .ok dex) :
    ∀ e ∈ dex, e ∈ buildDex tools st := by
  unfold filterDex at h
  cases hm : st.searches.moves with
  | none =>
    simp only [hm, Except.ok.injEq] at h
    subst h
    exact laterPasses_subset _ _ _
  | some moves =>
    simp only [hm] at h
    cases hp : movesPass tools fuel moves (buildDex tools st) with
    | error e => simp [hp, Except.map] at h
    | ok kept =>
      simp only [hp, Except.map, Except.ok.injEq] at h
      subst h
      intro e he
      exact movesPass_subset _ _ _ _ _ hp e (laterPasses_subset _ _ _ e he)

theorem mem_collapse (tools : Tools) (results : List String) :
    ∀ name ∈ collapse tools results, name ∈ results := by
  intro name h
  exact (List.mem_filter.mp h).1

theorem mem_speciesOf (dex : List (String × Template)) (name : String)
    (h : name ∈ speciesOf dex) : ∃ entry ∈ dex, entry.2.species = name := by
  simpa [speciesOf] using h

/-- C5. Whatever the catalog and the accepted token list, every record of the
filtered dex is a Pokedex entry whose tier is neither Unreleased nor Illegal,
and whose tier is CAP only if the constraint set holds the tier cap as an
include constraint; every name left after the collapse, every name of a full
listing, and (when `randomize` only rearranges its argument) every name of a
truncated listing is the species of such a record. -/
theorem baseline_tiers_excluded (tools : Tools) (fuel : Nat) (broadcasting : Bool)
    (targets : List String) (st : State) (dex : List (String × Template))
    (hacc : accumulate tools broadcasting targets = .ok st)
    (hdex : filterDex tools fuel st = .ok dex) :
    (∀ entry ∈ dex, entry.1 ∈ tools.pokedex ∧ entry.2 = tools.getTemplate entry.1 ∧
      entry.2.tier ≠ "Unreleased" ∧ entry.2.tier ≠ "Illegal" ∧
      (entry.2.tier = "CAP" →
        ∃ tiers, st.searches.tier = some tiers ∧ propGet tiers "cap" = some true)) ∧
    (∀ name ∈ collapse tools (speciesOf dex), ∃ entry ∈ dex, entry.2.species = name) ∧
    (∀ names, dexsearch tools fuel broadcasting targets = .replied (.listed names) →
      ∀ name ∈ names, ∃ entry ∈ dex, entry.2.species = name) ∧
    (∀ names more, dexsearch tools fuel broadcasting targets = .replied (.truncated names more) →
      (∀ l, tools.randomize l ⊆ l) →
      ∀ name ∈ names, ∃ entry ∈ dex, entry.2.species = name) := by
  have hcol : ∀ name ∈ collapse tools (speciesOf dex), ∃ entry ∈ dex, entry.2.species = name :=
    fun name h => mem_speciesOf dex name (mem_collapse tools _ name h)
  refine ⟨?_, hcol, ?_, ?_⟩
  · intro entry he
    obtain ⟨hp, ht, hel⟩ := mem_buildDex tools st entry (filterDex_subset _ _ _ _ hdex entry he)
    refine ⟨hp, ht, ?_⟩
    simp only [eligible, Bool.and_eq_true, bne_iff_ne, ne_eq, Bool.or_eq_true] at hel
    obtain ⟨⟨⟨⟨h1, h2⟩, h3⟩, -⟩, -⟩ := hel
    refine ⟨h1, h2, ?_⟩
    intro hcap
    rcases h3 with h3 | h3
    · exact absurd hcap h3
    · cases ht' : st.searches.tier with
      | none => simp [ht'] at h3
      | some tiers =>
        simp only [ht', truthy, beq_iff_eq] at h3
        exact ⟨tiers, rfl, h3⟩
  · intro names hrep name hn
    simp only [dexsearch, hacc, hdex] at hrep
    split at hrep
    · simp at hrep
    · simp only [render] at hrep
      split at hrep
      · split at hrep
        · simp only [Outcome.replied.injEq, Reply.listed.injEq] at hrep
          subst hrep
          exact hcol name ((List.perm_insertionSort _ _).mem_iff.mp hn)
        · simp at hrep
      · simp at hrep
  · intro names more hrep hrand name hn
    simp only [dexsearch, hacc, hdex] at hrep
    split at hrep
    · simp at hrep
    · simp only [render] at hrep
      split at hrep
      · split at hrep
        · simp at hrep
        · simp only [Outcome.replied.injEq, Reply.truncated.injEq] at hrep
          obtain ⟨hrep, -⟩ := hrep
          subst hrep
          exact hcol name (hrand _ (List.mem_of_mem_take hn))
      · simp at hrep

theorem baseline_tiers_excluded_witness :
    ("syclant", syclant).1 ∈ exampleTools.pokedex ∧
      ("syclant", syclant).2 = exampleTools.getTemplate ("syclant", syclant).1 ∧
      ("syclant", syclant).2.tier ≠ "Unreleased" ∧ ("syclant", syclant).2.tier ≠ "Illegal" ∧
      (("syclant", syclant).2.tier = "CAP" →
        ∃ tiers, ({ State.init with searches := { State.init.searches with
            tier := some [("cap", true)] } } : State).searches.tier = some tiers ∧
          propGet tiers "cap" = some true) :=
  (baseline_tiers_excluded exampleTools 5 false ["cap"]
    { State.init with searches := { State.init.searches with tier := some [("cap", true)] } }
    [("syclant", syclant)] rfl rfl).1 ("syclant", syclant) (by decide)

/-! ## The parameter all -/

theorem assign_showAll (st : State) (slot : Slot) (v : Bool) :
    (st.assign slot v).showAll = st.showAll := by
  cases slot <;> rfl

theorem store_showAll (st : State) (slot : Slot) (v : Bool) :
    (st.store slot v).showAll = st.showAll := by
  cases slot <;> rfl

theorem record_showAll (tools : Tools) (broadcasting : Bool) (st st' : State) (term : Term)
    (h : record tools broadcasting st term = .ok st') :
    st'.showAll = true ↔ st.showAll = true ∨ term = .all := by
  cases term with
  | constraint slot n =>
    obtain ⟨rfl, -, -⟩ := record_constraint_ok _ _ _ _ _ _ h
    simp [store_showAll]
  | all =>
    obtain ⟨-, rfl⟩ := record_all_ok _ _ _ _ h
    simp
  | unrecognized target => simp [record] at h

theorem accumulateFrom_showAll (tools : Tools) (broadcasting : Bool) (st st' : State)
    (l : List String) (h : accumulateFrom tools broadcasting st l = .ok st') :
    st'.showAll = true ↔ st.showAll = true ∨ ∃ raw ∈ l, classify tools raw = .all := by
  induction l generalizing st with
  | nil =>
    simp only [accumulateFrom, Except.ok.injEq] at h
    subst h
    simp
  | cons raw rest ih =>
    simp only [accumulateFrom] at h
    cases hs : step tools broadcasting st raw with
    | ok st1 =>
      rw [hs] at h
      rw [step_eq_record] at hs
      rw [ih st1 h, record_showAll _ _ _ _ _ hs]
      simp only [List.mem_cons, exists_eq_or_imp, or_assoc]
    | error e => simp [hs] at h

theorem movesLoop_error (tools : Tools) (fuel : Nat) (template : Template)
    (moves : List (String × Bool)) (deleted : Bool) (e : Outcome)
    (h : movesLoop tools fuel template moves deleted = .error e) :
    e = .outOfFuel ∨ e = .typeError ∨ ∃ m, e = .replied (.unknownMove m) := by
  induction moves generalizing deleted with
  | nil => simp [movesLoop] at h
  | cons entry rest ih =>
    obtain ⟨i, wanted⟩ := entry
    simp only [movesLoop] at h
    cases hm : tools.getMove i with
    | none =>
      simp only [hm, Except.error.injEq] at h
      exact Or.inr (Or.inr ⟨i, h.symm⟩)
    | some move =>
      simp only [hm] at h
      cases hw : prevoWalk tools move.id fuel (tools.getTemplate template.id) with
      | none =>
        simp only [hw, Except.error.injEq] at h
        exact Or.inl h.symm
      | some prevoTemp =>
        simp only [hw] at h
        cases hl : prevoTemp.learnset with
        | none =>
          simp only [hl, Except.error.injEq] at h
          exact Or.inr (Or.inl h.symm)
        | some learnset =>
          simp only [hl] at h
          exact ih _ h

theorem movesDelete_error (tools : Tools) (fuel : Nat) (moves : Dict) (mon : Template)
    (e : Outcome) (h : movesDelete tools fuel moves mon = .error e) :
    e = .outOfFuel ∨ e = .typeError ∨ ∃ m, e = .replied (.unknownMove m) := by
  unfold movesDelete at h
  simp only at h
  generalize (if (tools.getTemplate mon.id).learnset.isNone = true then
    tools.getTemplate (tools.getTemplate mon.id).baseSpecies
    else tools.getTemplate mon.id) = template at h
  by_cases hl : template.learnset.isNone = true
  · simp [hl] at h
  · simp only [hl, Bool.false_eq_true, if_false] at h
    exact movesLoop_error _ _ _ _ _ _ h

theorem movesPass_error (tools : Tools) (fuel : Nat) (moves : Dict)
    (dex : List (String × Template)) (e : Outcome)
    (h : movesPass tools fuel moves dex = .error e) :
    e = .outOfFuel ∨ e = .typeError ∨ ∃ m, e = .replied (.unknownMove m) := by
  induction dex with
  | nil => simp [movesPass] at h
  | cons entry rest ih =>
    simp only [movesPass] at h
    cases hd : movesDelete tools fuel moves entry.2 with
    | error e1 =>
      simp only [hd, Except.error.injEq] at h
      subst h
      exact movesDelete_error _ _ _ _ _ hd
    | ok deleted =>
      simp only [hd] at h
      cases hr : movesPass tools fuel moves rest with
      | error e2 =>
        simp only [hr, Except.error.injEq] at h
        subst h
        exact ih hr
      | ok kept => simp [hr] at h

theorem filterDex_error (tools : Tools) (fuel : Nat) (st : State) (e : Outcome)
    (h : filterDex tools fuel st = .error e) :
    e = .outOfFuel ∨ e = .typeError ∨ ∃ m, e = .replied (.unknownMove m) := by
  unfold filterDex at h
  cases hm : st.searches.moves with
  | none => simp [hm] at h
  | some moves =>
    simp only [hm] at h
    cases hp : movesPass tools fuel moves (buildDex tools st) with
    | error e1 =>
      simp only [hp, Except.map, Except.error.injEq] at h
      subst h
      exact movesPass_error _ _ _ _ _ hp
    | ok kept => simp [hp, Except.map] at h

theorem render_cases (tools : Tools) (showAll : Bool) (results : List String) :
    render tools showAll results = .noneFound ∨
    render tools showAll results = .listed (sortNames results) ∨
    (showAll = false ∧ render tools showAll results =
      .truncated ((tools.randomize results).take 10) (results.length - 10)) := by
  unfold render
  split
  · split
    · exact Or.inr (Or.inl rfl)
    · rename_i h
      simp only [not_or] at h
      exact Or.inr (Or.inr ⟨by simpa using h.1, rfl⟩)
  · exact Or.inl rfl

/-- C6. For a request that is not broadcast and whose tokens the loop accepts,
dexsearch replies "No search parameters other than 'all' were found" if and
only if some token is the parameter all, the constraint object has no category
and neither flag is set; when some token is the parameter all the reply is
never a truncated listing. On the example catalog the token list [all] gets
that error, and [!water type, all] gets the sorted list of all the records
without the type Water. -/
theorem all_needs_a_constraint (tools : Tools) (fuel : Nat) (targets : List String)
    (st : State) (hacc : accumulate tools false targets = .ok st) :
    (dexsearch tools fuel false targets = .replied .noParameters ↔
      (∃ raw ∈ targets, classify tools raw = .all) ∧ Object.size st.searches = 0 ∧
        st.megaSearch = none ∧ st.feSearch = none) ∧
    ((∃ raw ∈ targets, classify tools raw = .all) →
      ∀ names more, dexsearch tools fuel false targets ≠ .replied (.truncated names more)) ∧
    dexsearch exampleTools 5 false ["all"] = .replied .noParameters ∧
    dexsearch exampleTools 5 false ["!water type", "all"] =
      .replied (.listed ["Charizard", "Charmander", "Charmeleon", "Ferroseed", "Smeargle"]) := by
  have hshow : st.showAll = true ↔ ∃ raw ∈ targets, classify tools raw = .all := by
    have := accumulateFrom_showAll tools false State.init st targets hacc
    simpa [State.init] using this
  have hnb : nothingButAll st = true ↔
      (∃ raw ∈ targets, classify tools raw = .all) ∧ Object.size st.searches = 0 ∧
        st.megaSearch = none ∧ st.feSearch = none := by
    rw [← hshow]
    simp [nothingButAll, and_assoc]
  refine ⟨?_, ?_, by decide, by decide⟩
  · rw [← hnb]
    constructor
    · intro h
      by_contra hn
      simp only [dexsearch, hacc, hn] at h
      cases hf : filterDex tools fuel st with
      | error e =>
        simp only [hf] at h
        rcases filterDex_error _ _ _ _ hf with h1 | h1 | ⟨m, h1⟩ <;> rw [h1] at h <;> simp at h
      | ok dex =>
        simp only [hf, Bool.false_eq_true, if_false, Outcome.replied.injEq] at h
        rcases render_cases tools st.showAll (collapse tools (speciesOf dex)) with
          h1 | h1 | ⟨-, h1⟩ <;> rw [h1] at h <;> simp at h
    · intro h
      simp only [dexsearch, hacc, h, if_true]
  · intro hall names more h
    have hs := hshow.mpr hall
    simp only [dexsearch, hacc] at h
    split at h
    · simp at h
    · cases hf : filterDex tools fuel st with
      | error e =>
        simp only [hf] at h
        rcases filterDex_error _ _ _ _ hf with h1 | h1 | ⟨m, h1⟩ <;> rw [h1] at h <;> simp at h
      | ok dex =>
        simp only [hf, Outcome.replied.injEq] at h
        rcases render_cases tools st.showAll (collapse tools (speciesOf dex)) with
          h1 | h1 | ⟨h0, -⟩
        · rw [h1] at h; simp at h
        · rw [h1] at h; simp at h
        · rw [hs] at h0; simp at h0

theorem all_needs_a_constraint_witness :
    (dexsearch exampleTools 5 false ["all", "all"] = .replied .noParameters ↔
      (∃ raw ∈ ["all", "all"], classify exampleTools raw = .all) ∧
        Object.size ({ State.init with showAll := true } : State).searches = 0 ∧
        ({ State.init with showAll := true } : State).megaSearch = none ∧
        ({ State.init with showAll := true } : State).feSearch = none) :=
  (all_needs_a_constraint exampleTools 5 ["all", "all"] { State.init with showAll := true }
    rfl).1

/-! ## Tokens of no category -/

theorem classify_unrecognized (tools : Tools) (raw q : String)
    (h : classify tools raw = .unrecognized q) :
    indexOf (targetOf raw) " type" = none → q = targetOf raw := by
  intro hI
  cases hA : tools.getAbility raw with
  | some a => rw [classify_ability _ _ _ hA] at h; simp at h
  | none =>
  by_cases h1 : jsIn (targetOf raw) allTiers = true
  · rw [classify_tier _ _ hA h1] at h; simp at h
  by_cases h2 : jsIn (targetOf raw) allColours = true
  · rw [classify_color _ _ hA h1 h2] at h; simp at h
  by_cases h3 : isGen (parseInt (targetOf raw)) = true
  · rw [classify_gen _ _ hA h1 h2 h3] at h; simp at h
  by_cases h4 : targetOf raw = "all"
  · rw [classify_all _ _ hA h1 h2 h3 h4] at h; simp at h
  by_cases h5 : targetOf raw = "megas" ∨ targetOf raw = "mega"
  · rw [classify_mega _ _ hA h1 h2 h3 h4 h5] at h; simp at h
  by_cases h6 : targetOf raw = "fe" ∨ targetOf raw = "fullyevolved"
  · rw [classify_fe _ _ hA h1 h2 h3 h4 h5 h6] at h; simp at h
  by_cases h7 : targetOf raw = "nfe" ∨ targetOf raw = "notfullyevolved"
  · rw [classify_nfe _ _ hA h1 h2 h3 h4 h5 h6 h7] at h; simp at h
  cases h8 : tools.getMove (targetOf raw) with
  | some mv => rw [classify_move _ _ mv hA h1 h2 h3 h4 h5 h6 h7 h8] at h; simp at h
  | none =>
    rw [classify_rest _ _ hA h1 h2 h3 h4 h5 h6 h7 h8] at h
    simp only [hI, Term.unrecognized.injEq] at h
    exact h.symm

/-- C7, as the code has it. A list of tokens of ASCII characters that contains
a token passing none of the tests of the token loop is always rejected in the
token loop with an error reply, so that no filtering takes place; when the
tokens before that token are accepted the reply is the "could not be found in
any of the search categories" error, and for a token without " type" in it the
quoted term is the token trimmed, lower-cased and stripped of its exclusion
mark, passed through escapeHTML. The tier, color and type tests are the `in`
tests of lines 589, 596 and 643, which the names inherited from
`Object.prototype` pass: such a token is not of this kind. -/
theorem unrecognized_token_aborts (tools : Tools) (fuel : Nat) (broadcasting : Bool)
    (pre post : List String) (raw q : String)
    (_hpre : ∀ t ∈ pre, isAscii t = true) (_hraw : isAscii raw = true)
    (h : classify tools raw = .unrecognized q) :
    (∃ r, r.isError = true ∧
      accumulate tools broadcasting (pre ++ raw :: post) = .error (.replied r) ∧
      dexsearch tools fuel broadcasting (pre ++ raw :: post) = .replied r) ∧
    (∀ st, accumulate tools broadcasting pre = .ok st →
      dexsearch tools fuel broadcasting (pre ++ raw :: post) =
        .replied (.notFound (tools.escapeHTML q))) ∧
    (indexOf (targetOf raw) " type" = none → q = targetOf raw) := by
  have hstep : ∀ st, accumulateFrom tools broadcasting st (raw :: post) =
      .error (.replied (.notFound (tools.escapeHTML q))) := by
    intro st
    simp only [accumulateFrom_cons_record _ _ _ _ _ _ h, record]
  have hacc : accumulate tools broadcasting (pre ++ raw :: post) =
      match accumulate tools broadcasting pre with
      | .ok _ => .error (.replied (.notFound (tools.escapeHTML q)))
      | .error e => .error e := by
    unfold accumulate
    rw [accumulateFrom_append]
    cases accumulateFrom tools broadcasting State.init pre with
    | ok st => exact hstep st
    | error e => rfl
  refine ⟨?_, ?_, classify_unrecognized tools raw q h⟩
  · cases hp : accumulate tools broadcasting pre with
    | ok st =>
      rw [hp] at hacc
      exact ⟨.notFound (tools.escapeHTML q), rfl, hacc, by simp only [dexsearch, hacc]⟩
    | error e =>
      rw [hp] at hacc
      obtain ⟨r, rfl, hr⟩ := accumulateFrom_error_replied _ _ _ _ _ hp
      exact ⟨r, hr, hacc, by simp only [dexsearch, hacc]⟩
  · intro st hp
    rw [hp] at hacc
    simp only [dexsearch, hacc]

theorem unrecognized_token_aborts_witness :
    dexsearch exampleTools 5 false (["fire type"] ++ "blastoise" :: ["ou"]) =
      .replied (.notFound (exampleTools.escapeHTML "blastoise")) ∧
    classify exampleTools "constructor" = .constraint (.tier "constructor") false ∧
    dexsearch exampleTools 5 false ["constructor"] = .replied .noneFound ∧
    dexsearch exampleTools 5 false ["!constructor"] = .replied (.contradiction "a tier") :=
  ⟨(unrecognized_token_aborts exampleTools 5 false ["fire type"] ["ou"] "blastoise" "blastoise"
      (by decide) (by decide) (by decide)).2.1
      { State.init with searches := { State.init.searches with types := some [("Fire", true)] } }
      rfl,
   by decide, by decide, by decide⟩

/-- C7, counterexample. The tokens "!Blastoise" and "!Foo Type" match no
search category; the error quotes the terms "blastoise" and "Foo", neither of
which is the original token. -/
theorem quoted_term_is_not_the_token :
    classify exampleTools "!Blastoise" = .unrecognized "blastoise" ∧
    dexsearch exampleTools 5 false ["!Blastoise"] = .replied (.notFound "blastoise") ∧
    (Reply.notFound "blastoise").text =
      "'blastoise' could not be found in any of the search categories." ∧
    "blastoise" ≠ "!Blastoise" ∧
    classify exampleTools "!Foo Type" = .unrecognized "Foo" ∧
    targetOf "!Foo Type" = "foo type" ∧
    dexsearch exampleTools 5 false ["!Foo Type"] = .replied (.notFound "Foo") ∧
    "Foo" ≠ "!Foo Type" ∧ "Foo" ≠ "foo type" := by
  refine ⟨by decide, by decide, by decide, by decide, by decide, by decide, by decide,
    by decide, by decide⟩

/-! ## The caps as an invariant -/

/-- C8. Every constraint set accepted by the token loop has at most one
included ability, at most four included moves and at most two included types,
exclusions not being counted: three excluded types are accepted, while the
three included types fire, water and ice are rejected with "Specify a maximum
of two types.". -/
theorem accepted_constraints_within_caps (tools : Tools) (broadcasting : Bool)
    (targets : List String) (st : State)
    (hacc : accumulate tools broadcasting targets = .ok st) :
    (∀ d, st.searches.ability = some d → Object.count d true ≤ 1) ∧
    (∀ d, st.searches.moves = some d → Object.count d true ≤ 4) ∧
    (∀ d, st.searches.types = some d → Object.count d true ≤ 2) ∧
    dexsearch exampleTools 5 false ["fire type", "water type", "ice type"] =
      .replied .maxTypes ∧
    accumulate exampleTools false ["!fire type", "!water type", "!ice type"] =
      .ok { State.init with searches := { State.init.searches with
              types := some [("Fire", false), ("Water", false), ("Ice", false)] } } := by
  obtain ⟨h1, h2, h3⟩ := accumulateFrom_withinCaps _ _ _ _ _ hacc init_withinCaps
  refine ⟨?_, ?_, ?_, by decide, rfl⟩
  · intro d hd
    simpa [hd] using h1
  · intro d hd
    simpa [hd] using h2
  · intro d hd
    simpa [hd] using h3

theorem accepted_constraints_within_caps_witness :
    Object.count [("Fire", true), ("Ice", false), ("Water", true)] true ≤ 2 :=
  (accepted_constraints_within_caps exampleTools false
    ["fire type", "!ice type", "water type"]
    { State.init with searches := { State.init.searches with
        types := some [("Fire", true), ("Ice", false), ("Water", true)] } } rfl).2.2.1
    [("Fire", true), ("Ice", false), ("Water", true)] rfl

/-! ## First match wins -/

/-- C9. An accepted token of ASCII characters changes exactly one place of the
state, the one of the first test it passes in the order ability, tier, color,
generation, all, mega, fully evolved, move, type; the tests that come later are
not consulted. The tier, color and type tests are the `in` tests of lines 589,
596 and 643, which a name inherited from `Object.prototype` passes as well. In
particular a token that passes the ability test or the tier test leaves the move
constraints unchanged even when it is also the name of a move. -/
theorem first_match_wins (tools : Tools) (broadcasting : Bool) (st st' : State)
    (raw : String) (_hascii : isAscii raw = true)
    (h : step tools broadcasting st raw = .ok st') :
    (∀ name, tools.getAbility raw = some name →
      st' = st.assign (.ability name) (!isNotSearchOf raw)) ∧
    (tools.getAbility raw = none → jsIn (targetOf raw) allTiers = true →
      st' = st.store (.tier (targetOf raw)) (!isNotSearchOf raw)) ∧
    (tools.getAbility raw = none → ¬ jsIn (targetOf raw) allTiers = true →
      jsIn (targetOf raw) allColours = true →
      st' = st.store (.color (targetOf raw)) (!isNotSearchOf raw)) ∧
    (tools.getAbility raw = none → ¬ jsIn (targetOf raw) allTiers = true →
      ¬ jsIn (targetOf raw) allColours = true →
      isGen (parseInt (targetOf raw)) = true →
      st' = st.assign (.gen (targetOf raw)) (!isNotSearchOf raw)) ∧
    (tools.getAbility raw = none → ¬ jsIn (targetOf raw) allTiers = true →
      ¬ jsIn (targetOf raw) allColours = true →
      isGen (parseInt (targetOf raw)) = false → targetOf raw = "all" →
      st' = { st with showAll := true }) ∧
    (tools.getAbility raw = none → ¬ jsIn (targetOf raw) allTiers = true →
      ¬ jsIn (targetOf raw) allColours = true →
      isGen (parseInt (targetOf raw)) = false → targetOf raw ≠ "all" →
      (targetOf raw = "megas" ∨ targetOf raw = "mega") →
      st' = st.assign .mega (!isNotSearchOf raw)) ∧
    (tools.getAbility raw = none → ¬ jsIn (targetOf raw) allTiers = true →
      ¬ jsIn (targetOf raw) allColours = true →
      isGen (parseInt (targetOf raw)) = false → targetOf raw ≠ "all" →
      ¬ (targetOf raw = "megas" ∨ targetOf raw = "mega") →
      (targetOf raw = "fe" ∨ targetOf raw = "fullyevolved") →
      st' = st.assign .fullyEvolved (!isNotSearchOf raw)) ∧
    (tools.getAbility raw = none → ¬ jsIn (targetOf raw) allTiers = true →
      ¬ jsIn (targetOf raw) allColours = true →
      isGen (parseInt (targetOf raw)) = false → targetOf raw ≠ "all" →
      ¬ (targetOf raw = "megas" ∨ targetOf raw = "mega") →
      (targetOf raw = "nfe" ∨ targetOf raw = "notfullyevolved") →
      st' = st.assign .fullyEvolved (isNotSearchOf raw)) ∧
    (∀ mv, tools.getAbility raw = none → ¬ jsIn (targetOf raw) allTiers = true →
      ¬ jsIn (targetOf raw) allColours = true → isGen (parseInt (targetOf raw)) = false →
      targetOf raw ≠ "all" → ¬ (targetOf raw = "megas" ∨ targetOf raw = "mega") →
      ¬ (targetOf raw = "fe" ∨ targetOf raw = "fullyevolved") →
      ¬ (targetOf raw = "nfe" ∨ targetOf raw = "notfullyevolved") →
      tools.getMove (targetOf raw) = some mv →
      st' = st.assign (.moves mv.name) (!isNotSearchOf raw)) ∧
    (tools.getAbility raw = none → ¬ jsIn (targetOf raw) allTiers = true →
      ¬ jsIn (targetOf raw) allColours = true →
      isGen (parseInt (targetOf raw)) = false → targetOf raw ≠ "all" →
      ¬ (targetOf raw = "megas" ∨ targetOf raw = "mega") →
      ¬ (targetOf raw = "fe" ∨ targetOf raw = "fullyevolved") →
      ¬ (targetOf raw = "nfe" ∨ targetOf raw = "notfullyevolved") →
      tools.getMove (targetOf raw) = none →
      ∃ idx, indexOf (targetOf raw) " type" = some idx ∧
        jsIn (typeNameOf (targetOf raw) idx) tools.typeChart = true ∧
        st' = st.store (.types (typeNameOf (targetOf raw) idx)) (!isNotSearchOf raw)) ∧
    (∀ name mv, tools.getAbility raw = some name → tools.getMove (targetOf raw) = some mv →
      st'.searches.moves = st.searches.moves) ∧
    (∀ mv, tools.getAbility raw = none → jsIn (targetOf raw) allTiers = true →
      tools.getMove (targetOf raw) = some mv →
      st'.searches.moves = st.searches.moves ∧
      st'.searches.tier =
        some (if targetOf raw = "__proto__" then st.searches.tier.getD []
          else propSet (st.searches.tier.getD []) (targetOf raw) (!isNotSearchOf raw))) := by
  rw [step_eq_record] at h
  have key : ∀ slot n, classify tools raw = .constraint slot n → st' = st.store slot (!n) := by
    intro slot n hc
    rw [hc] at h
    exact (record_constraint_ok _ _ _ _ _ _ h).1
  have hfalse : ∀ b : Bool, b = false → ¬ b = true := by intro b hb; simp [hb]
  refine ⟨?_, ?_, ?_, ?_, ?_, ?_, ?_, ?_, ?_, ?_, ?_, ?_⟩
  · intro name hA
    exact key _ _ (classify_ability _ _ _ hA)
  · intro hA h1
    exact key _ _ (classify_tier _ _ hA h1)
  · intro hA h1 h2
    exact key _ _ (classify_color _ _ hA h1 h2)
  · intro hA h1 h2 h3
    exact key _ _ (classify_gen _ _ hA h1 h2 h3)
  · intro hA h1 h2 h3 h4
    rw [classify_all _ _ hA h1 h2 (hfalse _ h3) h4] at h
    exact (record_all_ok _ _ _ _ h).2
  · intro hA h1 h2 h3 h4 h5
    exact key _ _ (classify_mega _ _ hA h1 h2 (hfalse _ h3) h4 h5)
  · intro hA h1 h2 h3 h4 h5 h6
    exact key _ _ (classify_fe _ _ hA h1 h2 (hfalse _ h3) h4 h5 h6)
  · intro hA h1 h2 h3 h4 h5 h7
    have h6 : ¬ (targetOf raw = "fe" ∨ targetOf raw = "fullyevolved") := by
      rcases h7 with h | h <;> rw [h] <;> decide
    have := key _ _ (classify_nfe _ _ hA h1 h2 (hfalse _ h3) h4 h5 h6 h7)
    simpa [State.store] using this
  · intro mv hA h1 h2 h3 h4 h5 h6 h7 h8
    exact key _ _ (classify_move _ _ mv hA h1 h2 (hfalse _ h3) h4 h5 h6 h7 h8)
  · intro hA h1 h2 h3 h4 h5 h6 h7 h8
    rw [classify_rest _ _ hA h1 h2 (hfalse _ h3) h4 h5 h6 h7 h8] at h
    cases hI : indexOf (targetOf raw) " type" with
    | none => simp [hI, record] at h
    | some idx =>
      simp only [hI] at h
      by_cases h9 : jsIn (typeNameOf (targetOf raw) idx) tools.typeChart = true
      · simp only [h9, if_true] at h
        exact ⟨idx, rfl, h9, (record_constraint_ok _ _ _ _ _ _ h).1⟩
      · simp [h9, record] at h
  · intro name mv hA _
    rw [key _ _ (classify_ability _ _ _ hA)]
    rfl
  · intro mv hA h1 _
    rw [key _ _ (classify_tier _ _ hA h1)]
    exact ⟨rfl, rfl⟩

theorem first_match_wins_witness :
    (overlapTools.getMove (targetOf "ou") = some ⟨"ou", "ou"⟩ ∧
      ({ State.init with searches := { State.init.searches with
          tier := some [("ou", true)] } } : State).searches.moves = State.init.searches.moves ∧
      ({ State.init with searches := { State.init.searches with
          tier := some [("ou", true)] } } : State).searches.tier =
        some (if targetOf "ou" = "__proto__" then State.init.searches.tier.getD []
          else propSet (State.init.searches.tier.getD []) (targetOf "ou")
            (!isNotSearchOf "ou"))) ∧
    (overlapTools.getMove (targetOf "blaze") = some ⟨"blaze", "blaze"⟩ ∧
      ({ State.init with searches := { State.init.searches with
          ability := some [("Blaze", true)] } } : State) =
        State.init.assign (.ability "Blaze") (!isNotSearchOf "blaze")) ∧
    (overlapTools.getMove (targetOf "constructor") = some ⟨"constructor", "constructor"⟩ ∧
      jsIn (targetOf "constructor") allTiers = true ∧
      ({ State.init with searches := { State.init.searches with
          tier := some [("constructor", true)] } } : State) =
        State.init.store (.tier (targetOf "constructor")) (!isNotSearchOf "constructor")) :=
  ⟨⟨by decide,
    (first_match_wins overlapTools false State.init
      { State.init with searches := { State.init.searches with tier := some [("ou", true)] } }
      "ou" (by decide) rfl).2.2.2.2.2.2.2.2.2.2.2 ⟨"ou", "ou"⟩ (by decide) (by decide)
      (by decide)⟩,
   ⟨by decide,
    (first_match_wins overlapTools false State.init
      { State.init with searches := { State.init.searches with
          ability := some [("Blaze", true)] } }
      "blaze" (by decide) rfl).1 "Blaze" (by decide)⟩,
   ⟨by decide, by decide,
    (first_match_wins overlapTools false State.init
      { State.init with searches := { State.init.searches with
          tier := some [("constructor", true)] } }
      "constructor" (by decide) rfl).2.1 (by decide) (by decide)⟩⟩

/-! ## The ability pass -/

theorem hasAbility_iff (template : Template) (ability : String) :
    hasAbility template ability = true ↔ ability ∈ template.abilities := by
  simp only [hasAbility, decide_eq_true_eq, gt_iff_lt, List.length_pos]
  constructor
  · intro h
    obtain ⟨a, ha⟩ := List.exists_mem_of_ne_nil _ h
    obtain ⟨hm, he⟩ := List.mem_filter.mp ha
    simp only [beq_iff_eq] at he
    exact he ▸ hm
  · intro h
    exact List.ne_nil_of_mem (List.mem_filter.mpr ⟨h, by simp⟩)

/-- C10. A record survives the ability pass if and only if its abilities
contain every ability that the constraint object marks as included and none
that it marks as excluded. -/
theorem ability_pass_survivors (abilities : Dict) (dex : List (String × Template))
    (entry : String × Template) :
    entry ∈ deletePass (some abilities) abilityDelete dex ↔
      entry ∈ dex ∧
      (∀ a, (a, true) ∈ abilities → a ∈ entry.2.abilities) ∧
      (∀ a, (a, false) ∈ abilities → a ∉ entry.2.abilities) := by
  simp only [deletePass, List.mem_filter, abilityDelete, Bool.not_eq_true', List.any_eq_false,
    bne_iff_ne, ne_eq, Decidable.not_not, Prod.forall]
  constructor
  · rintro ⟨hm, h⟩
    refine ⟨hm, ?_, ?_⟩
    · intro a ha
      exact (hasAbility_iff _ _).mp (h a true ha)
    · intro a ha hin
      have := h a false ha
      rw [(hasAbility_iff _ _).mpr hin] at this
      exact absurd this (by decide)
  · rintro ⟨hm, h1, h2⟩
    refine ⟨hm, ?_⟩
    intro a v hav
    cases v with
    | true => exact (hasAbility_iff _ _).mpr (h1 a hav)
    | false =>
      cases hh : hasAbility entry.2 a with
      | false => rfl
      | true => exact absurd ((hasAbility_iff _ _).mp hh) (h2 a hav)

/-! ## Distinct keys -/

theorem mem_keys_propSet (d : Dict) (k k' : String) (v : Bool)
    (h : k' ∈ (propSet d k v).map Prod.fst) : k' = k ∨ k' ∈ d.map Prod.fst := by
  induction d with
  | nil =>
    simp only [propSet, List.map_cons, List.map_nil, List.mem_singleton] at h
    exact Or.inl h
  | cons e rest ih =>
    obtain ⟨k0, v0⟩ := e
    by_cases h0 : k = k0
    · simp only [propSet, h0, if_true, List.map_cons, List.mem_cons] at h ⊢
      exact Or.inr h
    · simp only [propSet, h0, if_false, List.map_cons, List.mem_cons] at h ⊢
      rcases h with h | h
      · exact Or.inr (Or.inl h)
      · rcases ih h with h1 | h1
        · exact Or.inl h1
        · exact Or.inr (Or.inr h1)

theorem nodup_keys_propSet (d : Dict) (k : String) (v : Bool)
    (h : (d.map Prod.fst).Nodup) : ((propSet d k v).map Prod.fst).Nodup := by
  induction d with
  | nil => simp [propSet]
  | cons e rest ih =>
    obtain ⟨k0, v0⟩ := e
    simp only [List.map_cons, List.nodup_cons] at h
    by_cases h0 : k = k0
    · simp only [propSet, h0, if_true, List.map_cons, List.nodup_cons]
      exact h
    · simp only [propSet, h0, if_false, List.map_cons, List.nodup_cons]
      refine ⟨?_, ih h.2⟩
      intro hm
      rcases mem_keys_propSet rest k k0 v hm with h1 | h1
      · exact h0 h1.symm
      · exact h.1 h1

theorem propGet_of_mem (d : Dict) (k : String) (v : Bool) (hnd : (d.map Prod.fst).Nodup)
    (h : (k, v) ∈ d) : propGet d k = some v := by
  induction d with
  | nil => simp at h
  | cons e rest ih =>
    obtain ⟨k0, v0⟩ := e
    simp only [List.map_cons, List.nodup_cons] at hnd
    simp only [List.mem_cons, Prod.mk.injEq] at h
    rcases h with ⟨rfl, rfl⟩ | h
    · simp [propGet]
    · have hne : k ≠ k0 := by
        rintro rfl
        exact hnd.1 (List.mem_map.mpr ⟨(k, v), h, rfl⟩)
      simp only [propGet, hne, if_false]
      exact ih hnd.2 h

theorem exists_included (d : Dict) (hnd : (d.map Prod.fst).Nodup)
    (h : 0 < Object.count d true) : ∃ k, propGet d k = some true := by
  simp only [Object.count, List.length_pos] at h
  obtain ⟨e, he⟩ := List.exists_mem_of_ne_nil _ h
  obtain ⟨hm, hv⟩ := List.mem_filter.mp he
  obtain ⟨k, v⟩ := e
  simp only [beq_iff_eq] at hv
  subst hv
  exact ⟨k, propGet_of_mem d k true hnd hm⟩

theorem assign_distinctKeys (st : State) (slot : Slot) (v : Bool) (h : st.distinctKeys) :
    (st.assign slot v).distinctKeys := by
  obtain ⟨h1, h2, h3, h4, h5, h6⟩ := h
  cases slot with
  | ability name => exact ⟨nodup_keys_propSet _ _ _ h1, h2, h3, h4, h5, h6⟩
  | tier label => exact ⟨h1, nodup_keys_propSet _ _ _ h2, h3, h4, h5, h6⟩
  | color label => exact ⟨h1, h2, nodup_keys_propSet _ _ _ h3, h4, h5, h6⟩
  | gen key => exact ⟨h1, h2, h3, nodup_keys_propSet _ _ _ h4, h5, h6⟩
  | moves name => exact ⟨h1, h2, h3, h4, nodup_keys_propSet _ _ _ h5, h6⟩
  | types name => exact ⟨h1, h2, h3, h4, h5, nodup_keys_propSet _ _ _ h6⟩
  | mega => exact ⟨h1, h2, h3, h4, h5, h6⟩
  | fullyEvolved => exact ⟨h1, h2, h3, h4, h5, h6⟩

theorem store_distinctKeys (st : State) (slot : Slot) (v : Bool) (h : st.distinctKeys) :
    (st.store slot v).distinctKeys := by
  by_cases hp : slot = .tier "__proto__" ∨ slot = .color "__proto__" ∨ slot = .types "__proto__"
  · obtain ⟨h1, h2, h3, h4, h5, h6⟩ := h
    rcases hp with hp | hp | hp <;> subst hp
    · exact ⟨h1, by simpa [State.store] using h2, h3, h4, h5, h6⟩
    · exact ⟨h1, h2, by simpa [State.store] using h3, h4, h5, h6⟩
    · exact ⟨h1, h2, h3, h4, h5, by simpa [State.store] using h6⟩
  · rw [store_eq_assign _ _ _ (by tauto)]
    exact assign_distinctKeys _ _ _ h

theorem accumulateFrom_distinctKeys (tools : Tools) (broadcasting : Bool) (st st' : State)
    (l : List String) (h : accumulateFrom tools broadcasting st l = .ok st')
    (hst : st.distinctKeys) : st'.distinctKeys := by
  induction l generalizing st with
  | nil =>
    simp only [accumulateFrom, Except.ok.injEq] at h
    exact h ▸ hst
  | cons raw rest ih =>
    simp only [accumulateFrom] at h
    cases hs : step tools broadcasting st raw with
    | ok st1 =>
      rw [hs] at h
      rw [step_eq_record] at hs
      refine ih st1 h ?_
      cases hc : classify tools raw with
      | constraint slot n =>
        rw [hc] at hs
        obtain ⟨rfl, -, -⟩ := record_constraint_ok _ _ _ _ _ _ hs
        exact store_distinctKeys _ _ _ hst
      | all =>
        rw [hc] at hs
        obtain ⟨-, rfl⟩ := record_all_ok _ _ _ _ hs
        exact hst
      | unrecognized target =>
        rw [hc] at hs
        simp [record] at hs
    | error e => simp [hs] at h

theorem init_distinctKeys : State.init.distinctKeys := by
  simp [State.distinctKeys, State.init]

/-! ## The type pass with fewer than two required types -/

theorem not_included_of_other (types : Dict) (T t : String)
    (hlt : Object.count types true < 2) (hT : propGet types T = some true) (hne : T ≠ t) :
    propGet types t ≠ some true := by
  intro ht
  have := length_le_count types true [T, t] (by simp [hne]) (by
    intro x hx
    simp only [List.mem_cons, List.mem_singleton, List.not_mem_nil, or_false] at hx
    rcases hx with rfl | rfl <;> assumption)
  simp at this
  omega

theorem typesDelete_fewer (types : Dict) (template : Template)
    (hlt : Object.count types true < 2) :
    typesDelete types template =
      (propGet types (typeKey template 0) == some false ||
       propGet types (typeKey template 1) == some false ||
       (decide (Object.count types true > 0) &&
         (!truthy (propGet types (typeKey template 0)) &&
          !truthy (propGet types (typeKey template 1))))) := by
  have h2 : ¬ Object.count types true = 2 := by omega
  simp only [typesDelete, h2, if_false]

/-- C11. In the type pass, when the accepted constraint set includes fewer than
two types, a record with at most two type tags is deleted if and only if one
of its tags is excluded, or some type is included and is not among its tags. -/
theorem type_pass_fewer_than_two (tools : Tools) (broadcasting : Bool)
    (targets : List String) (st : State) (types : Dict)
    (hacc : accumulate tools broadcasting targets = .ok st)
    (htypes : st.searches.types = some types)
    (hlt : Object.count types true < 2)
    (dex : List (String × Template)) (entry : String × Template)
    (hmem : entry ∈ dex) (htags : entry.2.types.length ≤ 2) :
    entry ∉ deletePass (some types) typesDelete dex ↔
      (∃ t ∈ entry.2.types, propGet types t = some false) ∨
      (∃ T, propGet types T = some true ∧ T ∉ entry.2.types) := by
  have hundef := accumulateFrom_noUndefined _ _ _ _ _ hacc (by simp [State.init, propGet])
  have hnd := (accumulateFrom_distinctKeys _ _ _ _ _ hacc init_distinctKeys).2.2.2.2.2
  simp only [htypes, Option.getD_some] at hundef hnd
  have hdel : entry ∉ deletePass (some types) typesDelete dex ↔
      typesDelete types entry.2 = true := by
    simp [deletePass, List.mem_filter, hmem]
  rw [hdel, typesDelete_fewer types entry.2 hlt]
  have hex : 0 < Object.count types true ↔ ∃ T, propGet types T = some true := by
    constructor
    · exact exists_included types hnd
    · rintro ⟨T, hT⟩
      have := length_le_count types true [T] (by simp) (by simpa using hT)
      simpa using this
  have hother := not_included_of_other types
  match hty : entry.2.types, htags with
  | [], _ =>
    simp only [typeKey, hty, List.get?_nil, Option.getD_none, hundef, truthy]
    simp [hex]
  | [a], _ =>
    simp only [typeKey, hty, List.get?_cons_zero, List.get?_cons_succ, List.get?_nil,
      Option.getD_some, Option.getD_none, hundef, truthy]
    simp only [Bool.or_eq_true, beq_iff_eq, Bool.and_eq_true, decide_eq_true_eq,
      Bool.not_eq_true', beq_eq_false_iff_ne, ne_eq, gt_iff_lt, hex, List.mem_singleton,
      exists_eq_left, reduceCtorEq, or_false, not_false_eq_true, and_true]
    constructor
    · rintro (h | ⟨⟨T, hT⟩, h⟩)
      · exact Or.inl h
      · refine Or.inr ⟨T, hT, ?_⟩
        rintro rfl
        exact h hT
    · rintro (h | ⟨T, hT, hne⟩)
      · exact Or.inl h
      · exact Or.inr ⟨⟨T, hT⟩, hother T a hlt hT hne⟩
  | [a, b], _ =>
    simp only [typeKey, hty, List.get?_cons_zero, List.get?_cons_succ,
      Option.getD_some, truthy]
    simp only [Bool.or_eq_true, beq_iff_eq, Bool.and_eq_true, decide_eq_true_eq,
      Bool.not_eq_true', beq_eq_false_iff_ne, ne_eq, gt_iff_lt, hex, List.mem_cons,
      List.mem_singleton, List.not_mem_nil, or_false, exists_eq_or_imp, exists_eq_left, not_or]
    constructor
    · rintro ((h | h) | ⟨⟨T, hT⟩, ha, hb⟩)
      · exact Or.inl (Or.inl h)
      · exact Or.inl (Or.inr h)
      · refine Or.inr ⟨T, hT, ?_, ?_⟩
        · rintro rfl; exact ha hT
        · rintro rfl; exact hb hT
    · rintro ((h | h) | ⟨T, hT, hna, hnb⟩)
      · exact Or.inl (Or.inl h)
      · exact Or.inl (Or.inr h)
      · exact Or.inr ⟨⟨T, hT⟩, hother T a hlt hT hna, hother T b hlt hT hnb⟩
  | _ :: _ :: _ :: _, h => simp at h

theorem type_pass_fewer_than_two_witness :
    (("squirtle", squirtle) ∉ deletePass (some [("Fire", true)]) typesDelete
        [("squirtle", squirtle), ("charmander", charmander)] ↔
      (∃ t ∈ squirtle.types, propGet [("Fire", true)] t = some false) ∨
      (∃ T, propGet [("Fire", true)] T = some true ∧ T ∉ squirtle.types)) ∧
    deletePass (some [("Fire", true)]) typesDelete
        [("squirtle", squirtle), ("charmander", charmander)] = [("charmander", charmander)] :=
  ⟨type_pass_fewer_than_two exampleTools false ["fire type"]
      { State.init with searches := { State.init.searches with
          types := some [("Fire", true)] } }
      [("Fire", true)] rfl rfl (by decide)
      [("squirtle", squirtle), ("charmander", charmander)] ("squirtle", squirtle)
      (by decide) (by decide), by decide⟩

/-! ## The color and generation passes -/

theorem labelDelete_eq_false (search : Dict) (label : String)
    (hnd : (search.map Prod.fst).Nodup) :
    labelDelete search label = false ↔
      propGet search label ≠ some false ∧
      ((∃ k, propGet search k = some true) → propGet search label = some true) := by
  have hex : 0 < Object.count search true ↔ ∃ T, propGet search T = some true := by
    constructor
    · exact exists_included search hnd
    · rintro ⟨T, hT⟩
      have := length_le_count search true [T] (by simp) (by simpa using hT)
      simpa using this
  unfold labelDelete
  by_cases h : propGet search label = some false
  · simp [h]
  · simp only [h, if_false, ne_eq, not_false_eq_true, true_and, Bool.and_eq_false_imp,
      decide_eq_true_eq, gt_iff_lt, hex, Bool.not_eq_false', truthy, beq_iff_eq]

/-- C12. For a constraint set accepted by the token loop, a record survives
the color pass (the generation pass) if and only if its own color (generation),
converted to a lower-cased string, is not recorded as excluded and, when some
value is included, is recorded as included; so several included values act as a
union. -/
theorem label_pass_survivors (tools : Tools) (broadcasting : Bool) (targets : List String)
    (st : State) (hacc : accumulate tools broadcasting targets = .ok st) :
    (∀ colors, st.searches.color = some colors →
      ∀ (dex : List (String × Template)) (entry : String × Template),
        entry ∈ deletePass (some colors) (fun d t => labelDelete d (toLowerCase t.color)) dex ↔
          entry ∈ dex ∧ propGet colors (toLowerCase entry.2.color) ≠ some false ∧
          ((∃ k, propGet colors k = some true) →
            propGet colors (toLowerCase entry.2.color) = some true)) ∧
    (∀ gens, st.searches.gen = some gens →
      ∀ (dex : List (String × Template)) (entry : String × Template),
        entry ∈ deletePass (some gens)
            (fun d t => labelDelete d (toLowerCase (toString t.gen))) dex ↔
          entry ∈ dex ∧ propGet gens (toLowerCase (toString entry.2.gen)) ≠ some false ∧
          ((∃ k, propGet gens k = some true) →
            propGet gens (toLowerCase (toString entry.2.gen)) = some true)) := by
  obtain ⟨-, -, h3, h4, -, -⟩ := accumulateFrom_distinctKeys _ _ _ _ _ hacc init_distinctKeys
  constructor
  · intro colors hc dex entry
    simp only [hc, Option.getD_some] at h3
    simp only [deletePass, List.mem_filter, Bool.not_eq_true', labelDelete_eq_false _ _ h3]
  · intro gens hg dex entry
    simp only [hg, Option.getD_some] at h4
    simp only [deletePass, List.mem_filter, Bool.not_eq_true', labelDelete_eq_false _ _ h4]

theorem label_pass_survivors_witness :
    (("charmander", charmander) ∈ deletePass (some [("red", true), ("blue", true)])
        (fun d t => labelDelete d (toLowerCase t.color))
        [("charmander", charmander), ("smeargle", smeargle), ("squirtle", squirtle)] ↔
      ("charmander", charmander) ∈
        [("charmander", charmander), ("smeargle", smeargle), ("squirtle", squirtle)] ∧
      propGet [("red", true), ("blue", true)] (toLowerCase charmander.color) ≠ some false ∧
      ((∃ k, propGet [("red", true), ("blue", true)] k = some true) →
        propGet [("red", true), ("blue", true)] (toLowerCase charmander.color) = some true)) ∧
    deletePass (some [("red", true), ("blue", true)])
        (fun d t => labelDelete d (toLowerCase t.color))
        [("charmander", charmander), ("smeargle", smeargle), ("squirtle", squirtle)] =
      [("charmander", charmander), ("squirtle", squirtle)] :=
  ⟨(label_pass_survivors exampleTools false ["red", "blue"]
      { State.init with searches := { State.init.searches with
          color := some [("red", true), ("blue", true)] } } rfl).1
      [("red", true), ("blue", true)] rfl
      [("charmander", charmander), ("smeargle", smeargle), ("squirtle", squirtle)]
      ("charmander", charmander), by decide⟩

/-! ## The move pass and the prior-form chain -/

theorem prevoWalk_zero (tools : Tools) (moveId : String) (form : Template) :
    prevoWalk tools moveId 0 form =
      if (form.prevo != "" &&
          (match form.learnset with
           | some learnset => !learnset.contains moveId
           | none => false)) = true then none
      else some form := rfl

theorem prevoWalk_succ (tools : Tools) (moveId : String) (fuel : Nat) (form : Template) :
    prevoWalk tools moveId (fuel + 1) form =
      if (form.prevo != "" &&
          (match form.learnset with
           | some learnset => !learnset.contains moveId
           | none => false)) = true then
        prevoWalk tools moveId fuel (tools.getTemplate form.prevo)
      else some form := rfl

theorem resolvedForm_cons_ne_none (form : Template) (rest : List Template) (moveId : String) :
    resolvedForm (form :: rest) moveId ≠ none := by
  induction rest generalizing form with
  | nil => simp [resolvedForm]
  | cons prior rest' ih =>
    simp only [resolvedForm]
    split
    · simp
    · exact ih prior

theorem prevoWalk_eq_resolvedForm (tools : Tools) (moveId : String) (priors : List Template)
    (fuel : Nat) (form : Template)
    (hchain : isPrevoChain tools form priors)
    (hall : ∀ f ∈ form :: priors, f.learnset.isSome = true)
    (hfuel : priors.length ≤ fuel) :
    prevoWalk tools moveId fuel form = resolvedForm (form :: priors) moveId := by
  induction priors generalizing fuel form with
  | nil =>
    simp only [isPrevoChain] at hchain
    cases fuel with
    | zero => simp [prevoWalk_zero, hchain, resolvedForm]
    | succ fuel' => simp [prevoWalk_succ, hchain, resolvedForm]
  | cons prior rest ih =>
    obtain ⟨hp, hget, hrest⟩ := hchain
    obtain ⟨ls, hls⟩ := Option.isSome_iff_exists.mp (hall form (List.mem_cons_self _ _))
    cases fuel with
    | zero => simp at hfuel
    | succ fuel' =>
      rw [prevoWalk_succ]
      by_cases hm : ls.contains moveId = true
      · have hm' : moveId ∈ ls := by simpa using hm
        simp [hls, hm', resolvedForm, inLearnset]
      · simp only [Bool.not_eq_true] at hm
        have hb : (form.prevo != "") = true := by simpa using hp
        simp only [hls, hget, resolvedForm, inLearnset, hm, hb, Bool.not_false, Bool.and_self,
          if_true, Bool.false_eq_true, if_false]
        exact ih fuel' prior hrest (fun f hf => hall f (List.mem_cons_of_mem _ hf))
          (by simpa using hfuel)

theorem resolvedForm_mem (forms : List Template) (moveId : String) (r : Template)
    (h : resolvedForm forms moveId = some r) : r ∈ forms := by
  induction forms with
  | nil => simp [resolvedForm] at h
  | cons form rest ih =>
    cases rest with
    | nil =>
      simp only [resolvedForm, Option.some.injEq] at h
      simp [h]
    | cons prior rest' =>
      simp only [resolvedForm] at h
      by_cases hm : inLearnset form moveId = true
      · simp only [hm, if_true, Option.some.injEq] at h
        simp [h]
      · simp only [hm, if_false] at h
        exact List.mem_cons_of_mem _ (ih h)

theorem resolvedForm_any (forms : List Template) (moveId : String) (r : Template)
    (h : resolvedForm forms moveId = some r) :
    forms.any (fun form => inLearnset form moveId) = inLearnset r moveId := by
  induction forms with
  | nil => simp [resolvedForm] at h
  | cons form rest ih =>
    cases rest with
    | nil =>
      simp only [resolvedForm, Option.some.injEq] at h
      simp [h]
    | cons prior rest' =>
      simp only [resolvedForm] at h
      by_cases hm : inLearnset form moveId = true
      · simp only [hm, if_true, Option.some.injEq] at h
        subst h
        simp [hm]
      · simp only [hm, if_false] at h
        rw [List.any_cons, ih h]
        simp only [Bool.not_eq_true] at hm
        simp [hm]

theorem movesLoop_spec (tools : Tools) (fuel : Nat) (template : Template)
    (priors : List Template)
    (hchain : isPrevoChain tools (tools.getTemplate template.id) priors)
    (hall : ∀ f ∈ tools.getTemplate template.id :: priors, f.learnset.isSome = true)
    (hfuel : priors.length ≤ fuel)
    (moves : List (String × Bool)) (deleted : Bool)
    (hknown : ∀ e ∈ moves, ∃ mv, tools.getMove e.1 = some mv) :
    ∃ result, movesLoop tools fuel template moves deleted = .ok result ∧
      (result = true ↔ deleted = true ∨ ∃ i wanted mv, (i, wanted) ∈ moves ∧
        tools.getMove i = some mv ∧
        canLearnBySpec (tools.getTemplate template.id :: priors) mv.id ≠ wanted) := by
  induction moves generalizing deleted with
  | nil => exact ⟨deleted, rfl, by simp⟩
  | cons e rest ih =>
    obtain ⟨i, wanted⟩ := e
    obtain ⟨mv, hmv⟩ := hknown (i, wanted) (List.mem_cons_self _ _)
    have hwalk := prevoWalk_eq_resolvedForm tools mv.id priors fuel _ hchain hall hfuel
    cases hr : resolvedForm (tools.getTemplate template.id :: priors) mv.id with
    | none => exact absurd hr (resolvedForm_cons_ne_none _ _ _)
    | some r =>
      obtain ⟨ls, hls⟩ := Option.isSome_iff_exists.mp (hall r (resolvedForm_mem _ _ _ hr))
      have hany := resolvedForm_any _ _ _ hr
      have hcan : canLearnBySpec (tools.getTemplate template.id :: priors) mv.id =
          ((ls.contains "sketch" && !sketchExcluded.contains mv.id) || ls.contains mv.id) := by
        unfold canLearnBySpec
        rw [hany, hr]
        simp only [inLearnset, hls]
        rw [Bool.or_comm]
      obtain ⟨result, hres, hiff⟩ := ih
        (deleted || (!canLearnBySpec (tools.getTemplate template.id :: priors) mv.id && wanted)
          || (wanted == false && canLearnBySpec (tools.getTemplate template.id :: priors) mv.id))
        (fun e he => hknown e (List.mem_cons_of_mem _ he))
      refine ⟨result, ?_, ?_⟩
      · simp only [movesLoop, hmv, hwalk, hr, hls]
        rw [hcan] at hres
        exact hres
      · rw [hiff]
        constructor
        · rintro (h | ⟨i', w', mv', hmem, hget, hne⟩)
          · simp only [Bool.or_eq_true, Bool.and_eq_true, Bool.not_eq_true', beq_iff_eq] at h
            rcases h with (h | ⟨h1, h2⟩) | ⟨h1, h2⟩
            · exact Or.inl h
            · exact Or.inr ⟨i, wanted, mv, List.mem_cons_self _ _, hmv, by rw [h1, h2]; decide⟩
            · exact Or.inr ⟨i, wanted, mv, List.mem_cons_self _ _, hmv, by rw [h1, h2]; decide⟩
          · exact Or.inr ⟨i', w', mv', List.mem_cons_of_mem _ hmem, hget, hne⟩
        · rintro (h | ⟨i', w', mv', hmem, hget, hne⟩)
          · exact Or.inl (by simp [h])
          · simp only [List.mem_cons, Prod.mk.injEq] at hmem
            rcases hmem with ⟨rfl, rfl⟩ | hmem
            · rw [hmv] at hget
              simp only [Option.some.injEq] at hget
              subst hget
              left
              cases hc : canLearnBySpec (tools.getTemplate template.id :: priors) mv.id <;>
                cases i'w : w' <;> simp_all
            · exact Or.inr ⟨i', w', mv', hmem, hget, hne⟩

theorem movesDelete_spec (tools : Tools) (fuel : Nat) (moves : Dict) (mon : Template)
    (priors : List Template)
    (hls : (resolveTemplate tools mon).learnset.isSome = true)
    (hchain : isPrevoChain tools (tools.getTemplate (resolveTemplate tools mon).id) priors)
    (hall : ∀ f ∈ tools.getTemplate (resolveTemplate tools mon).id :: priors,
      f.learnset.isSome = true)
    (hfuel : priors.length ≤ fuel)
    (hknown : ∀ e ∈ moves, ∃ mv, tools.getMove e.1 = some mv) :
    ∃ deleted, movesDelete tools fuel moves mon = .ok deleted ∧
      (deleted = true ↔ ∃ i wanted mv, (i, wanted) ∈ moves ∧ tools.getMove i = some mv ∧
        canLearnBySpec (tools.getTemplate (resolveTemplate tools mon).id :: priors) mv.id ≠
          wanted) := by
  have hdef : movesDelete tools fuel moves mon =
      if (resolveTemplate tools mon).learnset.isNone = true then .ok false
      else movesLoop tools fuel (resolveTemplate tools mon) moves false := rfl
  have hnone : ¬ (resolveTemplate tools mon).learnset.isNone = true := by
    cases h : (resolveTemplate tools mon).learnset with
    | none => simp [h] at hls
    | some ls => simp
  rw [hdef, if_neg hnone]
  obtain ⟨result, hres, hiff⟩ := movesLoop_spec tools fuel (resolveTemplate tools mon) priors
    hchain hall hfuel moves false hknown
  exact ⟨result, hres, by simpa using hiff⟩

/-- C13. For a record that has a learn set (its own or its base species'),
whose prior forms all have learn sets and are at most `fuel` many, and for
constrained moves that are all known, the move pass returns; it deletes the
record exactly when some constrained move has a learnability different from
the polarity of its constraint, where a move counts as learnable if and only
if it is in the learn set of the form or of one of its prior forms, or the
resolved learn set holds the sketch marker and the move is not excluded. -/
theorem move_pass_learnability (tools : Tools) (fuel : Nat) (moves : Dict) (mon : Template)
    (priors : List Template)
    (hls : (resolveTemplate tools mon).learnset.isSome = true)
    (hchain : isPrevoChain tools (tools.getTemplate (resolveTemplate tools mon).id) priors)
    (hall : ∀ f ∈ tools.getTemplate (resolveTemplate tools mon).id :: priors,
      f.learnset.isSome = true)
    (hfuel : priors.length ≤ fuel)
    (hknown : ∀ e ∈ moves, ∃ mv, tools.getMove e.1 = some mv) :
    (∃ deleted, movesDelete tools fuel moves mon = .ok deleted ∧
      (deleted = true ↔ ∃ i wanted mv, (i, wanted) ∈ moves ∧ tools.getMove i = some mv ∧
        canLearnBySpec (tools.getTemplate (resolveTemplate tools mon).id :: priors) mv.id ≠
          wanted)) ∧
    (∀ moveId, canLearnBySpec (tools.getTemplate (resolveTemplate tools mon).id :: priors)
        moveId = true ↔
      (∃ form ∈ tools.getTemplate (resolveTemplate tools mon).id :: priors,
        ∃ learnset, form.learnset = some learnset ∧ moveId ∈ learnset) ∨
      ((∃ form learnset,
          resolvedForm (tools.getTemplate (resolveTemplate tools mon).id :: priors) moveId =
            some form ∧ form.learnset = some learnset ∧ "sketch" ∈ learnset) ∧
        moveId ∉ sketchExcluded)) := by
  refine ⟨movesDelete_spec tools fuel moves mon priors hls hchain hall hfuel hknown, ?_⟩
  intro moveId
  have hin : ∀ (form : Template) (m : String), inLearnset form m = true ↔
      ∃ learnset, form.learnset = some learnset ∧ m ∈ learnset := by
    intro form m
    unfold inLearnset
    cases form.learnset with
    | none => simp
    | some ls => simp
  unfold canLearnBySpec
  simp only [Bool.or_eq_true, List.any_eq_true, Bool.and_eq_true, Bool.not_eq_true',
    hin]
  refine or_congr Iff.rfl (and_congr ?_ (by simp))
  cases hr : resolvedForm (tools.getTemplate (resolveTemplate tools mon).id :: priors) moveId with
  | none => simp
  | some r => simp [hin]

theorem move_pass_learnability_witness :
    (∃ deleted, movesDelete exampleTools 2 [("Ember", true), ("Surf", false)] charizard =
        .ok deleted ∧
      (deleted = true ↔ ∃ i wanted mv, (i, wanted) ∈ [("Ember", true), ("Surf", false)] ∧
        exampleTools.getMove i = some mv ∧
        canLearnBySpec (exampleTools.getTemplate (resolveTemplate exampleTools charizard).id ::
          [charmeleon, charmander]) mv.id ≠ wanted)) ∧
    movesDelete exampleTools 2 [("Ember", true), ("Surf", false)] charizard = .ok false ∧
    movesDelete exampleTools 2 [("Surf", true)] charizard = .ok true :=
  ⟨(move_pass_learnability exampleTools 2 [("Ember", true), ("Surf", false)] charizard
      [charmeleon, charmander] (by decide)
      ⟨by decide, by decide, by decide, by decide, rfl⟩ (by decide) (by decide)
      (by
        intro e he
        simp only [List.mem_cons, List.mem_singleton, List.not_mem_nil, or_false] at he
        rcases he with rfl | rfl
        · exact ⟨⟨"ember", "Ember"⟩, by decide⟩
        · exact ⟨⟨"surf", "Surf"⟩, by decide⟩)).1,
   rfl, rfl⟩

/-! ## The sketch marker -/

/-- C14. For a record as in C13, a known move that is not chatter, struggle or
magikarpsrevenge and for which the resolved learn set holds the sketch marker
counts as learnable: the record survives the include constraint on that move
and is deleted by every set of known-move constraints that excludes it. -/
theorem sketch_marker_learnable (tools : Tools) (fuel : Nat) (mon : Template)
    (priors : List Template) (i : String) (mv : Move) (resolved : Template)
    (hls : (resolveTemplate tools mon).learnset.isSome = true)
    (hchain : isPrevoChain tools (tools.getTemplate (resolveTemplate tools mon).id) priors)
    (hall : ∀ f ∈ tools.getTemplate (resolveTemplate tools mon).id :: priors,
      f.learnset.isSome = true)
    (hfuel : priors.length ≤ fuel)
    (hmove : tools.getMove i = some mv) (hexcl : mv.id ∉ sketchExcluded)
    (hres : resolvedForm (tools.getTemplate (resolveTemplate tools mon).id :: priors) mv.id =
      some resolved)
    (hsk : inLearnset resolved "sketch" = true) :
    canLearnBySpec (tools.getTemplate (resolveTemplate tools mon).id :: priors) mv.id = true ∧
    movesDelete tools fuel [(i, true)] mon = .ok false ∧
    movesDelete tools fuel [(i, false)] mon = .ok true ∧
    (∀ moves : Dict, (∀ e ∈ moves, ∃ m, tools.getMove e.1 = some m) → (i, false) ∈ moves →
      movesDelete tools fuel moves mon = .ok true) := by
  have hcan : canLearnBySpec (tools.getTemplate (resolveTemplate tools mon).id :: priors)
      mv.id = true := by
    unfold canLearnBySpec
    rw [hres]
    have : sketchExcluded.contains mv.id = false := by simpa using hexcl
    simp only [hsk, this, Bool.not_false, Bool.and_self, Bool.or_true]
  have hexclude : ∀ moves : Dict, (∀ e ∈ moves, ∃ m, tools.getMove e.1 = some m) →
      (i, false) ∈ moves → movesDelete tools fuel moves mon = .ok true := by
    intro moves hknown hmem
    obtain ⟨deleted, hdel, hiff⟩ :=
      movesDelete_spec tools fuel moves mon priors hls hchain hall hfuel hknown
    have : deleted = true := hiff.mpr ⟨i, false, mv, hmem, hmove, by rw [hcan]; decide⟩
    rw [hdel, this]
  refine ⟨hcan, ?_, ?_, hexclude⟩
  · obtain ⟨deleted, hdel, hiff⟩ := movesDelete_spec tools fuel [(i, true)] mon priors hls
      hchain hall hfuel (by
        intro e he
        simp only [List.mem_singleton] at he
        subst he
        exact ⟨mv, hmove⟩)
    have : deleted = false := by
      cases hd : deleted with
      | false => rfl
      | true =>
        obtain ⟨i', w', mv', hmem, hget, hne⟩ := hiff.mp hd
        simp only [List.mem_singleton, Prod.mk.injEq] at hmem
        obtain ⟨rfl, rfl⟩ := hmem
        rw [hmove] at hget
        simp only [Option.some.injEq] at hget
        subst hget
        exact absurd hcan hne
    rw [hdel, this]
  · exact hexclude [(i, false)] (by
      intro e he
      simp only [List.mem_singleton] at he
      subst he
      exact ⟨mv, hmove⟩) (List.mem_singleton_self _)

theorem sketch_marker_learnable_witness :
    canLearnBySpec (exampleTools.getTemplate (resolveTemplate exampleTools smeargle).id :: [])
      "thunderbolt" = true ∧
    movesDelete exampleTools 0 [("Thunderbolt", true)] smeargle = .ok false ∧
    movesDelete exampleTools 0 [("Thunderbolt", false)] smeargle = .ok true :=
  ⟨(sketch_marker_learnable exampleTools 0 smeargle [] "Thunderbolt"
      ⟨"thunderbolt", "Thunderbolt"⟩ smeargle (by decide) rfl (by decide) (by decide)
      (by decide) (by decide) (by decide) (by decide)).1,
   (sketch_marker_learnable exampleTools 0 smeargle [] "Thunderbolt"
      ⟨"thunderbolt", "Thunderbolt"⟩ smeargle (by decide) rfl (by decide) (by decide)
      (by decide) (by decide) (by decide) (by decide)).2.1,
   (sketch_marker_learnable exampleTools 0 smeargle [] "Thunderbolt"
      ⟨"thunderbolt", "Thunderbolt"⟩ smeargle (by decide) rfl (by decide) (by decide)
      (by decide) (by decide) (by decide) (by decide)).2.2.1⟩

/-! ## The two flags -/

/-- C15. Every record of the filtered dex satisfies the two flags: with the
mega flag true it is a Mega variant and with the flag false it is not; with the
fully-evolved flag true it has no further evolution and with the flag false it
has at least one. An unset flag excludes no record: with the mega flag unset
the test for entering the dex does not depend on being a Mega variant, and
with the fully-evolved flag unset it does not depend on the evolutions. The names left
after the collapse, which the reply renders, are species of such records. -/
theorem flags_hold_for_results (tools : Tools) (fuel : Nat) (broadcasting : Bool)
    (targets : List String) (st : State) (dex : List (String × Template))
    (hacc : accumulate tools broadcasting targets = .ok st)
    (hdex : filterDex tools fuel st = .ok dex) :
    (∀ entry ∈ dex,
      (st.megaSearch = some true → entry.2.isMega = true) ∧
      (st.megaSearch = some false → entry.2.isMega = false) ∧
      (st.feSearch = some true → entry.2.evos.length = 0) ∧
      (st.feSearch = some false → entry.2.evos.length ≠ 0)) ∧
    (st.megaSearch = none → ∀ (template : Template) (isMega : Bool),
      eligible st { template with isMega := isMega } = eligible st template) ∧
    (st.feSearch = none → ∀ (template : Template) (evos : List String),
      eligible st { template with evos := evos } = eligible st template) ∧
    (∀ name ∈ collapse tools (speciesOf dex), ∃ entry ∈ dex, entry.2.species = name ∧
        (st.megaSearch = some true → entry.2.isMega = true) ∧
        (st.megaSearch = some false → entry.2.isMega = false) ∧
        (st.feSearch = some true → entry.2.evos.length = 0) ∧
        (st.feSearch = some false → entry.2.evos.length ≠ 0)) ∧
    (nothingButAll st = false →
      dexsearch tools fuel broadcasting targets =
        .replied (render tools st.showAll (collapse tools (speciesOf dex)))) := by
  have hflags : ∀ entry ∈ dex,
      (st.megaSearch = some true → entry.2.isMega = true) ∧
      (st.megaSearch = some false → entry.2.isMega = false) ∧
      (st.feSearch = some true → entry.2.evos.length = 0) ∧
      (st.feSearch = some false → entry.2.evos.length ≠ 0) := by
    intro entry he
    obtain ⟨-, -, hel⟩ := mem_buildDex tools st entry (filterDex_subset _ _ _ _ hdex entry he)
    simp only [eligible, Bool.and_eq_true, Bool.or_eq_true, beq_iff_eq, bne_iff_ne, ne_eq,
      Bool.not_eq_true'] at hel
    obtain ⟨⟨-, hm⟩, hf⟩ := hel
    refine ⟨?_, ?_, ?_, ?_⟩
    · intro h; rw [h] at hm; simpa using hm
    · intro h; rw [h] at hm; simpa using hm
    · intro h; rw [h] at hf; simpa using hf
    · intro h; rw [h] at hf; simpa using hf
  refine ⟨hflags, ?_, ?_, ?_, ?_⟩
  · intro h template isMega
    simp [eligible, h]
  · intro h template evos
    simp [eligible, h]
  · intro name hn
    obtain ⟨entry, he, hs⟩ := mem_speciesOf dex name (mem_collapse tools _ name hn)
    exact ⟨entry, he, hs, hflags entry he⟩
  · intro hn
    simp only [dexsearch, hacc, hn, hdex, Bool.false_eq_true, if_false]

theorem flags_hold_for_results_witness :
    (({ State.init with feSearch := some true } : State).megaSearch = some true →
        ("charizard", charizard).2.isMega = true) ∧
    (({ State.init with feSearch := some true } : State).megaSearch = some false →
        ("charizard", charizard).2.isMega = false) ∧
    (({ State.init with feSearch := some true } : State).feSearch = some true →
        ("charizard", charizard).2.evos.length = 0) ∧
    (({ State.init with feSearch := some true } : State).feSearch = some false →
        ("charizard", charizard).2.evos.length ≠ 0) :=
  (flags_hold_for_results exampleTools 5 false ["fe"] { State.init with feSearch := some true }
    [("charizard", charizard), ("smeargle", smeargle)] rfl rfl).1
    ("charizard", charizard) (by decide)

/-! ## The tokens nfe and notfullyevolved -/

theorem accumulate_congr_classify (tools : Tools) (broadcasting : Bool) (a c : String)
    (h : classify tools a = classify tools c) (pre post : List String) :
    accumulate tools broadcasting (pre ++ a :: post) =
      accumulate tools broadcasting (pre ++ c :: post) := by
  unfold accumulate
  rw [accumulateFrom_append, accumulateFrom_append]
  cases accumulateFrom tools broadcasting State.init pre with
  | error e => rfl
  | ok st =>
    simp only [accumulateFrom, step_eq_record, h]

theorem dexsearch_congr_accumulate (tools : Tools) (fuel : Nat) (broadcasting : Bool)
    (l l' : List String)
    (h : accumulate tools broadcasting l = accumulate tools broadcasting l') :
    dexsearch tools fuel broadcasting l = dexsearch tools fuel broadcasting l' := by
  simp only [dexsearch, h]

/-- C16. A token whose text is nfe or notfullyevolved and a token whose text
is fe or fullyevolved, neither being the name of an ability, stand for the same
constraint on the fully-evolved flag when exactly one of them carries the
exclusion mark (nfe and !fe, !nfe and fe): replacing one by the other in any
token list leaves the outcome of the token loop, hence the flag, and the
outcome of dexsearch unchanged. -/
theorem nfe_is_excluded_fe (tools : Tools) (fuel : Nat) (broadcasting : Bool) (a c : String)
    (hAa : tools.getAbility a = none) (hAc : tools.getAbility c = none)
    (ha : targetOf a = "nfe" ∨ targetOf a = "notfullyevolved")
    (hc : targetOf c = "fe" ∨ targetOf c = "fullyevolved")
    (hpol : isNotSearchOf c = !isNotSearchOf a) :
    classify tools a = .constraint .fullyEvolved (isNotSearchOf c) ∧
    classify tools c = .constraint .fullyEvolved (isNotSearchOf c) ∧
    ∀ pre post : List String,
      accumulate tools broadcasting (pre ++ a :: post) =
        accumulate tools broadcasting (pre ++ c :: post) ∧
      dexsearch tools fuel broadcasting (pre ++ a :: post) =
        dexsearch tools fuel broadcasting (pre ++ c :: post) := by
  have hca : classify tools a = .constraint .fullyEvolved (!isNotSearchOf a) := by
    apply classify_nfe _ _ hAa
    · rcases ha with h | h <;> rw [h] <;> decide
    · rcases ha with h | h <;> rw [h] <;> decide
    · rcases ha with h | h <;> rw [h] <;> decide
    · rcases ha with h | h <;> rw [h] <;> decide
    · rcases ha with h | h <;> rw [h] <;> decide
    · rcases ha with h | h <;> rw [h] <;> decide
    · exact ha
  have hcc : classify tools c = .constraint .fullyEvolved (isNotSearchOf c) := by
    apply classify_fe _ _ hAc
    · rcases hc with h | h <;> rw [h] <;> decide
    · rcases hc with h | h <;> rw [h] <;> decide
    · rcases hc with h | h <;> rw [h] <;> decide
    · rcases hc with h | h <;> rw [h] <;> decide
    · rcases hc with h | h <;> rw [h] <;> decide
    · exact hc
  rw [← hpol] at hca
  refine ⟨hca, hcc, ?_⟩
  intro pre post
  have hacc := accumulate_congr_classify tools broadcasting a c (hca.trans hcc.symm) pre post
  exact ⟨hacc, dexsearch_congr_accumulate tools fuel broadcasting _ _ hacc⟩

theorem nfe_is_excluded_fe_witness :
    (dexsearch exampleTools 5 false (["fire type"] ++ "nfe" :: []) =
      dexsearch exampleTools 5 false (["fire type"] ++ "!fe" :: [])) ∧
    (dexsearch exampleTools 5 false (["fire type"] ++ "!notfullyevolved" :: ["fe"]) =
      dexsearch exampleTools 5 false (["fire type"] ++ "fe" :: ["fe"])) ∧
    dexsearch exampleTools 5 false ["fire type", "nfe"] =
      .replied (.listed ["Charmander", "Charmeleon"]) :=
  ⟨((nfe_is_excluded_fe exampleTools 5 false "nfe" "!fe" (by decide) (by decide) (by decide)
      (by decide) (by decide)).2.2 ["fire type"] []).2,
   ((nfe_is_excluded_fe exampleTools 5 false "!notfullyevolved" "fe" (by decide) (by decide)
      (by decide) (by decide) (by decide)).2.2 ["fire type"] ["fe"]).2,
   by decide⟩

/-! ## Generation tokens -/

theorem isGen_iff (x : Option Int) :
    isGen x = true ↔ ∃ k : Int, x = some k ∧ 0 < k ∧ k < 7 := by
  cases x with
  | none => simp [isGen]
  | some n => simp [isGen]

theorem classify_not_gen (tools : Tools) (raw : String) (hA : tools.getAbility raw = none)
    (h1 : ¬ jsIn (targetOf raw) allTiers = true) (h2 : ¬ jsIn (targetOf raw) allColours = true)
    (h3 : ¬ isGen (parseInt (targetOf raw)) = true) (key : String) (n : Bool) :
    classify tools raw ≠ .constraint (.gen key) n := by
  intro h
  by_cases h4 : targetOf raw = "all"
  · rw [classify_all _ _ hA h1 h2 h3 h4] at h; simp at h
  by_cases h5 : targetOf raw = "megas" ∨ targetOf raw = "mega"
  · rw [classify_mega _ _ hA h1 h2 h3 h4 h5] at h; simp at h
  by_cases h6 : targetOf raw = "fe" ∨ targetOf raw = "fullyevolved"
  · rw [classify_fe _ _ hA h1 h2 h3 h4 h5 h6] at h; simp at h
  by_cases h7 : targetOf raw = "nfe" ∨ targetOf raw = "notfullyevolved"
  · rw [classify_nfe _ _ hA h1 h2 h3 h4 h5 h6 h7] at h; simp at h
  cases h8 : tools.getMove (targetOf raw) with
  | some mv => rw [classify_move _ _ mv hA h1 h2 h3 h4 h5 h6 h7 h8] at h; simp at h
  | none =>
    rw [classify_rest _ _ hA h1 h2 h3 h4 h5 h6 h7 h8] at h
    cases hI : indexOf (targetOf raw) " type" with
    | none => simp [hI] at h
    | some idx =>
      simp only [hI] at h
      by_cases h9 : jsIn (typeNameOf (targetOf raw) idx) tools.typeChart = true
      · simp [h9] at h
      · simp [h9] at h

/-- C17. A token of ASCII characters that passes neither the ability test nor
the tier test nor the color test (the `in` tests of lines 589 and 596, which
the names inherited from `Object.prototype` pass as well) stands for a
generation constraint exactly when `parseInt` of its text is an integer n with
0 < n < 7, and the constraint is then recorded under the text of the token.
Otherwise (no number, zero, a negative number, seven or more) the token is
not rejected by the generation test: it is classified by the tests that
follow, in their order (all, mega, fully evolved, move, type). -/
theorem generation_token (tools : Tools) (raw : String) (_hascii : isAscii raw = true)
    (hA : tools.getAbility raw = none)
    (h1 : ¬ jsIn (targetOf raw) allTiers = true) (h2 : ¬ jsIn (targetOf raw) allColours = true) :
    ((∃ key n, classify tools raw = .constraint (.gen key) n) ↔
      ∃ k : Int, parseInt (targetOf raw) = some k ∧ 0 < k ∧ k < 7) ∧
    ((∃ k : Int, parseInt (targetOf raw) = some k ∧ 0 < k ∧ k < 7) →
      classify tools raw = .constraint (.gen (targetOf raw)) (isNotSearchOf raw) ∧
      ∀ broadcasting st, step tools broadcasting st raw =
        record tools broadcasting st (.constraint (.gen (targetOf raw)) (isNotSearchOf raw))) ∧
    ((parseInt (targetOf raw) = none ∨
        ∃ k : Int, parseInt (targetOf raw) = some k ∧ (k ≤ 0 ∨ 7 ≤ k)) →
      (targetOf raw = "all" → classify tools raw = .all) ∧
      (targetOf raw ≠ "all" → (targetOf raw = "megas" ∨ targetOf raw = "mega") →
        classify tools raw = .constraint .mega (isNotSearchOf raw)) ∧
      (targetOf raw ≠ "all" → ¬ (targetOf raw = "megas" ∨ targetOf raw = "mega") →
        (targetOf raw = "fe" ∨ targetOf raw = "fullyevolved") →
        classify tools raw = .constraint .fullyEvolved (isNotSearchOf raw)) ∧
      (targetOf raw ≠ "all" → ¬ (targetOf raw = "megas" ∨ targetOf raw = "mega") →
        ¬ (targetOf raw = "fe" ∨ targetOf raw = "fullyevolved") →
        (targetOf raw = "nfe" ∨ targetOf raw = "notfullyevolved") →
        classify tools raw = .constraint .fullyEvolved (!isNotSearchOf raw)) ∧
      (∀ mv, targetOf raw ≠ "all" → ¬ (targetOf raw = "megas" ∨ targetOf raw = "mega") →
        ¬ (targetOf raw = "fe" ∨ targetOf raw = "fullyevolved") →
        ¬ (targetOf raw = "nfe" ∨ targetOf raw = "notfullyevolved") →
        tools.getMove (targetOf raw) = some mv →
        classify tools raw = .constraint (.moves mv.name) (isNotSearchOf raw)) ∧
      (targetOf raw ≠ "all" → ¬ (targetOf raw = "megas" ∨ targetOf raw = "mega") →
        ¬ (targetOf raw = "fe" ∨ targetOf raw = "fullyevolved") →
        ¬ (targetOf raw = "nfe" ∨ targetOf raw = "notfullyevolved") →
        tools.getMove (targetOf raw) = none →
        classify tools raw =
          match indexOf (targetOf raw) " type" with
          | some idx =>
            if jsIn (typeNameOf (targetOf raw) idx) tools.typeChart = true then
              .constraint (.types (typeNameOf (targetOf raw) idx)) (isNotSearchOf raw)
            else .unrecognized (typeNameOf (targetOf raw) idx)
          | none => .unrecognized (targetOf raw))) := by
  refine ⟨?_, ?_, ?_⟩
  · rw [← isGen_iff]
    constructor
    · rintro ⟨key, n, h⟩
      by_contra h3
      exact classify_not_gen tools raw hA h1 h2 h3 key n h
    · intro h3
      exact ⟨_, _, classify_gen _ _ hA h1 h2 h3⟩
  · intro h
    have h3 := (isGen_iff _).mpr h
    have hc := classify_gen _ _ hA h1 h2 h3
    refine ⟨hc, ?_⟩
    intro broadcasting st
    rw [step_eq_record, hc]
  · intro h
    have h3 : ¬ isGen (parseInt (targetOf raw)) = true := by
      rw [isGen_iff]
      rintro ⟨k, hk, h0, h7⟩
      rcases h with h | ⟨k', hk', h'⟩
      · rw [h] at hk; cases hk
      · rw [hk'] at hk
        simp only [Option.some.injEq] at hk
        subst hk
        omega
    exact ⟨classify_all _ _ hA h1 h2 h3, classify_mega _ _ hA h1 h2 h3,
      classify_fe _ _ hA h1 h2 h3, classify_nfe _ _ hA h1 h2 h3,
      fun mv h4 h5 h6 h7 h8 => classify_move _ _ mv hA h1 h2 h3 h4 h5 h6 h7 h8,
      classify_rest _ _ hA h1 h2 h3⟩

theorem generation_token_witness :
    (classify exampleTools "!3" = .constraint (.gen (targetOf "!3")) (isNotSearchOf "!3")) ∧
    (classify exampleTools "0" =
      match indexOf (targetOf "0") " type" with
      | some idx =>
        if jsIn (typeNameOf (targetOf "0") idx) exampleTools.typeChart = true then
          .constraint (.types (typeNameOf (targetOf "0") idx)) (isNotSearchOf "0")
        else .unrecognized (typeNameOf (targetOf "0") idx)
      | none => .unrecognized (targetOf "0")) ∧
    parseInt "7th" = some 7 ∧ parseInt "-2" = some (-2) ∧ parseInt "six" = none ∧
    classify exampleTools "7th" = .unrecognized "7th" ∧
    classify exampleTools "-2" = .unrecognized "-2" ∧
    classify exampleTools "six" = .unrecognized "six" ∧
    classify exampleTools "6" = .constraint (.gen "6") false ∧
    jsIn (targetOf "constructor") allTiers = true ∧
    classify exampleTools "constructor" = .constraint (.tier "constructor") false :=
  ⟨((generation_token exampleTools "!3" (by decide) (by decide) (by decide) (by decide)).2.1
      ⟨3, by decide, by decide, by decide⟩).1,
   ((generation_token exampleTools "0" (by decide) (by decide) (by decide) (by decide)).2.2
      (Or.inr ⟨0, by decide, Or.inl (by decide)⟩)).2.2.2.2.2
      (by decide) (by decide) (by decide) (by decide) (by decide),
   by decide, by decide, by decide, by decide, by decide, by decide, by decide, by decide,
   by decide⟩

/-! ## Type tokens -/

theorem indexOfFrom_none (pat s : List Char) (i : Nat)
    (h : indexOfFrom pat s i = none) : ¬ ∃ pre post, s = pre ++ pat ++ post := by
  induction s generalizing i with
  | nil =>
    simp only [indexOfFrom] at h
    rintro ⟨pre, post, hs⟩
    have hp : pat = [] := by
      have := congrArg List.length hs
      simp only [List.length_nil, List.length_append] at this
      exact List.length_eq_zero.mp (by omega)
    simp [hp] at h
  | cons c cs ih =>
    simp only [indexOfFrom] at h
    by_cases hp : pat.isPrefixOf (c :: cs) = true
    · simp [hp] at h
    · simp only [hp, Bool.false_eq_true, if_false] at h
      rintro ⟨pre, post, hs⟩
      cases pre with
      | nil =>
        apply hp
        rw [List.isPrefixOf_iff_prefix]
        exact ⟨post, by simpa using hs.symm⟩
      | cons d pre' =>
        simp only [List.cons_append, List.cons.injEq] at hs
        exact ih (i + 1) h ⟨pre', post, hs.2⟩

theorem indexOfFrom_some (pat s : List Char) (i idx : Nat)
    (h : indexOfFrom pat s i = some idx) :
    ∃ pre post, s = pre ++ pat ++ post ∧ idx = i + pre.length ∧
      ∀ pre' post', s = pre' ++ pat ++ post' → pre.length ≤ pre'.length := by
  induction s generalizing i with
  | nil =>
    simp only [indexOfFrom] at h
    by_cases hp : pat = []
    · simp only [hp, if_true, Option.some.injEq] at h
      exact ⟨[], [], by simp [hp], by simp [h], by simp⟩
    · simp [hp] at h
  | cons c cs ih =>
    simp only [indexOfFrom] at h
    by_cases hp : pat.isPrefixOf (c :: cs) = true
    · simp only [hp, if_true, Option.some.injEq] at h
      rw [List.isPrefixOf_iff_prefix] at hp
      obtain ⟨post, hpost⟩ := hp
      exact ⟨[], post, by simpa using hpost.symm, by simp [h], by simp⟩
    · simp only [hp, Bool.false_eq_true, if_false] at h
      obtain ⟨pre, post, hs, hidx, hmin⟩ := ih (i + 1) h
      refine ⟨c :: pre, post, by simp [hs], by simp [hidx]; omega, ?_⟩
      intro pre' post' hs'
      cases pre' with
      | nil =>
        exfalso
        apply hp
        rw [List.isPrefixOf_iff_prefix]
        exact ⟨post', by simpa using hs'.symm⟩
      | cons d pre'' =>
        simp only [List.cons_append, List.cons.injEq] at hs'
        have := hmin pre'' post' hs'.2
        simp only [List.length_cons]
        omega

theorem indexOf_eq_some_iff (target pat : String) (idx : Nat) :
    indexOf target pat = some idx ↔
      ∃ pre post, target.data = pre ++ pat.data ++ post ∧ idx = pre.length ∧
        ∀ pre' post', target.data = pre' ++ pat.data ++ post' → pre.length ≤ pre'.length := by
  unfold indexOf
  constructor
  · intro h
    obtain ⟨pre, post, hs, hidx, hmin⟩ := indexOfFrom_some _ _ _ _ h
    exact ⟨pre, post, hs, by simpa using hidx, hmin⟩
  · rintro ⟨pre, post, hs, hidx, hmin⟩
    cases h : indexOfFrom pat.data target.data 0 with
    | none => exact absurd ⟨pre, post, hs⟩ (indexOfFrom_none _ _ _ h)
    | some idx' =>
      obtain ⟨pre', post', hs', hidx', hmin'⟩ := indexOfFrom_some _ _ _ _ h
      have h1 := hmin pre' post' hs'
      have h2 := hmin' pre post hs
      simp only [Option.some.injEq]
      omega

/-- C18, as the code has it. A token of ASCII characters that passes none of
the earlier tests stands for a constraint on the type T if and only if its text
contains " type" and T, the text before the first occurrence of " type" with
the first character of the token upper-cased, passes the test
`T in Tools.data.TypeChart`: it is a key of the type chart or a name inherited
from `Object.prototype`; the text after " type" plays no part. -/
theorem type_token (tools : Tools) (raw : String) (_hascii : isAscii raw = true)
    (hA : tools.getAbility raw = none)
    (h1 : ¬ jsIn (targetOf raw) allTiers = true) (h2 : ¬ jsIn (targetOf raw) allColours = true)
    (h3 : ¬ isGen (parseInt (targetOf raw)) = true) (h4 : targetOf raw ≠ "all")
    (h5 : ¬ (targetOf raw = "megas" ∨ targetOf raw = "mega"))
    (h6 : ¬ (targetOf raw = "fe" ∨ targetOf raw = "fullyevolved"))
    (h7 : ¬ (targetOf raw = "nfe" ∨ targetOf raw = "notfullyevolved"))
    (h8 : tools.getMove (targetOf raw) = none) (T : String) (n : Bool) :
    classify tools raw = .constraint (.types T) n ↔
      n = isNotSearchOf raw ∧ jsIn T tools.typeChart = true ∧
      ∃ pre post, (targetOf raw).data = pre ++ " type".data ++ post ∧
        (∀ pre' post', (targetOf raw).data = pre' ++ " type".data ++ post' →
          pre.length ≤ pre'.length) ∧
        T.data = ((targetOf raw).data.take 1).map upperChar ++ pre.drop 1 := by
  rw [classify_rest _ _ hA h1 h2 h3 h4 h5 h6 h7 h8]
  have hname : ∀ pre post, (targetOf raw).data = pre ++ " type".data ++ post →
      (typeNameOf (targetOf raw) pre.length).data =
        ((targetOf raw).data.take 1).map upperChar ++ pre.drop 1 := by
    intro pre post hs
    simp only [typeNameOf]
    congr 2
    rw [hs, List.append_assoc, List.take_left]
  constructor
  · intro h
    cases hI : indexOf (targetOf raw) " type" with
    | none => simp [hI] at h
    | some idx =>
      simp only [hI] at h
      by_cases h9 : jsIn (typeNameOf (targetOf raw) idx) tools.typeChart = true
      · simp only [h9, if_true, Term.constraint.injEq, Slot.types.injEq] at h
        obtain ⟨hT, hn⟩ := h
        obtain ⟨pre, post, hs, hidx, hmin⟩ := (indexOf_eq_some_iff _ _ _).mp hI
        subst hidx
        refine ⟨hn.symm, hT ▸ h9, pre, post, hs, hmin, ?_⟩
        rw [← hT]
        exact hname pre post hs
      · simp [h9] at h
  · rintro ⟨hn, hT, pre, post, hs, hmin, hdata⟩
    have hI : indexOf (targetOf raw) " type" = some pre.length :=
      (indexOf_eq_some_iff _ _ _).mpr ⟨pre, post, hs, rfl, hmin⟩
    have hTeq : typeNameOf (targetOf raw) pre.length = T := by
      have := hname pre post hs
      rw [← hdata] at this
      exact String.ext this
    simp only [hI, hTeq, hT, if_true, hn]

theorem type_token_witness :
    (classify exampleTools "fire type xyz" = .constraint (.types "Fire") false ↔
      false = isNotSearchOf "fire type xyz" ∧ jsIn "Fire" exampleTools.typeChart = true ∧
      ∃ pre post, (targetOf "fire type xyz").data = pre ++ " type".data ++ post ∧
        (∀ pre' post', (targetOf "fire type xyz").data = pre' ++ " type".data ++ post' →
          pre.length ≤ pre'.length) ∧
        "Fire".data = ((targetOf "fire type xyz").data.take 1).map upperChar ++ pre.drop 1) ∧
    classify exampleTools "__proto__ type" = .constraint (.types "__proto__") false ∧
    jsIn "__proto__" exampleTools.typeChart = true ∧
    accumulate exampleTools false ["__proto__ type"] =
      .ok { State.init with searches := { State.init.searches with types := some [] } } ∧
    dexsearch exampleTools 5 false ["__proto__ type"] =
      .replied (.listed ["Charizard", "Charmander", "Charmeleon", "Ferroseed", "Smeargle",
        "Squirtle"]) ∧
    dexsearch exampleTools 5 false ["!__proto__ type"] = .replied (.contradiction "a type") :=
  ⟨type_token exampleTools "fire type xyz" (by decide) (by decide) (by decide) (by decide)
      (by decide) (by decide) (by decide) (by decide) (by decide) (by decide) "Fire" false,
   by decide, by decide, rfl, by decide, by decide⟩

/-- C18, counterexample. The tokens "fire types" and "fire type xyz" contain
" type" without ending in it, and both are accepted as the type constraint
include-Fire. -/
theorem type_suffix_not_required :
    classify exampleTools "fire types" = .constraint (.types "Fire") false ∧
    classify exampleTools "fire type xyz" = .constraint (.types "Fire") false ∧
    accumulate exampleTools false ["fire types"] =
      .ok { State.init with searches := { State.init.searches with
              types := some [("Fire", true)] } } ∧
    dexsearch exampleTools 5 false ["fire type xyz"] =
      .replied (.listed ["Charizard", "Charmander", "Charmeleon"]) ∧
    dexsearch exampleTools 5 false ["fire type xyz"] =
      dexsearch exampleTools 5 false ["fire type"] := by
  refine ⟨by decide, by decide, rfl, by decide, by decide⟩

/-! ## The collapse of alternate forms -/

/-- C19, as the code has it. When the filtered names hold an alternate form
(a name that differs from its base species) together with its base species,
the collapse drops the alternate form; a name that is its own base species is
always kept. -/
theorem collapse_drops_alternate_form (tools : Tools) (results : List String)
    (alt : String)
    (hform : (tools.getTemplate alt).baseSpecies ≠ alt)
    (hbase : (tools.getTemplate alt).baseSpecies ∈ results) :
    alt ∉ collapse tools results ∧
    (∀ b ∈ results, (tools.getTemplate b).baseSpecies = b → b ∈ collapse tools results) ∧
    ((tools.getTemplate (tools.getTemplate alt).baseSpecies).baseSpecies =
        (tools.getTemplate alt).baseSpecies →
      (tools.getTemplate alt).baseSpecies ∈ collapse tools results) := by
  have hkeep : ∀ b ∈ results, (tools.getTemplate b).baseSpecies = b →
      b ∈ collapse tools results := by
    intro b hb hself
    simp only [collapse, List.mem_filter, hb, true_and]
    simp [hself]
  refine ⟨?_, hkeep, fun h => hkeep _ hbase h⟩
  intro hin
  simp only [collapse, List.mem_filter, Bool.not_eq_true', Bool.and_eq_false_imp, bne_iff_ne,
    ne_eq, List.contains_eq_any_beq, List.any_eq_false, beq_iff_eq] at hin
  exact hin.2 (Ne.symm hform) _ hbase rfl

theorem collapse_drops_alternate_form_witness :
    "Rotom-Wash" ∉ collapse formsTools ["Rotom", "Rotom-Wash"] ∧
    "Rotom" ∈ collapse formsTools ["Rotom", "Rotom-Wash"] :=
  ⟨(collapse_drops_alternate_form formsTools ["Rotom", "Rotom-Wash"] "Rotom-Wash"
      (by decide) (by decide)).1,
   (collapse_drops_alternate_form formsTools ["Rotom", "Rotom-Wash"] "Rotom-Wash"
      (by decide) (by decide)).2.2 (by decide)⟩

/-- C19, counterexample. Rotom and its alternate form Rotom-Wash both pass the
filter for the type Electric; the collapse keeps the base form Rotom and drops
the alternate form. -/
theorem collapse_keeps_base_form :
    (formsTools.getTemplate "Rotom-Wash").baseSpecies = "Rotom" ∧
    (formsTools.getTemplate "Rotom").baseSpecies = "Rotom" ∧
    filterDex formsTools 5
      { State.init with searches := { State.init.searches with
          types := some [("Electric", true)] } } =
      .ok [("rotom", rotom), ("rotomwash", rotomwash)] ∧
    collapse formsTools ["Rotom", "Rotom-Wash"] = ["Rotom"] ∧
    dexsearch formsTools 5 false ["electric type"] = .replied (.listed ["Rotom"]) := by
  refine ⟨by decide, by decide, rfl, by decide, by decide⟩

/-! ## The reply -/

theorem leUnits_total (a b : List Nat) : leUnits a b = true ∨ leUnits b a = true := by
  induction a generalizing b with
  | nil => exact Or.inl (by simp [leUnits])
  | cons x xs ih =>
    cases b with
    | nil => exact Or.inr (by simp [leUnits])
    | cons y ys =>
      simp only [leUnits]
      rcases Nat.lt_trichotomy x y with h | h | h
      · exact Or.inl (by simp [h])
      · subst h
        simpa using ih ys
      · exact Or.inr (by simp [h])

theorem leUnits_trans (a b c : List Nat) (hab : leUnits a b = true) (hbc : leUnits b c = true) :
    leUnits a c = true := by
  induction a generalizing b c with
  | nil => simp [leUnits]
  | cons x xs ih =>
    cases b with
    | nil => simp [leUnits] at hab
    | cons y ys =>
      cases c with
      | nil => simp [leUnits] at hbc
      | cons z zs =>
        simp only [leUnits] at hab hbc ⊢
        by_cases hxy : x < y
        · by_cases hyz : y < z
          · have : x < z := by omega
            simp [this]
          · by_cases hzy : z < y
            · simp [hyz, hzy] at hbc
            · have : y = z := by omega
              subst this
              simp [hxy]
        · by_cases hyx : y < x
          · simp [hxy, hyx] at hab
          · have hxy' : x = y := by omega
            subst hxy'
            simp only [hxy, if_false] at hab
            by_cases hxz : x < z
            · simp [hxz]
            · by_cases hzx : z < x
              · simp [hxz, hzx] at hbc
              · simp only [hxz, hzx, if_false] at hbc ⊢
                exact ih ys zs hab hbc

theorem sortNames_sorted (results : List String) :
    (sortNames results).Sorted (fun a b => jsLe a b = true) := by
  haveI : IsTotal String (fun a b => jsLe a b = true) := ⟨fun a b => leUnits_total _ _⟩
  haveI : IsTrans String (fun a b => jsLe a b = true) :=
    ⟨fun a b c hab hbc => leUnits_trans _ _ _ hab hbc⟩
  exact List.sorted_insertionSort _ results

theorem sortNames_perm (results : List String) : (sortNames results).Perm results :=
  List.perm_insertionSort _ results

/-- C20. For an accepted token list that does not fail the test of line 654,
the reply renders the collapsed names. Without any name it is "No Pokémon
found."; with at most 10 names, or when the parameter all was given, it lists
a rearrangement of the collapsed names (each name as often as it survives,
once when the names are distinct) in ascending order of their code units;
otherwise, `randomize` rearranging the array, it lists 10 of the collapsed
names and states the number of the others as the total minus 10. -/
theorem reply_listing (tools : Tools) (fuel : Nat) (broadcasting : Bool)
    (targets : List String) (st : State) (dex : List (String × Template))
    (hacc : accumulate tools broadcasting targets = .ok st)
    (hnb : nothingButAll st = false)
    (hdex : filterDex tools fuel st = .ok dex) :
    dexsearch tools fuel broadcasting targets =
      .replied (render tools st.showAll (collapse tools (speciesOf dex))) ∧
    (st.showAll = true ↔ ∃ raw ∈ targets, classify tools raw = .all) ∧
    (collapse tools (speciesOf dex) = [] →
      render tools st.showAll (collapse tools (speciesOf dex)) = .noneFound) ∧
    (collapse tools (speciesOf dex) ≠ [] →
      (st.showAll = true ∨ (collapse tools (speciesOf dex)).length ≤ 10) →
      ∃ names, render tools st.showAll (collapse tools (speciesOf dex)) = .listed names ∧
        names.Perm (collapse tools (speciesOf dex)) ∧
        names.Sorted (fun a b => jsLe a b = true) ∧
        ((collapse tools (speciesOf dex)).Nodup → names.Nodup)) ∧
    (st.showAll = false → 10 < (collapse tools (speciesOf dex)).length →
      (tools.randomize (collapse tools (speciesOf dex))).Perm (collapse tools (speciesOf dex)) →
      ∃ names, render tools st.showAll (collapse tools (speciesOf dex)) =
          .truncated names ((collapse tools (speciesOf dex)).length - 10) ∧
        names.length = 10 ∧ names.Subperm (collapse tools (speciesOf dex)) ∧
        ((collapse tools (speciesOf dex)).Nodup → names.Nodup) ∧
        (Reply.truncated names ((collapse tools (speciesOf dex)).length - 10)).text =
          ", ".intercalate names ++ ", and " ++
            toString ((collapse tools (speciesOf dex)).length - 10) ++
            " more. Redo the search with 'all' as a search parameter to show all results.") := by
  refine ⟨?_, ?_⟩
  · simp only [dexsearch, hacc, hnb, hdex, Bool.false_eq_true, if_false]
  generalize collapse tools (speciesOf dex) = results
  refine ⟨?_, ?_, ?_, ?_⟩
  · have := accumulateFrom_showAll tools broadcasting State.init st targets hacc
    simpa [State.init] using this
  · intro h
    simp [render, h]
  · intro hne hor
    have hpos : results.length > 0 := List.length_pos.mpr hne
    refine ⟨sortNames results, ?_, sortNames_perm results, sortNames_sorted results, ?_⟩
    · simp only [render, hpos, if_true, hor]
    · intro hnd
      exact (sortNames_perm results).nodup_iff.mpr hnd
  · intro hshow hlen hperm
    refine ⟨(tools.randomize results).take 10, ?_, ?_, ?_, ?_, rfl⟩
    · have hpos : results.length > 0 := by omega
      have hnot : ¬ (st.showAll = true ∨ results.length ≤ 10) := by
        simp only [hshow, Bool.false_eq_true, false_or]
        omega
      simp only [render, hpos, if_true, hnot, if_false]
    · rw [List.length_take, hperm.length_eq]
      omega
    · exact (List.take_sublist _ _).subperm.trans hperm.subperm
    · intro hnd
      exact List.Nodup.sublist (List.take_sublist _ _) (hperm.nodup_iff.mpr hnd)

theorem reply_listing_witness :
    (∃ names, render exampleTools false
        (collapse exampleTools (speciesOf [("charmander", charmander),
          ("charmeleon", charmeleon), ("charizard", charizard)])) = .listed names ∧
      names.Perm (collapse exampleTools (speciesOf [("charmander", charmander),
        ("charmeleon", charmeleon), ("charizard", charizard)])) ∧
      names.Sorted (fun a b => jsLe a b = true) ∧
      ((collapse exampleTools (speciesOf [("charmander", charmander),
        ("charmeleon", charmeleon), ("charizard", charizard)])).Nodup → names.Nodup)) ∧
    (∃ names, render manyTools false (collapse manyTools (speciesOf
          (manyTools.pokedex.map fun p => (p, plainTemplate p)))) =
        .truncated names ((collapse manyTools (speciesOf
          (manyTools.pokedex.map fun p => (p, plainTemplate p)))).length - 10) ∧
      names.length = 10 ∧
      names.Subperm (collapse manyTools (speciesOf
        (manyTools.pokedex.map fun p => (p, plainTemplate p))))) ∧
    dexsearch exampleTools 5 false ["fire type"] =
      .replied (.listed ["Charizard", "Charmander", "Charmeleon"]) ∧
    dexsearch manyTools 5 false ["normal type"] =
      .replied (.truncated ["m", "k", "l", "a", "b", "c", "d", "e", "f", "g"] 2) ∧
    dexsearch manyTools 5 false ["normal type", "all"] =
      .replied (.listed ["a", "b", "c", "d", "e", "f", "g", "h", "i", "k", "l", "m"]) :=
  ⟨(reply_listing exampleTools 5 false ["fire type"]
      { State.init with searches := { State.init.searches with
          types := some [("Fire", true)] } }
      [("charmander", charmander), ("charmeleon", charmeleon), ("charizard", charizard)]
      rfl (by decide) rfl).2.2.2.1 (by decide) (Or.inr (by decide)),
   (fun ⟨names, h1, h2, h3, _⟩ => ⟨names, h1, h2, h3⟩)
     ((reply_listing manyTools 5 false ["normal type"]
      { State.init with searches := { State.init.searches with
          types := some [("Normal", true)] } }
      (manyTools.pokedex.map fun p => (p, plainTemplate p))
      rfl (by decide) rfl).2.2.2.2 rfl (by decide) (List.Perm.refl _)),
   by decide, by decide, by decide⟩

/-! ## The move pass on records without a learn set -/

theorem movesDelete_no_learnset (tools : Tools) (fuel : Nat) (moves : Dict) (mon : Template)
    (hown : (tools.getTemplate mon.id).learnset = none)
    (hbase : (tools.getTemplate (tools.getTemplate mon.id).baseSpecies).learnset = none) :
    movesDelete tools fuel moves mon = .ok false := by
  simp [movesDelete, hown, hbase]

theorem movesPass_keeps (tools : Tools) (fuel : Nat) (moves : Dict) (entry : String × Template)
    (hkeep : movesDelete tools fuel moves entry.2 = .ok false) :
    ∀ (dex kept : List (String × Template)), movesPass tools fuel moves dex = .ok kept →
      entry ∈ dex → entry ∈ kept := by
  intro dex
  induction dex with
  | nil => intro kept _ hmem; simp at hmem
  | cons head rest ih =>
    intro kept hpass hmem
    rw [movesPass] at hpass
    cases hd : movesDelete tools fuel moves head.2 with
    | error e => rw [hd] at hpass; simp at hpass
    | ok deleted =>
      rw [hd] at hpass
      cases hr : movesPass tools fuel moves rest with
      | error e => rw [hr] at hpass; simp at hpass
      | ok kept' =>
        rw [hr] at hpass
        simp only [Except.ok.injEq] at hpass
        rcases List.mem_cons.mp hmem with heq | hin
        · subst heq
          rw [hkeep] at hd
          simp only [Except.ok.injEq] at hd
          subst hd
          rw [← hpass]
          simp
        · have := ih kept' hr hin
          rw [← hpass]
          cases deleted <;> simp [this]

/-- C27: a record for which neither the own template nor the template of the
base species has a learn set is never deleted by the body of the move pass,
whatever the move constraints and the fuel, the body raises nothing for it, and
the record is in the dex left by every move pass that returns. -/
theorem no_learnset_survives_move_pass (tools : Tools) (mon : Template)
    (hown : (tools.getTemplate mon.id).learnset = none)
    (hbase : (tools.getTemplate (tools.getTemplate mon.id).baseSpecies).learnset = none) :
    (∀ (fuel : Nat) (moves : Dict), movesDelete tools fuel moves mon = .ok false) ∧
    (∀ (fuel : Nat) (moves : Dict) (key : String) (dex kept : List (String × Template)),
      movesPass tools fuel moves dex = .ok kept → (key, mon) ∈ dex → (key, mon) ∈ kept) := by
  refine ⟨fun fuel moves => movesDelete_no_learnset tools fuel moves mon hown hbase, ?_⟩
  intro fuel moves key dex kept hpass hmem
  exact movesPass_keeps tools fuel moves (key, mon)
    (movesDelete_no_learnset tools fuel moves mon hown hbase) dex kept hpass hmem

theorem no_learnset_survives_move_pass_witness :
    (gapTools.getTemplate pichu.id).learnset = none ∧
    (gapTools.getTemplate (gapTools.getTemplate pichu.id).baseSpecies).learnset = none ∧
    movesDelete gapTools 3 [("Thunderbolt", true)] pichu = .ok false ∧
    movesPass gapTools 3 [("Thunderbolt", true)] [("pikachu", pikachu), ("pichu", pichu)] =
      .ok [("pikachu", pikachu), ("pichu", pichu)] ∧
    ("pichu", pichu) ∈ [("pikachu", pikachu), ("pichu", pichu)] ∧
    dexsearch gapTools 3 false ["thunderbolt"] = .replied (.listed ["Pichu", "Pikachu"]) :=
  ⟨by decide, by decide,
   (no_learnset_survives_move_pass gapTools pichu (by decide) (by decide)).1 3
     [("Thunderbolt", true)],
   rfl,
   (no_learnset_survives_move_pass gapTools pichu (by decide) (by decide)).2 3
     [("Thunderbolt", true)] "pichu" [("pikachu", pikachu), ("pichu", pichu)]
     [("pikachu", pikachu), ("pichu", pichu)] rfl (by decide),
   by decide⟩

/-! ## The collapse as a filter -/

theorem collapse_sublist (tools : Tools) (results : List String) :
    (collapse tools results).Sublist results := by
  unfold collapse
  exact List.filter_sublist _

theorem mem_collapse_iff (tools : Tools) (results : List String) (name : String) :
    name ∈ collapse tools results ↔
      (name ∈ results ∧ ¬ (name ≠ (tools.getTemplate name).baseSpecies ∧
        (tools.getTemplate name).baseSpecies ∈ results)) := by
  simp only [collapse, List.mem_filter, Bool.not_eq_true', Bool.and_eq_false_imp, bne_iff_ne,
    ne_eq, List.contains_eq_any_beq, List.any_eq_false, beq_iff_eq, not_and]
  constructor
  · rintro ⟨hmem, h⟩
    refine ⟨hmem, fun hne hin => ?_⟩
    exact h hne _ hin rfl
  · rintro ⟨hmem, h⟩
    refine ⟨hmem, fun hne x hx hxe => ?_⟩
    exact h hne (by rw [hxe]; exact hx)

theorem not_mem_collapse (tools : Tools) (results : List String) (name : String)
    (hmem : name ∈ results) :
    name ∉ collapse tools results ↔
      (name ≠ (tools.getTemplate name).baseSpecies ∧
        (tools.getTemplate name).baseSpecies ∈ results) := by
  rw [mem_collapse_iff]
  constructor
  · intro h
    by_contra hcon
    exact h ⟨hmem, hcon⟩
  · rintro h ⟨_, hno⟩
    exact hno h

theorem collapse_idem (tools : Tools) (results : List String) :
    collapse tools (collapse tools results) = collapse tools results := by
  generalize hc : collapse tools results = once
  unfold collapse
  rw [List.filter_eq_self]
  intro name hname
  rw [← hc] at hname
  have hk := (mem_collapse_iff tools results name).mp hname
  simp only [Bool.not_eq_true', Bool.and_eq_false_imp, bne_iff_ne, ne_eq]
  intro hne
  have hno : (tools.getTemplate name).baseSpecies ∉ results := fun hin => hk.2 ⟨hne, hin⟩
  have : (tools.getTemplate name).baseSpecies ∉ once := by
    rw [← hc]
    exact fun hin => hno ((collapse_sublist tools results).subset hin)
  simpa using this

/-- C28: the collapse step returns a sublist of the filtered names; it keeps
every name equal to its own base species; it drops a name of the list exactly
when the name differs from its base species and the base species is in the
filtered list; no name left differs from its base species while that base
species is left too; and collapsing twice gives what collapsing once gives. -/
theorem collapse_invariants (tools : Tools) (results : List String) :
    (collapse tools results).Sublist results ∧
    (∀ name ∈ results, name = (tools.getTemplate name).baseSpecies →
      name ∈ collapse tools results) ∧
    (∀ name ∈ results, name ∉ collapse tools results ↔
      (name ≠ (tools.getTemplate name).baseSpecies ∧
        (tools.getTemplate name).baseSpecies ∈ results)) ∧
    (∀ name ∈ collapse tools results, name ≠ (tools.getTemplate name).baseSpecies →
      (tools.getTemplate name).baseSpecies ∉ collapse tools results) ∧
    collapse tools (collapse tools results) = collapse tools results := by
  refine ⟨collapse_sublist tools results, ?_, ?_, ?_, collapse_idem tools results⟩
  · intro name hmem hbase
    exact (mem_collapse_iff tools results name).mpr ⟨hmem, fun h => h.1 hbase⟩
  · intro name hmem
    exact not_mem_collapse tools results name hmem
  · intro name hname hne hin
    have hk := (mem_collapse_iff tools results name).mp hname
    exact hk.2 ⟨hne, (collapse_sublist tools results).subset hin⟩

/-! ## The order of the parameters -/

/-- C22: the token list fire type, fire type, flying type is accepted and
gives the reply Charizard, while its rearrangement fire type, flying type,
fire type is rejected with the reply that at most two types may be specified:
the outcome depends on the order of the parameters. -/
theorem order_of_parameters_matters :
    List.Perm ["fire type", "fire type", "flying type"]
      ["fire type", "flying type", "fire type"] ∧
    (accumulate exampleTools false ["fire type", "fire type", "flying type"]).toOption.map
        (fun st => st.searches.types) = some (some [("Fire", true), ("Flying", true)]) ∧
    dexsearch exampleTools 3 false ["fire type", "fire type", "flying type"] =
      .replied (.listed ["Charizard"]) ∧
    accumulate exampleTools false ["fire type", "flying type", "fire type"] =
      .error (.replied .maxTypes) ∧
    dexsearch exampleTools 3 false ["fire type", "flying type", "fire type"] =
      .replied .maxTypes := by
  refine ⟨?_, rfl, by decide, rfl, by decide⟩
  exact List.Perm.cons _ (List.Perm.swap _ _ _)

/-! ## Repeated tokens -/

/-- C29: the token blaze is accepted, and the list with a second copy of it is
rejected with the reply that only one ability may be specified; the list fire
type, flying type is accepted, and with a second copy of fire type it is
rejected with the reply that at most two types may be specified. -/
theorem repeated_token_hits_cap :
    dexsearch exampleTools 3 false ["blaze"] =
      .replied (.listed ["Charizard", "Charmander", "Charmeleon"]) ∧
    accumulate exampleTools false ["blaze", "blaze"] = .error (.replied .onlyOneAbility) ∧
    dexsearch exampleTools 3 false ["blaze", "blaze"] = .replied .onlyOneAbility ∧
    dexsearch exampleTools 3 false ["fire type", "flying type"] =
      .replied (.listed ["Charizard"]) ∧
    dexsearch exampleTools 3 false ["fire type", "flying type", "fire type"] =
      .replied .maxTypes ∧
    dexsearch exampleTools 3 false ["fire type", "fire type"] =
      dexsearch exampleTools 3 false ["fire type"] := by
  refine ⟨by decide, rfl, by decide, by decide, by decide, by decide⟩

/-! ## The spelling of a generation token -/

/-- C30: the tokens 5, 05 and 5th all parse to the integer 5 and are all
recorded as included generations, each under its own text; the token 5 selects
the records of generation 5, while 05 and 5th select no record. -/
theorem generation_spelling_matters :
    parseInt "5" = some 5 ∧ parseInt "05" = some 5 ∧ parseInt "5th" = some 5 ∧
    classify exampleTools "5" = .constraint (.gen "5") false ∧
    classify exampleTools "05" = .constraint (.gen "05") false ∧
    classify exampleTools "5th" = .constraint (.gen "5th") false ∧
    ferroseed.gen = 5 ∧
    dexsearch exampleTools 3 false ["5"] = .replied (.listed ["Ferroseed"]) ∧
    dexsearch exampleTools 3 false ["05"] = .replied .noneFound ∧
    dexsearch exampleTools 3 false ["5th"] = .replied .noneFound := by
  refine ⟨by decide, by decide, by decide, by decide, by decide, by decide, rfl, by decide,
    by decide, by decide⟩

/-! ## A prior form without a learn set -/

theorem dexsearch_first_record_error (tools : Tools) (fuel : Nat) (broadcasting : Bool)
    (targets : List String) (st : State) (moves : Dict) (entry : String × Template)
    (rest : List (String × Template)) (e : Outcome)
    (hacc : accumulate tools broadcasting targets = .ok st)
    (hmoves : st.searches.moves = some moves)
    (hdex : buildDex tools st = entry :: rest)
    (hdel : movesDelete tools fuel moves entry.2 = .error e) :
    dexsearch tools fuel broadcasting targets = e := by
  have hsize : nothingButAll st = false := by
    simp [nothingButAll, Object.size, hmoves]
  have hfilter : filterDex tools fuel st = .error e := by
    unfold filterDex
    rw [hmoves]
    simp only [hdex, movesPass, hdel, Except.map]
  unfold dexsearch
  rw [hacc]
  simp only [hsize, Bool.false_eq_true, if_false, hfilter]

theorem movesDelete_first_move (tools : Tools) (fuel : Nat) (mon : Template) (i : String)
    (wanted : Bool) (rest : Dict) (learnset : List String) (move : Move)
    (hown : (tools.getTemplate mon.id).learnset = some learnset)
    (hmove : tools.getMove i = some move) :
    movesDelete tools fuel ((i, wanted) :: rest) mon =
      match prevoWalk tools move.id fuel
          (tools.getTemplate (tools.getTemplate mon.id).id) with
      | none => .error .outOfFuel
      | some prevoTemp =>
        match prevoTemp.learnset with
        | none => .error .typeError
        | some learnset =>
          movesLoop tools fuel (tools.getTemplate mon.id) rest
            (false || (!((learnset.contains "sketch" && !sketchExcluded.contains move.id) ||
              learnset.contains move.id) && wanted) ||
             (wanted == false && ((learnset.contains "sketch" &&
               !sketchExcluded.contains move.id) || learnset.contains move.id))) := by
  unfold movesDelete
  simp only [hown, Option.isNone_some, Bool.false_eq_true, if_false]
  rw [movesLoop]
  simp only [hmove]

theorem gapTools_eval (fuel : Nat) :
    dexsearch gapTools (fuel + 1) false ["ember"] = .typeError := by
  have hwalk : prevoWalk gapTools "ember" (fuel + 1) pikachu = some pichu := by
    rw [prevoWalk_succ, if_pos (by decide)]
    have hprior : gapTools.getTemplate pikachu.prevo = pichu := by decide
    rw [hprior]
    cases fuel <;> rfl
  refine dexsearch_first_record_error gapTools (fuel + 1) false ["ember"] _ [("Ember", true)]
    ("pikachu", pikachu) [("pichu", pichu)] .typeError rfl rfl (by decide) ?_
  rw [movesDelete_first_move gapTools (fuel + 1) pikachu "Ember" true [] ["thunderbolt"]
    ⟨"ember", "Ember"⟩ (by decide) (by decide)]
  have hself : gapTools.getTemplate (gapTools.getTemplate pikachu.id).id = pikachu := by decide
  rw [hself]
  simp only [hwalk]
  rfl

/-- C23: on a catalog in which Pikachu has a learn set without Ember and its
prior form Pichu has no learn set, the token ember is accepted by the token
loop and the evaluation ends with a TypeError: the walk stops at Pichu and the
learn set read there is missing. -/
theorem evaluation_reads_missing_learnset :
    (accumulate gapTools false ["ember"]).toOption.map (fun st => st.searches.moves) =
      some (some [("Ember", true)]) ∧
    pikachu.prevo = "pichu" ∧ gapTools.getTemplate "pichu" = pichu ∧ pichu.learnset = none ∧
    prevoWalk gapTools "ember" 1 pikachu = some pichu ∧
    (∀ fuel : Nat, dexsearch gapTools (fuel + 1) false ["ember"] = .typeError) := by
  refine ⟨rfl, rfl, by decide, rfl, by decide, gapTools_eval⟩

/-! ## Termination of the prior-form walk -/

theorem prevoWalk_chain_isSome (tools : Tools) (moveId : String) :
    ∀ (priors : List Template) (fuel : Nat) (form : Template),
      isPrevoChain tools form priors → priors.length ≤ fuel →
      (prevoWalk tools moveId fuel form).isSome = true := by
  intro priors
  induction priors with
  | nil =>
    intro fuel form hchain _
    have hprevo : form.prevo = "" := hchain
    cases fuel with
    | zero => rw [prevoWalk_zero]; simp [hprevo]
    | succ n => rw [prevoWalk_succ]; simp [hprevo]
  | cons prior rest ih =>
    intro fuel form hchain hlen
    obtain ⟨_, hget, hrest⟩ := hchain
    cases fuel with
    | zero => simp at hlen
    | succ n =>
      rw [prevoWalk_succ]
      split
      · rw [hget]
        exact ih n prior hrest (by simpa using hlen)
      · rfl

theorem prevoWalk_closed_none (tools : Tools) (moveId : String) (inCycle : Template → Prop)
    (hclosed : ∀ form, inCycle form →
      form.prevo ≠ "" ∧ inLearnset form moveId = false ∧ form.learnset ≠ none ∧
        inCycle (tools.getTemplate form.prevo)) :
    ∀ (fuel : Nat) (form : Template), inCycle form → prevoWalk tools moveId fuel form = none := by
  intro fuel
  induction fuel with
  | zero =>
    intro form hform
    obtain ⟨hprevo, hlacks, hset, _⟩ := hclosed form hform
    rw [prevoWalk_zero]
    cases hl : form.learnset with
    | none => exact absurd hl hset
    | some learnset =>
      have : learnset.contains moveId = false := by simpa [inLearnset, hl] using hlacks
      have hcond : (form.prevo != "" && !learnset.contains moveId) = true := by
        rw [this]
        simp [hprevo]
      simp only [hcond, if_true]
  | succ n ih =>
    intro form hform
    obtain ⟨hprevo, hlacks, hset, hnext⟩ := hclosed form hform
    rw [prevoWalk_succ]
    cases hl : form.learnset with
    | none => exact absurd hl hset
    | some learnset =>
      have : learnset.contains moveId = false := by simpa [inLearnset, hl] using hlacks
      have hcond : (form.prevo != "" && !learnset.contains moveId) = true := by
        rw [this]
        simp [hprevo]
      simp only [hcond, if_true]
      exact ih _ hnext

theorem cyclicTools_walk (fuel : Nat) :
    prevoWalk cyclicTools "ember" fuel (linkedTemplate "ouro" "boros") = none := by
  refine prevoWalk_closed_none cyclicTools "ember"
    (fun form => form = linkedTemplate "ouro" "boros" ∨ form = linkedTemplate "boros" "ouro")
    ?_ fuel _ (Or.inl rfl)
  intro form hform
  rcases hform with h | h
  · subst h
    exact ⟨by decide, by decide, by decide, Or.inr (by decide)⟩
  · subst h
    exact ⟨by decide, by decide, by decide, Or.inl (by decide)⟩

theorem cyclicTools_eval (fuel : Nat) :
    dexsearch cyclicTools fuel false ["ember"] = .outOfFuel := by
  refine dexsearch_first_record_error cyclicTools fuel false ["ember"] _ [("Ember", true)]
    ("ouro", linkedTemplate "ouro" "boros") [("boros", linkedTemplate "boros" "ouro")]
    .outOfFuel rfl rfl (by decide) ?_
  rw [movesDelete_first_move cyclicTools fuel (linkedTemplate "ouro" "boros") "Ember" true []
    ["tackle"] ⟨"ember", "Ember"⟩ (by decide) (by decide)]
  have hself : cyclicTools.getTemplate
      (cyclicTools.getTemplate (linkedTemplate "ouro" "boros").id).id =
      linkedTemplate "ouro" "boros" := by decide
  rw [hself]
  simp only [cyclicTools_walk]

/-- C24, counterexample. On the catalog in which the prior form of ouro is
boros and the prior form of boros is ouro, neither learning Ember, the walk of
the move check does not stop within any number of steps, and the evaluation of
the token ember gives no reply at all. -/
theorem cyclic_prevo_walk_never_stops :
    (cyclicTools.getTemplate "ouro").prevo = "boros" ∧
    (cyclicTools.getTemplate "boros").prevo = "ouro" ∧
    (∀ fuel : Nat, prevoWalk cyclicTools "ember" fuel (cyclicTools.getTemplate "ouro") = none) ∧
    (∀ fuel : Nat, dexsearch cyclicTools fuel false ["ember"] = .outOfFuel) ∧
    (∀ (fuel : Nat) (r : Reply), dexsearch cyclicTools fuel false ["ember"] ≠ .replied r) := by
  refine ⟨by decide, by decide, ?_, cyclicTools_eval, ?_⟩
  · intro fuel
    have h : cyclicTools.getTemplate "ouro" = linkedTemplate "ouro" "boros" := by decide
    rw [h]
    exact cyclicTools_walk fuel
  · intro fuel r
    rw [cyclicTools_eval]
    simp

/-- C24. The walk of the move check stops within as many steps as
the form has prior forms when the prior-form links starting at the form end at
a form without prior form; when they run through forms that all have a prior
form and a learn set without the move, and never leave these forms, the walk
does not stop within any number of steps. -/
theorem prevo_walk_stops_on_chains (tools : Tools) (moveId : String) (form : Template) :
    (∀ (priors : List Template) (fuel : Nat), isPrevoChain tools form priors →
      priors.length ≤ fuel → ∃ last, prevoWalk tools moveId fuel form = some last) ∧
    (∀ inCycle : Template → Prop,
      (∀ t, inCycle t → t.prevo ≠ "" ∧ inLearnset t moveId = false ∧ t.learnset ≠ none ∧
        inCycle (tools.getTemplate t.prevo)) →
      inCycle form → ∀ fuel : Nat, prevoWalk tools moveId fuel form = none) := by
  constructor
  · intro priors fuel hchain hlen
    have h := prevoWalk_chain_isSome tools moveId priors fuel form hchain hlen
    exact Option.isSome_iff_exists.mp h
  · intro inCycle hclosed hform fuel
    exact prevoWalk_closed_none tools moveId inCycle hclosed fuel form hform

theorem prevo_walk_stops_on_chains_witness :
    isPrevoChain exampleTools charizard [charmeleon, charmander] ∧
    (∃ last, prevoWalk exampleTools "ember" 2 charizard = some last) ∧
    prevoWalk exampleTools "ember" 2 charizard = some charmander ∧
    (∀ fuel : Nat, prevoWalk cyclicTools "ember" fuel (linkedTemplate "ouro" "boros") = none) :=
  ⟨⟨by decide, by decide, by decide, by decide, rfl⟩,
   (prevo_walk_stops_on_chains exampleTools "ember" charizard).1 [charmeleon, charmander] 2
     ⟨by decide, by decide, by decide, by decide, rfl⟩ (by decide),
   by decide,
   (prevo_walk_stops_on_chains cyclicTools "ember" (linkedTemplate "ouro" "boros")).2
     (fun t => t = linkedTemplate "ouro" "boros" ∨ t = linkedTemplate "boros" "ouro")
     (fun t ht => by
       rcases ht with h | h
       · subst h
         exact ⟨by decide, by decide, by decide, Or.inr (by decide)⟩
       · subst h
         exact ⟨by decide, by decide, by decide, Or.inl (by decide)⟩)
     (Or.inl rfl)⟩

/-! ## The range of the number picked by dice -/

theorem dice_number (toNumber : String → Option ℚ) (random : Nat → ℚ) (target : String)
    (value : ℚ) (hne : target ≠ "") (hidx : indexOf target "d" = none)
    (hnum : toNumber target = some value)
    (hlen : (target.data.flatMap codeUnitsOf).length ≤ 21) :
    dice toNumber random target = .randomNumber target (some (⌊value * random 0⌋ + 1)) := by
  unfold dice
  rw [if_neg hne]
  simp only [hidx, hnum]
  rw [if_neg (by simp only [Option.isNone_some, Bool.false_eq_true, false_or]; omega)]
  simp [hne]

/-- C25: without an argument the command dice shows its help and picks no
number; with the argument 0 the number reported is 1, above the maximum 0; with
the argument -5 and the draw 1/2 the number reported is -2; whereas the branch
for arguments with a d rejects a number of faces below 1. -/
theorem dice_outside_range :
    (∀ (toNumber : String → Option ℚ) (random : Nat → ℚ), dice toNumber random "" = .help) ∧
    (∀ (toNumber : String → Option ℚ) (random : Nat → ℚ), toNumber "0" = some 0 →
      dice toNumber random "0" = .randomNumber "0" (some 1)) ∧
    (∀ (toNumber : String → Option ℚ), toNumber "-5" = some (-5) →
      dice toNumber (fun _ => 1 / 2) "-5" = .randomNumber "-5" (some (-2))) ∧
    (∀ (toNumber : String → Option ℚ) (random : Nat → ℚ),
      dice toNumber random "2d0" = .facesOutOfRange) := by
  refine ⟨?_, ?_, ?_, ?_⟩
  · intro toNumber random
    rfl
  · intro toNumber random h0
    rw [dice_number toNumber random "0" 0 (by decide) (by decide) h0 (by decide)]
    simp
  · intro toNumber h5
    have hfloor : ⌊(-5 : ℚ) * (1 / 2)⌋ = -3 := by
      rw [Int.floor_eq_iff]
      norm_num
    rw [dice_number toNumber _ "-5" (-5) (by decide) (by decide) h5 (by decide), hfloor]
    rfl
  · intro toNumber random
    have hidx : indexOf "2d0" "d" = some 1 := by decide
    have hfaces : parseInt ⟨"2d0".data.drop (1 + 1)⟩ = some 0 := by decide
    unfold dice
    rw [if_neg (by decide)]
    simp only [hidx, hfaces]
    simp

/-! ## What the reply owes to the rearrangement of the results -/

theorem step_randomize (tools : Tools) (r : List String → List String) (b : Bool) (st : State)
    (raw : String) : step { tools with randomize := r } b st raw = step tools b st raw := rfl

theorem accumulateFrom_randomize (tools : Tools) (r : List String → List String) (b : Bool)
    (targets : List String) (st : State) :
    accumulateFrom { tools with randomize := r } b st targets =
      accumulateFrom tools b st targets := by
  induction targets generalizing st with
  | nil => rfl
  | cons raw rest ih =>
    simp only [accumulateFrom, step_randomize]
    cases step tools b st raw with
    | error e => rfl
    | ok st' => exact ih st'

theorem prevoWalk_randomize (tools : Tools) (r : List String → List String) (moveId : String)
    (fuel : Nat) (form : Template) :
    prevoWalk { tools with randomize := r } moveId fuel form = prevoWalk tools moveId fuel form := by
  induction fuel generalizing form with
  | zero => rfl
  | succ n ih =>
    rw [prevoWalk_succ, prevoWalk_succ]
    split
    · exact ih _
    · rfl

theorem movesLoop_randomize (tools : Tools) (r : List String → List String) (fuel : Nat)
    (template : Template) (moves : List (String × Bool)) (deleted : Bool) :
    movesLoop { tools with randomize := r } fuel template moves deleted =
      movesLoop tools fuel template moves deleted := by
  induction moves generalizing deleted with
  | nil => rfl
  | cons entry rest ih =>
    obtain ⟨i, wanted⟩ := entry
    simp only [movesLoop, prevoWalk_randomize, ih]

theorem movesDelete_randomize (tools : Tools) (r : List String → List String) (fuel : Nat)
    (moves : Dict) (mon : Template) :
    movesDelete { tools with randomize := r } fuel moves mon = movesDelete tools fuel moves mon := by
  simp only [movesDelete, movesLoop_randomize]

theorem movesPass_randomize (tools : Tools) (r : List String → List String) (fuel : Nat)
    (moves : Dict) (dex : List (String × Template)) :
    movesPass { tools with randomize := r } fuel moves dex = movesPass tools fuel moves dex := by
  induction dex with
  | nil => rfl
  | cons entry rest ih => simp only [movesPass, movesDelete_randomize, ih]

theorem filterDex_randomize (tools : Tools) (r : List String → List String) (fuel : Nat)
    (st : State) :
    filterDex { tools with randomize := r } fuel st = filterDex tools fuel st := by
  have hdex : buildDex { tools with randomize := r } st = buildDex tools st := rfl
  have hlater : ∀ dex, laterPasses { tools with randomize := r } st.searches dex =
      laterPasses tools st.searches dex := fun _ => rfl
  unfold filterDex
  cases st.searches.moves with
  | none => simp only [hdex, hlater]
  | some moves =>
    simp only [hdex, movesPass_randomize]
    cases movesPass tools fuel moves (buildDex tools st) with
    | error e => rfl
    | ok kept => simp only [Except.map, hlater]

/-- C21, counterexample. Two catalogs with the same records, of which
twelve survive the search for the type Normal, give replies that list different
names when `randomize` leaves the results in a different order. -/
theorem truncated_reply_depends_on_randomize :
    reversedTools.getTemplate = manyTools.getTemplate ∧
    reversedTools.pokedex = manyTools.pokedex ∧
    reversedTools.typeChart = manyTools.typeChart ∧
    reversedTools.getAbility = manyTools.getAbility ∧
    reversedTools.getMove = manyTools.getMove ∧
    reversedTools.lcBanlist = manyTools.lcBanlist ∧
    dexsearch manyTools 3 false ["normal type"] =
      .replied (.truncated ["m", "k", "l", "a", "b", "c", "d", "e", "f", "g"] 2) ∧
    dexsearch reversedTools 3 false ["normal type"] =
      .replied (.truncated ["i", "h", "g", "f", "e", "d", "c", "b", "a", "l"] 2) ∧
    dexsearch manyTools 3 false ["normal type"] ≠
      dexsearch reversedTools 3 false ["normal type"] := by
  refine ⟨rfl, rfl, rfl, rfl, rfl, rfl, by decide, by decide, by decide⟩

/-- C21. The outcome of dexsearch is determined by the catalog, the
tokens and the broadcast flag, except for which ten names the reply lists when
more than ten results were found without the parameter all: two calls that
differ only in what `randomize` does to the results end the same way, or both
reply with ten names taken from their rearrangement of the same results,
followed by the same count of further results. -/
theorem deterministic_up_to_randomize (tools : Tools) (r : List String → List String)
    (fuel : Nat) (broadcasting : Bool) (targets : List String) :
    dexsearch { tools with randomize := r } fuel broadcasting targets =
      dexsearch tools fuel broadcasting targets ∨
    ∃ results : List String, 10 < results.length ∧
      dexsearch tools fuel broadcasting targets =
        .replied (.truncated ((tools.randomize results).take 10) (results.length - 10)) ∧
      dexsearch { tools with randomize := r } fuel broadcasting targets =
        .replied (.truncated ((r results).take 10) (results.length - 10)) := by
  have hcollapse : ∀ names, collapse { tools with randomize := r } names = collapse tools names :=
    fun _ => rfl
  unfold dexsearch accumulate
  rw [accumulateFrom_randomize]
  cases accumulateFrom tools broadcasting State.init targets with
  | error e => exact Or.inl rfl
  | ok st =>
    simp only [filterDex_randomize, hcollapse]
    by_cases hall : nothingButAll st = true
    · simp only [hall, if_true]
      exact Or.inl trivial
    · simp only [hall, Bool.false_eq_true, if_false]
      cases filterDex tools fuel st with
      | error e => exact Or.inl rfl
      | ok dex =>
        simp only
        generalize collapse tools (speciesOf dex) = results
        by_cases hlen : results.length > 0
        · by_cases hshow : st.showAll = true ∨ results.length ≤ 10
          · left
            simp only [render, hlen, hshow, if_true]
          · right
            refine ⟨results, by omega, ?_, ?_⟩
            · simp only [render, hlen, hshow, if_true, if_false]
            · simp only [render, hlen, hshow, if_true, if_false]
        · left
          simp only [render, hlen, if_false]

theorem deterministic_up_to_randomize_witness :
    dexsearch { exampleTools with randomize := List.reverse } 3 false ["fire type"] =
      dexsearch exampleTools 3 false ["fire type"] ∧
    dexsearch exampleTools 3 false ["fire type"] =
      .replied (.listed ["Charizard", "Charmander", "Charmeleon"]) :=
  ⟨(deterministic_up_to_randomize exampleTools List.reverse 3 false ["fire type"]).elim id
      (fun ⟨_, _, h, _⟩ => by
        have hlisted : dexsearch exampleTools 3 false ["fire type"] =
            .replied (.listed ["Charizard", "Charmander", "Charmeleon"]) := by decide
        rw [hlisted] at h
        simp at h),
   by decide⟩

/-! ## The passes as one filter: proofs -/

theorem movesPass_eq_filter (tools : Tools) (fuel : Nat) (searches : Searches) (moves : Dict)
    (hmoves : searches.moves = some moves) :
    ∀ (dex kept : List (String × Template)), movesPass tools fuel moves dex = .ok kept →
      kept = dex.filter (fun entry => Category.moves.keeps tools fuel searches entry.2) ∧
      ∀ entry ∈ dex, ∃ deleted, movesDelete tools fuel moves entry.2 = .ok deleted := by
  intro dex
  induction dex with
  | nil =>
    intro kept h
    simp only [movesPass, Except.ok.injEq] at h
    subst h
    simp
  | cons head rest ih =>
    intro kept h
    rw [movesPass] at h
    cases hd : movesDelete tools fuel moves head.2 with
    | error e => rw [hd] at h; simp at h
    | ok deleted =>
      rw [hd] at h
      cases hr : movesPass tools fuel moves rest with
      | error e => rw [hr] at h; simp at h
      | ok kept' =>
        rw [hr] at h
        simp only [Except.ok.injEq] at h
        obtain ⟨hkept, hall⟩ := ih kept' hr
        have hk : Category.moves.keeps tools fuel searches head.2 = !deleted := by
          simp only [Category.keeps, hmoves, hd]
        refine ⟨?_, ?_⟩
        · rw [← h, List.filter_cons, hk, hkept]
          cases deleted <;> simp
        · intro entry hmem
          rcases List.mem_cons.mp hmem with heq | hin
          · subst heq
            exact ⟨deleted, hd⟩
          · exact hall entry hin

theorem movesPass_returns (tools : Tools) (fuel : Nat) (searches : Searches) (moves : Dict)
    (hmoves : searches.moves = some moves) :
    ∀ dex : List (String × Template),
      (∀ entry ∈ dex, ∃ deleted, movesDelete tools fuel moves entry.2 = .ok deleted) →
      movesPass tools fuel moves dex =
        .ok (dex.filter fun entry => Category.moves.keeps tools fuel searches entry.2) := by
  intro dex
  induction dex with
  | nil => intro _; rfl
  | cons head rest ih =>
    intro hall
    obtain ⟨deleted, hd⟩ := hall head (List.mem_cons_self _ _)
    have hr := ih fun entry hin => hall entry (List.mem_cons_of_mem _ hin)
    have hk : Category.moves.keeps tools fuel searches head.2 = !deleted := by
      simp only [Category.keeps, hmoves, hd]
    rw [movesPass, hd, hr, List.filter_cons, hk]
    cases deleted <;> simp

theorem filter_all_true {α : Type} (l : List α) : l.filter (fun _ => true) = l := by
  simp

theorem laterPasses_eq_filter (tools : Tools) (fuel : Nat) (searches : Searches)
    (dex : List (String × Template)) :
    laterPasses tools searches dex =
      dex.filter fun entry =>
        Category.types.keeps tools fuel searches entry.2 &&
        (Category.ability.keeps tools fuel searches entry.2 &&
        (Category.tier.keeps tools fuel searches entry.2 &&
        (Category.gen.keeps tools fuel searches entry.2 &&
         Category.color.keeps tools fuel searches entry.2))) := by
  have hpass : ∀ (search : Option Dict) (delete : Dict → Template → Bool)
      (l : List (String × Template)),
      deletePass search delete l =
        l.filter fun entry =>
          match search with
          | none => true
          | some d => !delete d entry.2 := by
    intro search delete l
    cases search with
    | none => simp [deletePass]
    | some d => rfl
  unfold laterPasses
  simp only [hpass, List.filter_filter]
  congr 1
  funext entry
  simp only [Category.keeps]
  cases searches.types <;> cases searches.ability <;> cases searches.tier <;>
    cases searches.gen <;> cases searches.color <;>
    (try simp only [Bool.true_and, Bool.and_true]) <;> (try ac_rfl)

theorem passesInOrder_eq_filter (tools : Tools) (fuel : Nat) (searches : Searches)
    (order : List Category) :
    ∀ dex : List (String × Template),
      passesInOrder tools fuel searches order dex =
        dex.filter fun entry => order.all fun c => c.keeps tools fuel searches entry.2 := by
  induction order with
  | nil => intro dex; simp [passesInOrder]
  | cons c rest ih =>
    intro dex
    have hstep : passesInOrder tools fuel searches (c :: rest) dex =
        passesInOrder tools fuel searches rest
          (dex.filter fun entry => c.keeps tools fuel searches entry.2) := rfl
    rw [hstep, ih, List.filter_filter]
    congr 1
    funext entry
    simp only [List.all_cons]
    exact Bool.and_comm _ _

theorem all_keeps_perm (tools : Tools) (fuel : Nat) (searches : Searches)
    (order order' : List Category) (hperm : order.Perm order') (t : Template) :
    (order.all fun c => c.keeps tools fuel searches t) =
      (order'.all fun c => c.keeps tools fuel searches t) := by
  rw [Bool.eq_iff_iff]
  simp only [List.all_eq_true]
  constructor
  · intro h c hc
    exact h c (hperm.mem_iff.mpr hc)
  · intro h c hc
    exact h c (hperm.mem_iff.mp hc)

theorem filterDex_eq_filterOnce (tools : Tools) (fuel : Nat) (st : State)
    (dex : List (String × Template)) (h : filterDex tools fuel st = .ok dex) :
    dex = filterOnce tools fuel st := by
  unfold filterDex at h
  unfold filterOnce
  cases hm : st.searches.moves with
  | none =>
    rw [hm] at h
    simp only [Except.ok.injEq] at h
    rw [← h, laterPasses_eq_filter tools fuel]
    congr 1
    funext entry
    simp only [Category.inOrder, List.all_cons, List.all_nil, Bool.and_true]
    have : Category.moves.keeps tools fuel st.searches entry.2 = true := by
      simp only [Category.keeps, hm]
    rw [this, Bool.true_and]
  | some moves =>
    rw [hm] at h
    dsimp only at h
    cases hp : movesPass tools fuel moves (buildDex tools st) with
    | error e => rw [hp] at h; simp [Except.map] at h
    | ok kept =>
      rw [hp] at h
      simp only [Except.map, Except.ok.injEq] at h
      obtain ⟨hkept, _⟩ := movesPass_eq_filter tools fuel st.searches moves hm _ _ hp
      rw [← h, hkept, laterPasses_eq_filter tools fuel, List.filter_filter]
      congr 1
      funext entry
      simp only [Category.inOrder, List.all_cons, List.all_nil, Bool.and_true]
      exact Bool.and_comm _ _

theorem filterDex_returns (tools : Tools) (fuel : Nat) (st : State)
    (hret : ∀ moves, st.searches.moves = some moves → ∀ entry ∈ buildDex tools st,
      ∃ deleted, movesDelete tools fuel moves entry.2 = .ok deleted) :
    ∃ dex, filterDex tools fuel st = .ok dex := by
  unfold filterDex
  cases hm : st.searches.moves with
  | none => exact ⟨_, rfl⟩
  | some moves =>
    dsimp only
    rw [movesPass_returns tools fuel st.searches moves hm _ (hret moves hm)]
    exact ⟨_, rfl⟩

/-- C26: whenever the deletion passes of dexsearch run to their end, the dex
they leave is the eligible dex filtered once by the conjunction of the
conditions of the six categories (a condition being true when its category is
absent); it is a sublist of the eligible dex, and running the passes in any
other order of the categories on the eligible dex leaves the same dex. The
passes run to their end as soon as the body of the move pass returns for every
eligible record. -/
theorem passes_are_one_filter (tools : Tools) (fuel : Nat) (st : State) :
    (∀ dex, filterDex tools fuel st = .ok dex →
      dex = filterOnce tools fuel st ∧
      dex.Sublist (buildDex tools st) ∧
      ∀ order : List Category, order.Perm Category.inOrder →
        passesInOrder tools fuel st.searches order (buildDex tools st) = dex) ∧
    ((∀ moves, st.searches.moves = some moves → ∀ entry ∈ buildDex tools st,
        ∃ deleted, movesDelete tools fuel moves entry.2 = .ok deleted) →
      filterDex tools fuel st = .ok (filterOnce tools fuel st)) := by
  constructor
  · intro dex h
    have hdex := filterDex_eq_filterOnce tools fuel st dex h
    refine ⟨hdex, ?_, ?_⟩
    · rw [hdex]
      exact List.filter_sublist _
    · intro order hperm
      rw [passesInOrder_eq_filter, hdex]
      unfold filterOnce
      congr 1
      funext entry
      exact all_keeps_perm tools fuel st.searches order Category.inOrder hperm entry.2
  · intro hret
    obtain ⟨dex, h⟩ := filterDex_returns tools fuel st hret
    rw [h, filterDex_eq_filterOnce tools fuel st dex h]

theorem passes_are_one_filter_witness :
    accumulate exampleTools false ["fire type", "!flamethrower"] =
      .ok { State.init with searches := { State.init.searches with
              moves := some [("Flamethrower", false)], types := some [("Fire", true)] } } ∧
    filterOnce exampleTools 3 { State.init with searches := { State.init.searches with
        moves := some [("Flamethrower", false)], types := some [("Fire", true)] } } =
      [("charmander", charmander)] ∧
    passesInOrder exampleTools 3 { State.init.searches with
        moves := some [("Flamethrower", false)], types := some [("Fire", true)] }
      [.color, .gen, .tier, .ability, .types, .moves]
      (buildDex exampleTools { State.init with searches := { State.init.searches with
        moves := some [("Flamethrower", false)], types := some [("Fire", true)] } }) =
      [("charmander", charmander)] :=
  ⟨rfl,
   (((passes_are_one_filter exampleTools 3 { State.init with searches :=
      { State.init.searches with
        moves := some [("Flamethrower", false)], types := some [("Fire", true)] } }).1
      [("charmander", charmander)] rfl).1).symm,
   ((passes_are_one_filter exampleTools 3 { State.init with searches :=
      { State.init.searches with
        moves := some [("Flamethrower", false)], types := some [("Fire", true)] } }).1
      [("charmander", charmander)] rfl).2.2 [.color, .gen, .tier, .ability, .types, .moves]
      (by decide)⟩

end Dexsearch
